import Mathlib

/-!
# velocity-lite: the tree-to-program compiler (src/compile.js)

A shallow embedding of `compile.js`.  JavaScript strings are lists of
characters, the two module-level arrays `searchedVariables` and
`procedureControlStack` are an explicit `State` that every function takes and
returns, and a JavaScript `throw` is the `Except.error` component of a result
that still carries the state reached when the exception was raised (the arrays
are module-level, so they survive a failed call).
-/

namespace VelocityLite

/-- A JavaScript string, as the list of its characters. -/
abbrev Str := List Char

/-- The single quote character. -/
def quote : Char := Char.ofNat 39

/-- The backslash character. -/
def backslash : Char := Char.ofNat 92

/-! ## Character classes of the regular expressions -/

/-- The class `\w`: ASCII letters, digits and the underscore. -/
def isWord (c : Char) : Bool := c.isAlphanum || c == '_'

/-- The class `\s` of JavaScript: white space and line terminators. -/
def isSpace (c : Char) : Bool :=
  let n := c.toNat
  n == 9 || n == 10 || n == 11 || n == 12 || n == 13 || n == 32 || n == 160 ||
  n == 5760 || (8192 ≤ n && n ≤ 8202) || n == 8232 || n == 8233 || n == 8239 ||
  n == 8287 || n == 12288 || n == 65279

/-- The characters that `.` does not match: the line terminators. -/
def isLineTerminator (c : Char) : Bool :=
  let n := c.toNat
  n == 10 || n == 13 || n == 8232 || n == 8233

/-- The class `[\w\s\]]` that precedes the `=` in `regSetExp1`. -/
def isTargetEnd (c : Char) : Bool := isWord c || isSpace c || c == ']'

/-- The class `[\w\s\[\{]` that ends the `[^=]*` stretch in `regSetExp1`. -/
def isValueStart (c : Char) : Bool :=
  isWord c || isSpace c || c == '[' || c == Char.ofNat 123

/-! ## The precompiled regular expressions, as the operations the code uses -/

/-- `str.replace(regEscapeSlash, '\\\\')`: every backslash is doubled. -/
def replaceEscapeSlash : Str → Str
  | [] => []
  | c :: cs =>
    if c = backslash then backslash :: backslash :: replaceEscapeSlash cs
    else c :: replaceEscapeSlash cs

/-- `str.replace(regEscapeQuote, '\\\'')`: every single quote gets a backslash
in front of it. -/
def replaceEscapeQuote : Str → Str
  | [] => []
  | c :: cs =>
    if c = quote then backslash :: quote :: replaceEscapeQuote cs
    else c :: replaceEscapeQuote cs

/-- `segment.split(regNotW)[0]`: the text before the first character that is
not in `\w` (the whole text when there is none). -/
def splitNotW0 : Str → Str
  | [] => []
  | c :: cs => if isWord c then c :: splitNotW0 cs else []

/-- For the text after an opening delimiter: the number of characters up to
and including the last closing delimiter that `(.*)` followed by the delimiter
can reach, that is the last one before the first line terminator; `none` when
there is none. -/
def lastClose (close : Char) : Str → Option Nat
  | [] => none
  | c :: cs =>
    if isLineTerminator c then none
    else
      match lastClose close cs with
      | some k => some (k + 1)
      | none => if c = close then some 1 else none

/-- The scan of `str.replace(re, '')` for `re` an opening delimiter, `(.*)`
and a closing delimiter, with the flag `g`: `skip` characters of a match found
earlier are still to be dropped.  A match starts at the leftmost opening
delimiter that has a closing one later on the same line, it extends (greedily)
to the last such one, and the scan goes on after it. -/
def replaceDelimitedFrom (opening close : Char) : Nat → Str → Str
  | _, [] => []
  | skip + 1, _ :: cs => replaceDelimitedFrom opening close skip cs
  | 0, c :: cs =>
    if c = opening then
      match lastClose close cs with
      | some k => replaceDelimitedFrom opening close k cs
      | none => c :: replaceDelimitedFrom opening close 0 cs
    else c :: replaceDelimitedFrom opening close 0 cs

/-- `str.replace(regReplaceString, '')` with `regReplaceString = /'(.*)'/g`. -/
def replaceString (str : Str) : Str := replaceDelimitedFrom quote quote 0 str

/-- `str.replace(regReplaceBracket, '')` with `regReplaceBracket =
/\((.*)\)/g`. -/
def replaceBracket (str : Str) : Str := replaceDelimitedFrom '(' ')' 0 str

/-- Whether `[^=]*[\w\s\[\{]` matches at the start of the text. -/
def matchValue : Str → Bool
  | [] => false
  | c :: cs => isValueStart c || (c != '=' && matchValue cs)

/-- `check.search(regSetExp1) >= 0` with `regSetExp1 =
/(.*)[\w\s\]]=[^=]*[\w\s\[\{](.*)/g`: some position holds a character of
`[\w\s\]]`, then `=`, then `[^=]*[\w\s\[\{]`.  Both `(.*)` may be empty and the
search tries every start position, so they do not constrain the answer. -/
def searchSetExp1 : Str → Bool
  | [] => false
  | c :: cs =>
    (isTargetEnd c &&
      match cs with
      | d :: ds => d == '=' && matchValue ds
      | [] => false) || searchSetExp1 cs

/-- `check.match(regSetExp2)` is not `null`, with `regSetExp2 =
/(.*)[\w\s\]]=$/g`: the text ends in a character of `[\w\s\]]` followed by
`=`. -/
def matchSetExp2 : Str → Bool
  | [] => false
  | [_] => false
  | [c, d] => isTargetEnd c && d == '='
  | _ :: cs => matchSetExp2 cs

/-- If `regForeachExp = /\s+in\s+/` matches at the start of the text, the
length of the (greedy) match. -/
def matchForeachExp (s : Str) : Option Nat :=
  let w1 := s.takeWhile isSpace
  match s.dropWhile isSpace with
  | 'i' :: 'n' :: t =>
    let w2 := t.takeWhile isSpace
    if w1.length > 0 ∧ w2.length > 0 then some (w1.length + 2 + w2.length) else none
  | _ => none

/-- The scan of `expression.split(regForeachExp)`: `skip` characters of a
separator found earlier are still to be dropped, `cur` is the token read so
far. -/
def splitForeachExpFrom : Nat → Str → Str → List Str
  | _, cur, [] => [cur]
  | skip + 1, cur, _ :: cs => splitForeachExpFrom skip cur cs
  | 0, cur, c :: cs =>
    match matchForeachExp (c :: cs) with
    | some k => cur :: splitForeachExpFrom (k - 1) [] cs
    | none => splitForeachExpFrom 0 (cur ++ [c]) cs

/-- `expression.split(regForeachExp)`. -/
def splitForeachExp (expression : Str) : List Str :=
  splitForeachExpFrom 0 [] expression

/-! ## Node types, state, results -/

def TYPE_HTML : Nat := 1
def TYPE_SYNTAX : Nat := 2
def TYPE_DIRECTIVE : Nat := 3
def TYPE_VARIABLE : Nat := 4
def TYPE_VARIABLE_QR : Nat := 5
def TYPE_STRING : Nat := 6
def TYPE_STRING_CONTENT : Nat := 7

/-- A node of the parse stack: `type`, `val`, `sublayer` (absent for nodes
without one) and `begin`, the source offset used for error lines. -/
inductive Node where
  | mk (type : Nat) (val : Str) (sublayer : Option (List Node)) (begin : Nat)

/-- The field `type` of a node. -/
def Node.type : Node → Nat
  | .mk t _ _ _ => t

/-- The field `val` of a node. -/
def Node.val : Node → Str
  | .mk _ v _ _ => v

/-- The field `sublayer` of a node. -/
def Node.sublayer : Node → Option (List Node)
  | .mk _ _ s _ => s

/-- The field `begin` of a node. -/
def Node.begin : Node → Nat
  | .mk _ _ _ b => b

/-- The two options read from `configs`. -/
structure Configs where
  arraySize : Bool
  undefinedOutput : Bool

/-- The module-level arrays.  `procedureControlStack` is kept with its top
(the end of the JavaScript array, where `push` and `pop` work) at the head. -/
structure State where
  searchedVariables : List Str
  procedureControlStack : List Str
deriving DecidableEq

/-- The state of a freshly loaded module: both arrays empty. -/
def State.fresh : State := ⟨[], []⟩

/-- The second argument of `recurseMake`: `none` stands for `undefined` and
for `NaN` (`undefined + 1`), which both fail `layer == 0`. -/
abbrev Layer := Option Nat

/-- `layer + 1`. -/
def Layer.succ : Layer → Layer
  | some n => some (n + 1)
  | none => none

/-- The line handed to `throwError`: the text `EOF`, or
`error.getLine(symbols, words, begin)` of the offending node. -/
inductive Line where
  | EOF
  | getLine (begin : Nat)
deriving DecidableEq

/-- What a call can throw: `throwError(message, line)`, or a `TypeError` of
the JavaScript runtime (a method of `null` or `undefined`, or a call of a
handler the table does not have). -/
inductive Thrown where
  | throwError (message : Str) (line : Line)
  | typeError
deriving DecidableEq

deriving instance DecidableEq for Except

/-- What a directive handler hands back: a string, an object `{error:
message}`, nothing (`undefined`), or a `TypeError` raised inside it. -/
inductive Segment where
  | str (s : Str)
  | error (message : Str)
  | undefined
  | typeError
deriving DecidableEq

/-! ## escapeSQ and the directive handlers -/

/-- The function `escapeSQ`. -/
def escapeSQ (str : Str) : Str := replaceEscapeQuote (replaceEscapeSlash str)

/-- `procedureControlStack.push(kind)`. -/
def State.push (st : State) (kind : Str) : State :=
  { st with procedureControlStack := kind :: st.procedureControlStack }

/-- `procedureControlStack.slice(-1) != 'if'`: the one-element (or empty)
array is compared through its string form. -/
def State.topIsNotIf (st : State) : Bool :=
  match st.procedureControlStack with
  | [] => true
  | top :: _ => top != "if".toList

/-- The function `ifProcessor`. -/
def ifProcessor (expression : Option Str) (st : State) : Segment × State :=
  match expression with
  | none => (.typeError, st)
  | some expression =>
    let check := replaceString expression
    if searchSetExp1 check then
      (.error "不应在 if 表达式里进行赋值操作".toList, st)
    else
      (.str ("if(".toList ++ expression ++ ")\x7b".toList), st.push "if".toList)

/-- The function `elseifProcessor`. -/
def elseifProcessor (expression : Option Str) (st : State) : Segment × State :=
  if st.topIsNotIf then
    (.error "有 elseif 但没有 if".toList, st)
  else
    match expression with
    | none => (.typeError, st)
    | some expression =>
      let check := replaceString expression
      if searchSetExp1 check then
        (.error "不应在 elseif 表达式里进行赋值操作".toList, st)
      else
        (.str ("\x7delse if(".toList ++ expression ++ ")\x7b".toList), st)

/-- The function `elseProcessor`. -/
def elseProcessor (st : State) : Segment × State :=
  if st.topIsNotIf then
    (.error "有 else 但没有 if".toList, st)
  else
    (.str "\x7delse\x7b".toList, st)

/-- The function `endProcessor`. -/
def endProcessor (st : State) : Segment × State :=
  match st.procedureControlStack with
  | [] => (.error "存在 end 但缺少配对 if 或 foreach".toList, st)
  | last :: below =>
    let st := { st with procedureControlStack := below }
    if last = "if".toList then (.str "\x7d".toList, st)
    else if last = "foreach".toList then (.str "\x7d\x7d)();".toList, st)
    else (.undefined, st)

/-- The function `breakProcessor`. -/
def breakProcessor (st : State) : Segment × State :=
  (.str "return $out;".toList, st)

/-- The text `foreachProcessor` returns for the tokens `key` and `arr`. -/
def foreachCode (key arr : Str) : Str :=
  "(function()\x7b".toList
    ++ "if(".toList ++ arr ++ " instanceof Array) \x7b".toList
      ++ "var foreach=\x7b\x7d,".toList ++ key ++ ";".toList
      ++ "for(var $i=0,$len=".toList ++ arr ++ ".length;$i<$len;$i++)\x7b".toList
        ++ "foreach.count=$i+1;".toList
        ++ "foreach.index=$i;".toList
        ++ "foreach.hasNext=($i<$len-1?true:false);".toList
        ++ key ++ "=".toList ++ arr ++ "[$i];".toList
        ++ "if($callback()!==undefined) return $out;".toList
      ++ "\x7d".toList
    ++ "\x7d else \x7b".toList
      ++ "var foreach=\x7bcount:0,index:-1\x7d,".toList ++ key
        ++ ",$len=Object.getOwnPropertyNames(".toList ++ arr ++ ").length;".toList
      ++ "for(var $k in ".toList ++ arr ++ ")\x7b".toList
        ++ "foreach.count++;".toList
        ++ "foreach.index++;".toList
        ++ "foreach.hasNext=(foreach.index<$len-1?true:false);".toList
        ++ key ++ "=".toList ++ arr ++ "[$k];".toList
        ++ "if($callback()!==undefined) return $out;".toList
      ++ "\x7d".toList
    ++ "\x7d".toList
    ++ "function $callback()\x7b".toList

/-- The function `foreachProcessor`. -/
def foreachProcessor (expression : Option Str) (st : State) : Segment × State :=
  let st := st.push "foreach".toList
  match expression with
  | none => (.typeError, st)
  | some expression =>
    match splitForeachExp expression with
    | [key, arr] => (.str (foreachCode key arr), st)
    | _ => (.error "foreach 存在未识别的 token".toList, st)

/-- The function `setProcessor`. -/
def setProcessor (expression : Option Str) (st : State) : Segment × State :=
  match expression with
  | none => (.typeError, st)
  | some expression =>
    let check := replaceBracket (replaceString expression)
    if !searchSetExp1 check && !matchSetExp2 check then
      (.error "set 表达式语法不正确".toList, st)
    else
      (.str (expression ++ ";".toList), st)

/-- The table `processorHandlers`: the handler stored under a directive name,
`none` for a name the table does not have (calling it is a `TypeError`).  The
properties every JavaScript object inherits (`toString` and the like) are not
modelled: the parser produces directive names only. -/
def processorHandlers (name : Str) : Option (Option Str → State → Segment × State) :=
  if name = "if".toList then some ifProcessor
  else if name = "end".toList then some (fun _ => endProcessor)
  else if name = "else".toList then some (fun _ => elseProcessor)
  else if name = "elseif".toList then some elseifProcessor
  else if name = "foreach".toList then some foreachProcessor
  else if name = "break".toList then some (fun _ => breakProcessor)
  else if name = "set".toList then some setProcessor
  else none

/-! ## The tree walker -/

/-- The wrapper of a quiet reference. -/
def quietCode (segment : Str) : Str :=
  "(function()\x7btry\x7breturn((".toList ++ segment ++ "||".toList ++ segment
    ++ "==0)?".toList ++ segment ++ ":\x27\x27)\x7dcatch(e)\x7breturn \x27\x27;\x7d\x7d)()".toList

/-- The wrapper of a reference in undefined-output mode. -/
def undefinedOutputCode (segment : Str) : Str :=
  let undefinedOutput := '$' :: escapeSQ segment
  "(function()\x7btry\x7breturn((".toList ++ segment ++ "||".toList ++ segment
    ++ "==0)?".toList ++ segment ++ ":\x27".toList ++ undefinedOutput
    ++ "\x27)\x7dcatch(e)\x7breturn \x27".toList ++ undefinedOutput
    ++ "\x27;\x7d\x7d)()".toList

/-- `node.type == type` for a neighbour `node` that is `false` when there is
none (then the comparison is of `undefined` and fails). -/
def typeIs (node : Option Node) (type : Nat) : Bool :=
  match node with
  | none => false
  | some n => n.type == type

/-- `node && node.type != type` for a neighbour `node` that is `false` when
there is none. -/
def typeIsNot (node : Option Node) (type : Nat) : Bool :=
  match node with
  | none => false
  | some n => n.type != type

/-- The branch of the loop body for a node of type `TYPE_HTML`. -/
def visitHtml (currentNode : Node) (nextNode : Option Node) (jsCode mergedHtml : Str)
    (st : State) : Except Thrown (Str × Str) × State :=
  let mergedHtml := mergedHtml ++ currentNode.val
  if nextNode.isNone || typeIsNot nextNode TYPE_HTML then
    let escaped := escapeSQ mergedHtml
    if escaped = [] then (.ok (jsCode, mergedHtml), st)
    else (.ok (jsCode ++ "$out+=\x27".toList ++ escaped ++ "\x27;".toList, []), st)
  else (.ok (jsCode, mergedHtml), st)

/-- `if (searchedVariables.indexOf(name) == -1) searchedVariables.push(name)`. -/
def State.search (st : State) (name : Str) : State :=
  if name ∈ st.searchedVariables then st
  else { st with searchedVariables := st.searchedVariables ++ [name] }

/-- What the branch for a reference node makes of `jsCode`, once the inner
call has returned `segment`: the `$out+=` put in front at layer 0, the fragment
in one of its three modes, and the `;` put behind at layer 0. -/
def variableCode (configs : Configs) (layer : Layer) (lastNode : Option Node)
    (currentNode : Node) (jsCode segment : Str) : Str :=
  let jsCode := if layer = some 0 then jsCode ++ "$out+=".toList else jsCode
  let isQr : Bool := currentNode.type = TYPE_VARIABLE_QR
  let jsCode :=
    if isQr then jsCode ++ quietCode segment
    else if configs.undefinedOutput && (lastNode.isNone || typeIs lastNode TYPE_HTML) then
      jsCode ++ undefinedOutputCode segment
    else jsCode ++ segment
  if layer = some 0 then jsCode ++ ";".toList else jsCode

/-- The branch of the loop body for a node of type `TYPE_VARIABLE` or
`TYPE_VARIABLE_QR`; `inner` is `recurseMake(currentNode.sublayer, layer + 1)`,
`none` when the node has no `sublayer`. -/
def visitVariable (configs : Configs) (layer : Layer) (lastNode : Option Node)
    (currentNode : Node) (jsCode mergedHtml : Str) (st : State)
    (inner : Option (Except Thrown Str × State)) : Except Thrown (Str × Str) × State :=
  match inner with
  | none => (.error .typeError, st)
  | some (.error e, st) => (.error e, st)
  | some (.ok segment, st) =>
    let name := splitNotW0 segment
    let st := st.search name
    (.ok (variableCode configs layer lastNode currentNode jsCode segment, mergedHtml), st)

/-- The call `processorHandlers[currentNode.val](expression)` and what the
loop body does with the `segment` it returns. -/
def callHandler (currentNode : Node) (jsCode mergedHtml : Str) (expression : Option Str)
    (st : State) : Except Thrown (Str × Str) × State :=
  match processorHandlers currentNode.val with
  | none => (.error .typeError, st)
  | some handler =>
    match handler expression st with
    | (.error message, st) => (.error (.throwError message (.getLine currentNode.begin)), st)
    | (.str segment, st) => (.ok (jsCode ++ segment, mergedHtml), st)
    | (.undefined, st) => (.error .typeError, st)
    | (.typeError, st) => (.error .typeError, st)

/-- The branch of the loop body for a node of type `TYPE_DIRECTIVE`;
`argument` is `recurseMake(currentNode.sublayer)`, `none` when the node has no
`sublayer` (the handler is then called with `null`). -/
def visitDirective (currentNode : Node) (jsCode mergedHtml : Str) (st : State)
    (argument : Option (Except Thrown Str × State)) : Except Thrown (Str × Str) × State :=
  match argument with
  | some (.error e, st) => (.error e, st)
  | some (.ok expression, st) => callHandler currentNode jsCode mergedHtml (some expression) st
  | none => callHandler currentNode jsCode mergedHtml none st

/-- The branch of the loop body for a node of type `TYPE_STRING_CONTENT`: the
new `jsCode`. -/
def visitStringContent (lastNode : Option Node) (currentNode : Node) (nextNode : Option Node)
    (jsCode : Str) : Str :=
  let jsCode := if lastNode.isNone then jsCode ++ "\x27".toList else jsCode
  let jsCode :=
    if typeIsNot lastNode TYPE_STRING_CONTENT then jsCode ++ "+\x27".toList else jsCode
  let jsCode := jsCode ++ currentNode.val
  let jsCode :=
    if typeIsNot nextNode TYPE_STRING_CONTENT then jsCode ++ "\x27+".toList else jsCode
  if nextNode.isNone then jsCode ++ "\x27".toList else jsCode

/-- The branch of the loop body for a node of type `TYPE_STRING`; `inner` is
`recurseMake(currentNode.sublayer, layer + 1)`. -/
def visitString (jsCode mergedHtml : Str) (st : State)
    (inner : Option (Except Thrown Str × State)) : Except Thrown (Str × Str) × State :=
  match inner with
  | none => (.error .typeError, st)
  | some (.error e, st) => (.error e, st)
  | some (.ok segment, st) => (.ok (jsCode ++ segment, mergedHtml), st)

/-- The body of the `for` loop of `recurseMake` for one node.  `lastNode` and
`nextNode` are `none` where the code has `false`, that is when `i == 0`,
respectively `i == length - 1`; `recurse layer` is `recurseMake(currentNode.sublayer,
layer)` run in the state `st`, and `none` when the node has no `sublayer`.  The
result is the new `jsCode` and `mergedHtml`. -/
def visit (configs : Configs) (layer : Layer) (lastNode : Option Node) (currentNode : Node)
    (nextNode : Option Node) (jsCode mergedHtml : Str) (st : State)
    (recurse : Layer → Option (Except Thrown Str × State)) :
    Except Thrown (Str × Str) × State :=
  if !currentNode.val.isEmpty && currentNode.val == [] then
    (.ok (jsCode, mergedHtml), st)
  else if currentNode.type = TYPE_HTML then
    visitHtml currentNode nextNode jsCode mergedHtml st
  else if currentNode.type = TYPE_VARIABLE ∨ currentNode.type = TYPE_VARIABLE_QR then
    visitVariable configs layer lastNode currentNode jsCode mergedHtml st (recurse layer.succ)
  else if currentNode.type = TYPE_DIRECTIVE then
    visitDirective currentNode jsCode mergedHtml st (recurse none)
  else if currentNode.type = TYPE_SYNTAX then
    (.ok (jsCode ++ currentNode.val, mergedHtml), st)
  else if currentNode.type = TYPE_STRING_CONTENT then
    (.ok (visitStringContent lastNode currentNode nextNode jsCode, mergedHtml), st)
  else if currentNode.type = TYPE_STRING then
    visitString jsCode mergedHtml st (recurse layer.succ)
  else (.ok (jsCode, mergedHtml), st)

mutual
/-- The `for` loop of `recurseMake`, from the node after `lastNode` on, with
the values `jsCode` and `mergedHtml` reached so far; it ends in `return
jsCode`. -/
def recurseLoop (configs : Configs) :
    Layer → Option Node → List Node → Str → Str → State → Except Thrown Str × State
  | _, _, [], jsCode, _, st => (.ok jsCode, st)
  | layer, lastNode, currentNode :: rest, jsCode, mergedHtml, st =>
    match visit configs layer lastNode currentNode rest.head? jsCode mergedHtml st
        (recurseSublayer configs currentNode st) with
    | (.error e, st) => (.error e, st)
    | (.ok (jsCode, mergedHtml), st) =>
      recurseLoop configs layer (some currentNode) rest jsCode mergedHtml st
/-- The inner call `recurseMake(currentNode.sublayer, layer)` in the state
`st`: the loop over the sublayer, started with no previous node and empty
`jsCode` and `mergedHtml`; `none` when the node has no `sublayer`. -/
def recurseSublayer (configs : Configs) :
    Node → State → Layer → Option (Except Thrown Str × State)
  | .mk _ _ (some sublayer) _, st, layer => some (recurseLoop configs layer none sublayer [] [] st)
  | .mk _ _ none _, _, _ => none
end

/-- The function `recurseMake`. -/
def recurseMake (configs : Configs) (parseStack : List Node) (layer : Layer) (st : State) :
    Except Thrown Str × State :=
  recurseLoop configs layer none parseStack [] [] st

/-- The declarations `compile` emits for the names in `searchedVariables`. -/
def declarations : List Str → Str
  | [] => []
  | v :: vs =>
    "var ".toList ++ v ++ "=$data.".toList ++ v ++ "||undefined;".toList ++ declarations vs

/-- The text `compile` starts `jsCode` with: the header, the `size` method
when `configs.arraySize` is set, and the initializer. -/
def prologue (configs : Configs) : Str :=
  "\x27use strict\x27;".toList
    ++ (if configs.arraySize then
          "if(!Array.prototype.size)\x7bArray.prototype.size=function()\x7breturn this.length;\x7d;\x7d".toList
        else [])
    ++ "var $data=arguments[0],$out=\x27\x27;".toList

/-- The function `compile`, on `set.parseStack`. -/
def compile (configs : Configs) (parseStack : List Node) (st : State) :
    Except Thrown Str × State :=
  let jsCode := prologue configs
  match recurseMake configs parseStack (some 0) st with
  | (.error e, st) => (.error e, st)
  | (.ok inner, st) =>
    if st.procedureControlStack.length > 0 then
      (.error (.throwError "有 if 或 foreach 但缺少配对 end".toList .EOF), st)
    else
      (.ok (jsCode ++ declarations st.searchedVariables ++ inner ++ "return $out;".toList), st)

/-! ## Definitions the statements use -/

/-- Reading the inside of a single-quoted JavaScript literal back, as far as
the two escapes go: a backslash followed by a backslash or a quote stands for
that second character, every other character for itself.  The result is `none`
when the text is not the inside of such a literal: it holds a line terminator
(a line feed or a carriage return, which no string literal admits, or U+2028 or
U+2029, which string literals admit since ECMAScript 2019 only), a quote without
a backslash in front of it (which would end the literal), or a backslash
followed by anything else (another escape, or nothing at all). -/
def unescapeSQ : Str → Option Str
  | [] => some []
  | [c] => if c = backslash ∨ c = quote ∨ isLineTerminator c = true then none else some [c]
  | c :: d :: cs =>
    if c = backslash then
      if d = backslash ∨ d = quote then (unescapeSQ cs).map (fun t => d :: t) else none
    else if c = quote ∨ isLineTerminator c = true then none
    else (unescapeSQ (d :: cs)).map (fun t => c :: t)

/-- The values of a node list, concatenated in order. -/
def concatVals : List Node → Str
  | [] => []
  | n :: ns => n.val ++ concatVals ns

/-- One append of a single-quoted literal holding `escapeSQ text`, and nothing
at all for the empty text. -/
def appendLiteral (text : Str) : Str :=
  if text = [] then [] else "$out+=\x27".toList ++ escapeSQ text ++ "\x27;".toList

/-- A result of the loop body with `jsCode` put in front of the text it
holds. -/
def prependJs (jsCode : Str) (r : Except Thrown (Str × Str) × State) :
    Except Thrown (Str × Str) × State :=
  (r.1.map (fun p => (jsCode ++ p.1, p.2)), r.2)

/-- The assignment shape `regSetExp1` looks for, stated on the text: a
character of `[\w\s\]]`, then `=`, then characters other than `=`, then a
character of `[\w\s\[\{]`. -/
def AssignmentShape (s : Str) : Prop :=
  ∃ pre c1 mid c2 post, s = pre ++ c1 :: '=' :: (mid ++ c2 :: post) ∧
    isTargetEnd c1 = true ∧ '=' ∉ mid ∧ isValueStart c2 = true

/-- An assignment outside every single-quoted literal, read off the text from
left to right: a word character, a single `=` and a word character, met while
the number of quotes passed is even (`inside` tells whether a literal is open). -/
def assignmentOutsideQuotes : Bool → Str → Bool
  | _, [] => false
  | inside, c :: cs =>
    if c = quote then assignmentOutsideQuotes (!inside) cs
    else
      (!inside &&
        match cs with
        | d :: e :: _ => isWord c && d == '=' && isWord e
        | _ => false) || assignmentOutsideQuotes inside cs

/-- The scan of `expression.split(" in ")`, the split on the separator as the
specification writes it (one blank, `in`, one blank): `skip` characters of a
separator found earlier are still to be dropped, `cur` is the token read so
far. -/
def splitBlankInBlankFrom : Nat → Str → Str → List Str
  | _, cur, [] => [cur]
  | skip + 1, cur, _ :: cs => splitBlankInBlankFrom skip cur cs
  | 0, cur, c :: cs =>
    match c :: cs with
    | ' ' :: 'i' :: 'n' :: ' ' :: _ => cur :: splitBlankInBlankFrom 3 [] cs
    | _ => splitBlankInBlankFrom 0 (cur ++ [c]) cs

/-- `expression.split(" in ")`. -/
def splitBlankInBlank (expression : Str) : List Str :=
  splitBlankInBlankFrom 0 [] expression

mutual
/-- No directive node in the list, nor anywhere below it, and a sublayer on
every reference and string node. -/
def plainNodes : List Node → Bool
  | [] => true
  | n :: rest => plainNode n && plainNodes rest
/-- The node is no directive, and holds a sublayer without directives when it
holds one; a reference or a string node holds one. -/
def plainNode : Node → Bool
  | .mk type _ (some sublayer) _ => type != TYPE_DIRECTIVE && plainNodes sublayer
  | .mk type _ none _ =>
    type != TYPE_DIRECTIVE && type != TYPE_VARIABLE && type != TYPE_VARIABLE_QR
      && type != TYPE_STRING
end

/-- The expression of a directive node: the text `recurseMake` gives for its
sublayer, when it has one that holds no directive. -/
def directiveExpression (configs : Configs) (n : Node) : Option Str :=
  match n.sublayer with
  | some sub =>
    if plainNodes sub then
      match (recurseMake configs sub none State.fresh).1 with
      | .ok expression => some expression
      | .error _ => none
    else none
  | none => none

/-- The sublayer of the node, when it has one, holds no directive. -/
def plainArgument (n : Node) : Bool :=
  match n.sublayer with
  | some sub => plainNodes sub
  | none => true

/-- One top-level node read against the open blocks `stack` (innermost
first): the open blocks after it, or `none` when the node is not in order.  An
`if` or `foreach` whose expression passes its check opens a block, an `end`
closes the innermost open block, `set` needs an expression that passes its
check, `elseif` one that passes the check of `if`; with `elseNeedsIf`, an `else`
or `elseif` also needs the innermost open block to be an `if`.  Any other node
must be free of directives. -/
def nestStep (elseNeedsIf : Bool) (configs : Configs) (stack : List Str) (n : Node) :
    Option (List Str) :=
  if n.type = TYPE_DIRECTIVE then
    if n.val = "if".toList then
      match directiveExpression configs n with
      | some e => if searchSetExp1 (replaceString e) then none else some ("if".toList :: stack)
      | none => none
    else if n.val = "foreach".toList then
      match directiveExpression configs n with
      | some e =>
        if (splitForeachExp e).length = 2 then some ("foreach".toList :: stack) else none
      | none => none
    else if n.val = "end".toList then
      match stack with
      | top :: below =>
        if plainArgument n ∧ (top = "if".toList ∨ top = "foreach".toList) then some below
        else none
      | [] => none
    else if n.val = "else".toList then
      if plainArgument n ∧ (elseNeedsIf → stack.head? = some "if".toList) then some stack
      else none
    else if n.val = "elseif".toList then
      match directiveExpression configs n with
      | some e =>
        if searchSetExp1 (replaceString e) = false
            ∧ (elseNeedsIf → stack.head? = some "if".toList) then some stack
        else none
      | none => none
    else if n.val = "set".toList then
      match directiveExpression configs n with
      | some e =>
        if searchSetExp1 (replaceBracket (replaceString e))
            || matchSetExp2 (replaceBracket (replaceString e)) then some stack
        else none
      | none => none
    else if n.val = "break".toList then
      if plainArgument n then some stack else none
    else none
  else if plainNode n then some stack
  else none

/-- The top-level node sequence is properly nested from the open blocks
`stack`: every node is in order and no block is left open at the end. -/
def wellNested (elseNeedsIf : Bool) (configs : Configs) : List Str → List Node → Bool
  | stack, [] => stack = []
  | stack, n :: rest =>
    match nestStep elseNeedsIf configs stack n with
    | some stack1 => wellNested elseNeedsIf configs stack1 rest
    | none => false

/-- The open blocks (innermost first) after the top-level node sequence,
read node by node with `nestStep` from the open blocks `stack`: every `if` and
`foreach` in order opens a block, every `end` closes the innermost one.  It is
`none` when some node is not in order. -/
def openBlocks (elseNeedsIf : Bool) (configs : Configs) :
    List Str → List Node → Option (List Str)
  | stack, [] => some stack
  | stack, n :: rest =>
    match nestStep elseNeedsIf configs stack n with
    | some stack1 => openBlocks elseNeedsIf configs stack1 rest
    | none => none

/-- The distinct entries of a list in the order of their first occurrence. -/
def firstSeen : List Str → List Str
  | [] => []
  | x :: xs => x :: (firstSeen xs).filter (fun y => y != x)

/-- `State.search` for each name of a list in turn, on the variable list. -/
def searchAll (vars : List Str) : List Str → List Str
  | [] => vars
  | name :: names => searchAll (if name ∈ vars then vars else vars ++ [name]) names

/-- The root names the loop body meets on one node, in the order met: the
names met inside its sublayer (`inside`), and for a reference node whose inner
call returned a segment, the root name of that segment after them. -/
def seenVisit (currentNode : Node) (layer : Layer)
    (recurse : Layer → Option (Except Thrown Str × State)) (inside : Layer → List Str) :
    List Str :=
  if currentNode.type = TYPE_VARIABLE ∨ currentNode.type = TYPE_VARIABLE_QR then
    inside layer.succ ++
      match recurse layer.succ with
      | some (.ok segment, _) => [splitNotW0 segment]
      | _ => []
  else if currentNode.type = TYPE_DIRECTIVE then inside none
  else if currentNode.type = TYPE_STRING then inside layer.succ
  else []

mutual
/-- The root names of the references the loop meets on a node list, in the
order met (a reference is met when its segment is complete, so after the
references inside it), up to the point where the loop throws if it does.  Each
node is read in the state the loop has reached when it comes to it. -/
def seenLoop (configs : Configs) : Layer → Option Node → List Node → State → List Str
  | _, _, [], _ => []
  | layer, lastNode, currentNode :: rest, st =>
    seenVisit currentNode layer (recurseSublayer configs currentNode st)
        (seenSublayer configs currentNode st) ++
      match visit configs layer lastNode currentNode rest.head? [] [] st
          (recurseSublayer configs currentNode st) with
      | (.ok _, st1) => seenLoop configs layer (some currentNode) rest st1
      | (.error _, _) => []
/-- The root names met inside the sublayer of a node, compiled at `layer` in
the state `st`. -/
def seenSublayer (configs : Configs) : Node → State → Layer → List Str
  | .mk _ _ (some sublayer) _, st, layer => seenLoop configs layer none sublayer st
  | .mk _ _ none _, _, _ => []
end

/-- The state of a result, and whether it is a success. -/
def outcome {α : Type} (r : Except Thrown α × State) : Bool × State := (r.1.isOk, r.2)

/-- What the loop does on a list without directives: it returns a text that
does not depend on the state, and it leaves the block stack as it was. -/
def PlainResult (configs : Configs) (nodes : List Node) : Prop :=
  ∀ (layer : Layer) (lastNode : Option Node) (jsCode mergedHtml : Str),
    ∃ text : Str, ∀ st : State, ∃ vars : List Str,
      recurseLoop configs layer lastNode nodes jsCode mergedHtml st
        = (.ok text, ⟨vars, st.procedureControlStack⟩)

/-- The text without its single-quoted parts, as the specification words
the check of `set`: read from left to right, every stretch from a quote to the
next quote is left out (`inside` tells whether such a stretch is open). -/
def withoutQuoted : Bool → Str → Str
  | _, [] => []
  | inside, c :: cs =>
    if c = quote then withoutQuoted (!inside) cs
    else if inside then withoutQuoted inside cs
    else c :: withoutQuoted inside cs

/-- The text without its parenthesised parts, as the specification words the
check of `set`: every stretch from a `(` to the `)` that closes it is left out
(`depth` counts the parentheses that are open). -/
def withoutParenthesised : Nat → Str → Str
  | _, [] => []
  | depth, c :: cs =>
    if c = '(' then withoutParenthesised (depth + 1) cs
    else if c = ')' then withoutParenthesised (depth - 1) cs
    else if depth = 0 then c :: withoutParenthesised depth cs
    else withoutParenthesised depth cs

/-- The second shape `setProcessor` accepts, stated on the text: the text
ends in a character of `[\w\s\]]` followed by `=`. -/
def TrailingShape (s : Str) : Prop :=
  ∃ pre c, s = pre ++ [c, '='] ∧ isTargetEnd c = true

/-- The expression fragment of a reference node whose inner call returned
`segment`, in the mode the loop body chooses: the quiet wrapper, the
undefined-output wrapper, or the segment as it is. -/
def referenceFragment (configs : Configs) (lastNode : Option Node) (currentNode : Node)
    (segment : Str) : Str :=
  if currentNode.type = TYPE_VARIABLE_QR then quietCode segment
  else if configs.undefinedOutput && (lastNode.isNone || typeIs lastNode TYPE_HTML) then
    undefinedOutputCode segment
  else segment

/-- The number of consecutive backslashes at the end of a text. -/
def trailingBackslashes (text : Str) : Nat :=
  (text.reverse.takeWhile (fun c => c == backslash)).length

/-- The number of consecutive backslashes at the end of a text that follows
`k` backslashes, counted from the left. -/
def backslashRun : Nat → Str → Nat
  | k, [] => k
  | k, c :: cs => if c = backslash then backslashRun (k + 1) cs else backslashRun 0 cs

/-- A sequence of directive-handler calls, each a directive name with the
expression handed over, run from a state: a name the table does not have calls
nothing. -/
def runHandlers : List (Str × Option Str) → State → State
  | [], st => st
  | (name, expression) :: calls, st =>
    match processorHandlers name with
    | some handler => runHandlers calls (handler expression st).2
    | none => runHandlers calls st

/-- Every entry of the block stack is `if` or `foreach`. -/
def StackKinds (st : State) : Prop :=
  ∀ kind ∈ st.procedureControlStack, kind = "if".toList ∨ kind = "foreach".toList

/-- The walk of a node list does not look at the variable list: from two
states with the same block stack it gives the same text or error, the same block
stack, and meets the same root names. -/
def SameWalk (configs : Configs) (nodes : List Node) : Prop :=
  ∀ (layer : Layer) (lastNode : Option Node) (jsCode mergedHtml : Str) (st st1 : State),
    st.procedureControlStack = st1.procedureControlStack →
    (recurseLoop configs layer lastNode nodes jsCode mergedHtml st).1
      = (recurseLoop configs layer lastNode nodes jsCode mergedHtml st1).1 ∧
    (recurseLoop configs layer lastNode nodes jsCode mergedHtml st).2.procedureControlStack
      = (recurseLoop configs layer lastNode nodes jsCode mergedHtml st1).2.procedureControlStack ∧
    seenLoop configs layer lastNode nodes st = seenLoop configs layer lastNode nodes st1

/-- Two results of an inner call that agree but for the variable list: both
absent, or both present with the same text or error and the same block stack. -/
def SameInner (r r1 : Option (Except Thrown Str × State)) : Prop :=
  match r, r1 with
  | none, none => True
  | some a, some b => a.1 = b.1 ∧ a.2.procedureControlStack = b.2.procedureControlStack
  | _, _ => False

/-! ## The emitted program at run time -/

/-- The statements of an emitted program that decide where a `break` leads:
the append of a literal, the `return $out;` of `breakProcessor`, and the loop of
`foreachProcessor` with the statements between it and its `end`. -/
inductive Emitted where
  | append (text : Str)
  | returnOut
  | foreachLoop (key arr : Str) (body : List Emitted)

/-- The reference node of a name. -/
def referenceNode (name : Str) : Node :=
  .mk TYPE_VARIABLE [] (some [.mk TYPE_SYNTAX name none 0]) 0

/-- The `end` directive node. -/
def endNode : Node := .mk TYPE_DIRECTIVE "end".toList none 0

mutual
/-- The parse stack whose program the statements are: a literal node for an
append, a `break` directive for `return $out;`, and for a loop the directive
`foreach(key in arr)`, the nodes of its body and the directive `end`. -/
def templateOf : List Emitted → List Node
  | [] => []
  | s :: rest => templateOfOne s (templateOf rest)
/-- The nodes of one statement, put in front of `tail`. -/
def templateOfOne : Emitted → List Node → List Node
  | .append text, tail => .mk TYPE_HTML text none 0 :: tail
  | .returnOut, tail => .mk TYPE_DIRECTIVE "break".toList none 0 :: tail
  | .foreachLoop key arr body, tail =>
    .mk TYPE_DIRECTIVE "foreach".toList
        (some [referenceNode key, .mk TYPE_SYNTAX " in ".toList none 0, referenceNode arr]) 0
      :: (templateOf body ++ endNode :: tail)
end

mutual
/-- The text of the statements, as the handlers write it: `appendLiteral` for
an append, `return $out;`, and for a loop the text of `foreachProcessor`, the
text of the body, and the closing text of `endProcessor`. -/
def textOf : List Emitted → Str
  | [] => []
  | s :: rest => textOfOne s ++ textOf rest
/-- The text of one statement. -/
def textOfOne : Emitted → Str
  | .append text => appendLiteral text
  | .returnOut => "return $out;".toList
  | .foreachLoop key arr body =>
    foreachCode key arr ++ textOf body ++ "\x7d\x7d)();".toList
end

mutual
/-- The root names the walk meets in the template of the statements. -/
def namesOf : List Emitted → List Str
  | [] => []
  | s :: rest => namesOfOne s ++ namesOf rest
/-- The root names in the template of one statement. -/
def namesOfOne : Emitted → List Str
  | .append _ => []
  | .returnOut => []
  | .foreachLoop key arr body => splitNotW0 key :: splitNotW0 arr :: namesOf body
end

/-- Whether a statement is an append. -/
def Emitted.isAppend : Emitted → Bool
  | .append _ => true
  | _ => false

mutual
/-- No two appends are adjacent (the loop would merge their literals into
one), and the expression of every loop splits into its key and collection. -/
def separated : List Emitted → Bool
  | [] => true
  | s :: rest =>
    separatedOne s && separated rest
      && !(s.isAppend && (match rest with | [] => false | t :: _ => t.isAppend))
/-- The condition on one statement. -/
def separatedOne : Emitted → Bool
  | .append _ => true
  | .returnOut => true
  | .foreachLoop key arr body =>
    decide (splitForeachExp (key ++ " in ".toList ++ arr) = [key, arr]) && separated body
end

/-- The loop of `foreachCode` at run time, over a collection of `n` entries:
`$callback()` is called once per entry, and the first call that returns a value
(the second component tells) makes the loop function return. -/
def iterate (callback : Str → Str × Bool) : Nat → Str → Str
  | 0, out => out
  | n + 1, out =>
    if (callback out).2 then (callback out).1 else iterate callback n (callback out).1

mutual
/-- The statements at run time, in the function they stand in: from the value
of `$out` to its new value, and whether that function has returned.  `entries`
gives the number of entries of each collection in the data context. -/
def run (entries : Str → Nat) : List Emitted → Str → Str × Bool
  | [], out => (out, false)
  | s :: rest, out =>
    if (runOne entries s out).2 then (runOne entries s out)
    else run entries rest (runOne entries s out).1
/-- One statement at run time.  The loop is the call `(function(){ … })();`
of a function expression, with the body as its `$callback`: the value the loop
function returns is dropped, and the function the call stands in goes on. -/
def runOne (entries : Str → Nat) : Emitted → Str → Str × Bool
  | .append text, out => (out ++ text, false)
  | .returnOut, out => (out, true)
  | .foreachLoop _ arr body, out => (iterate (run entries body) (entries arr) out, false)
end

/-- The values a reference can evaluate to at run time, as far as the hoisted
declaration and the quiet wrapper tell them apart; a number is a whole number
here, and `nan` is `NaN`. -/
inductive JsValue where
  | undefined
  | null
  | boolean (b : Bool)
  | number (n : Int)
  | nan
  | string (s : Str)

/-- What `v||…` and `v?…:…` test: `undefined`, `null`, `false`, `0`, `NaN` and
the empty string are not truthy. -/
def JsValue.truthy : JsValue → Bool
  | .undefined => false
  | .null => false
  | .boolean b => b
  | .number n => n != 0
  | .nan => false
  | .string s => !s.isEmpty

/-- The comparison `v==0` on a value that is not truthy, the only values the
quiet wrapper evaluates it on (`||` stops at a truthy left side): it holds for
`false`, `0` and the empty string, which convert to the number 0, and not for
`undefined`, `null` and `NaN`. -/
def JsValue.falsyEqualsZero : JsValue → Bool
  | .undefined => false
  | .null => false
  | .boolean _ => true
  | .number _ => true
  | .nan => false
  | .string _ => true

/-- The text `$out+=v` appends. -/
def JsValue.text : JsValue → Str
  | .undefined => "undefined".toList
  | .null => "null".toList
  | .boolean true => "true".toList
  | .boolean false => "false".toList
  | .number n => (toString n).toList
  | .nan => "NaN".toList
  | .string s => s

/-- The value the hoisted declaration `var N=$data.N||undefined;` gives the
name `N`, from the value `$data.N`. -/
def hoistedValue (v : JsValue) : JsValue :=
  if v.truthy then v else .undefined

/-- The value of the quiet wrapper
`(function(){try{return((S||S==0)?S:'')}catch(e){return '';}})()`, from what
evaluating the segment `S` gives: a value, or `none` for an exception. -/
def quietValue : Option JsValue → JsValue
  | none => .string []
  | some v => if v.truthy || v.falsyEqualsZero then v else .string []

/-! # Theorems -/

/-! ## The loop, one node at a time -/

theorem recurseLoop_nil (configs : Configs) (layer : Layer) (lastNode : Option Node)
    (jsCode mergedHtml : Str) (st : State) :
    recurseLoop configs layer lastNode [] jsCode mergedHtml st = (.ok jsCode, st) := by
  rw [recurseLoop]

theorem recurseLoop_cons (configs : Configs) (layer : Layer) (lastNode : Option Node)
    (currentNode : Node) (rest : List Node) (jsCode mergedHtml : Str) (st : State) :
    recurseLoop configs layer lastNode (currentNode :: rest) jsCode mergedHtml st =
      match visit configs layer lastNode currentNode rest.head? jsCode mergedHtml st
          (recurseSublayer configs currentNode st) with
      | (.error e, st) => (.error e, st)
      | (.ok (jsCode, mergedHtml), st) =>
        recurseLoop configs layer (some currentNode) rest jsCode mergedHtml st := by
  rw [recurseLoop]

theorem recurseSublayer_some (configs : Configs) (type : Nat) (val : Str) (sublayer : List Node)
    (begin : Nat) (st : State) (layer : Layer) :
    recurseSublayer configs (.mk type val (some sublayer) begin) st layer =
      some (recurseMake configs sublayer layer st) := by
  rw [recurseSublayer, recurseMake]

theorem recurseSublayer_none (configs : Configs) (type : Nat) (val : Str)
    (begin : Nat) (st : State) (layer : Layer) :
    recurseSublayer configs (.mk type val none begin) st layer = none := by
  rw [recurseSublayer]

/-! ## The directive handlers -/

theorem topIsNotIf_eq_false (st : State) :
    st.topIsNotIf = false ↔ st.procedureControlStack.head? = some "if".toList := by
  unfold State.topIsNotIf
  cases st.procedureControlStack with
  | nil => simp
  | cons top below => simp

/-- C3: `endProcessor` returns an error object exactly when the block stack is
empty (then with the end-without-block message and the state untouched); on a
stack with top entry `top` above `below` it leaves exactly `below` (and does not
touch the variable list), returning the closing brace when `top` is `if` and the
loop-closing text when `top` is `foreach`. -/
theorem endProcessor_pops (st : State) :
    ((∃ message, (endProcessor st).1 = .error message) ↔ st.procedureControlStack = []) ∧
    (st.procedureControlStack = [] →
      endProcessor st = (.error "存在 end 但缺少配对 if 或 foreach".toList, st)) ∧
    (∀ top below, st.procedureControlStack = top :: below →
      (endProcessor st).2.procedureControlStack = below ∧
      (endProcessor st).2.searchedVariables = st.searchedVariables ∧
      (top = "if".toList → (endProcessor st).1 = .str "\x7d".toList) ∧
      (top = "foreach".toList → (endProcessor st).1 = .str "\x7d\x7d)();".toList)) := by
  obtain ⟨vars, stack⟩ := st
  cases stack with
  | nil => simp [endProcessor]
  | cons top below =>
    refine ⟨?_, ?_, ?_⟩
    · simp only [endProcessor]
      constructor
      · rintro ⟨message, h⟩
        split_ifs at h
      · intro h
        simp at h
    · intro h
      simp at h
    · intro top' below' h
      simp only [List.cons.injEq] at h
      obtain ⟨rfl, rfl⟩ := h
      simp only [endProcessor]
      refine ⟨?_, ?_, ?_, ?_⟩
      · split_ifs <;> rfl
      · split_ifs <;> rfl
      · intro h
        simp [h]
      · intro h
        subst h
        have hne : ¬ "foreach".toList = "if".toList := by decide
        simp [hne]

/-- C4: `elseProcessor` and `elseifProcessor` never change the state; they
return a string only when the top of the block stack is `if`; and when it is not
(the stack is empty, or `foreach` or anything else is on top) they return their
else-without-if and elseif-without-if error. -/
theorem else_elseif_need_if (expression : Option Str) (st : State) :
    (elseProcessor st).2 = st ∧ (elseifProcessor expression st).2 = st ∧
    ((∃ s, (elseProcessor st).1 = .str s) →
      st.procedureControlStack.head? = some "if".toList) ∧
    ((∃ s, (elseifProcessor expression st).1 = .str s) →
      st.procedureControlStack.head? = some "if".toList) ∧
    (st.procedureControlStack.head? ≠ some "if".toList →
      (elseProcessor st).1 = .error "有 else 但没有 if".toList ∧
      (elseifProcessor expression st).1 = .error "有 elseif 但没有 if".toList) := by
  have key := topIsNotIf_eq_false st
  cases htop : st.topIsNotIf with
  | true =>
    have hne : st.procedureControlStack.head? ≠ some "if".toList := by
      intro h
      rw [key.mpr h] at htop
      cases htop
    simp [elseProcessor, elseifProcessor, htop, hne]
  | false =>
    have hif := key.mp htop
    refine ⟨?_, ?_, fun _ => hif, fun _ => hif, fun h => absurd hif h⟩
    · simp [elseProcessor, htop]
    · simp only [elseifProcessor, htop]
      cases expression with
      | none => rfl
      | some e =>
        simp only [Bool.false_eq_true, if_false]
        split_ifs <;> rfl

/-- The stack-top hypothesis of C4 met at concrete states: the empty stack and
a stack with `foreach` on top. -/
theorem else_elseif_need_if_witness :
    ((elseProcessor State.fresh).1 = .error "有 else 但没有 if".toList ∧
      (elseifProcessor (some "a".toList) State.fresh).1 = .error "有 elseif 但没有 if".toList) ∧
    ((elseProcessor ⟨[], ["foreach".toList]⟩).1 = .error "有 else 但没有 if".toList ∧
      (elseifProcessor (some "a".toList) ⟨[], ["foreach".toList]⟩).1
        = .error "有 elseif 但没有 if".toList) :=
  ⟨(else_elseif_need_if (some "a".toList) State.fresh).2.2.2.2 (by decide),
   (else_elseif_need_if (some "a".toList) ⟨[], ["foreach".toList]⟩).2.2.2.2 (by decide)⟩

/-- A walk that completes with a non-empty block stack makes `compile` throw
the unclosed-block error. -/
theorem compile_of_open_walk (configs : Configs) (parseStack : List Node) (st st1 : State)
    (inner : Str)
    (hwalk : recurseMake configs parseStack (some 0) st = (.ok inner, st1))
    (hopen : st1.procedureControlStack ≠ []) :
    compile configs parseStack st =
      (.error (.throwError "有 if 或 foreach 但缺少配对 end".toList .EOF), st1) := by
  have hlen : st1.procedureControlStack.length > 0 := List.length_pos.mpr hopen
  simp [compile, hwalk, hlen]

/-! ## Literal runs -/

theorem line93_dead (val : Str) : (!val.isEmpty && val == []) = false := by
  cases val <;> rfl

theorem escapeSQ_cons (c : Char) (cs : Str) :
    escapeSQ (c :: cs) =
      (if c = backslash then [backslash, backslash]
       else if c = quote then [backslash, quote] else [c]) ++ escapeSQ cs := by
  have hqb : ¬ backslash = quote := by decide
  unfold escapeSQ
  by_cases hb : c = backslash
  · subst hb
    simp [replaceEscapeSlash, replaceEscapeQuote, hqb]
  · by_cases hq : c = quote
    · subst hq
      simp [replaceEscapeSlash, replaceEscapeQuote, hb]
    · simp [replaceEscapeSlash, replaceEscapeQuote, hb, hq]

theorem escapeSQ_nil : escapeSQ [] = [] := rfl

theorem escapeSQ_eq_nil (s : Str) : escapeSQ s = [] ↔ s = [] := by
  cases s with
  | nil => simp [escapeSQ_nil]
  | cons c cs =>
    rw [escapeSQ_cons]
    split_ifs <;> simp

theorem unescapeSQ_plain (c : Char) (t : Str) (h1 : c ≠ backslash) (h2 : c ≠ quote)
    (h3 : isLineTerminator c = false) :
    unescapeSQ (c :: t) = (unescapeSQ t).map (fun r => c :: r) := by
  cases t with
  | nil => simp [unescapeSQ, h1, h2, h3]
  | cons d ds => simp [unescapeSQ, h1, h2, h3]

theorem unescapeSQ_escape (d : Char) (t : Str) (h : d = backslash ∨ d = quote) :
    unescapeSQ (backslash :: d :: t) = (unescapeSQ t).map (fun r => d :: r) := by
  simp [unescapeSQ, h]

theorem unescapeSQ_terminator (c : Char) (t : Str) (h : isLineTerminator c = true) :
    unescapeSQ (c :: t) = none := by
  have hb : c ≠ backslash := by
    intro e
    rw [e] at h
    exact absurd h (by decide)
  cases t with
  | nil => simp [unescapeSQ, h]
  | cons d ds => simp [unescapeSQ, hb, h]

/-- Reading `escapeSQ s` back gives `s` when `s` holds no line terminator,
and fails when it holds one: `escapeSQ` copies it as it is. -/
theorem unescapeSQ_escapeSQ (s : Str) :
    unescapeSQ (escapeSQ s) =
      if (∀ c ∈ s, isLineTerminator c = false) then some s else none := by
  have hbt : isLineTerminator backslash = false := by decide
  have hqt : isLineTerminator quote = false := by decide
  induction s with
  | nil => simp [escapeSQ_nil, unescapeSQ]
  | cons c cs ih =>
    rw [escapeSQ_cons]
    by_cases hb : c = backslash
    · subst hb
      simp only [if_true, List.cons_append, List.nil_append]
      rw [unescapeSQ_escape backslash _ (Or.inl rfl), ih]
      by_cases hall : ∀ x ∈ cs, isLineTerminator x = false
      · simp [hall, hbt]
      · simp [hall]
    · by_cases hq : c = quote
      · subst hq
        simp only [hb, if_false, if_true, List.cons_append, List.nil_append]
        rw [unescapeSQ_escape quote _ (Or.inr rfl), ih]
        by_cases hall : ∀ x ∈ cs, isLineTerminator x = false
        · simp [hall, hqt]
        · simp [hall]
      · simp only [hb, hq, if_false, List.cons_append, List.nil_append]
        by_cases hc : isLineTerminator c = true
        · rw [unescapeSQ_terminator c _ hc]
          simp [hc]
        · have hc1 : isLineTerminator c = false := by simpa using hc
          rw [unescapeSQ_plain c _ hb hq hc1, ih]
          by_cases hall : ∀ x ∈ cs, isLineTerminator x = false
          · simp [hall, hc1]
          · simp [hall]

theorem typeIsNot_some (n : Node) (type : Nat) :
    typeIsNot (some n) type = (n.type != type) := rfl

theorem typeIs_some (n : Node) (type : Nat) : typeIs (some n) type = (n.type == type) := rfl

theorem typeIs_congr (node node1 : Option Node) (type : Nat)
    (h : node.map Node.type = node1.map Node.type) : typeIs node type = typeIs node1 type := by
  cases node <;> cases node1 <;> simp_all [typeIs]

theorem typeIsNot_congr (node node1 : Option Node) (type : Nat)
    (h : node.map Node.type = node1.map Node.type) :
    typeIsNot node type = typeIsNot node1 type := by
  cases node <;> cases node1 <;> simp_all [typeIsNot]

theorem isNone_congr (node node1 : Option Node)
    (h : node.map Node.type = node1.map Node.type) : node.isNone = node1.isNone := by
  cases node <;> cases node1 <;> simp_all

/-- The outcome of `visit` on a literal node. -/
theorem visit_html (configs : Configs) (layer : Layer) (lastNode nextNode : Option Node)
    (currentNode : Node) (jsCode mergedHtml : Str) (st : State)
    (recurse : Layer → Option (Except Thrown Str × State))
    (h : currentNode.type = TYPE_HTML) :
    visit configs layer lastNode currentNode nextNode jsCode mergedHtml st recurse =
      if (nextNode.isNone || typeIsNot nextNode TYPE_HTML) = true then
        (.ok (jsCode ++ appendLiteral (mergedHtml ++ currentNode.val), []), st)
      else (.ok (jsCode, mergedHtml ++ currentNode.val), st) := by
  simp only [visit, visitHtml, line93_dead, h, appendLiteral, Bool.false_eq_true, if_false,
    if_true]
  by_cases he : escapeSQ (mergedHtml ++ currentNode.val) = []
  · have hm := (escapeSQ_eq_nil _).mp he
    simp only [hm, escapeSQ_nil, if_true, List.append_nil]
  · have hm : ¬ mergedHtml ++ currentNode.val = [] := fun h => he ((escapeSQ_eq_nil _).mpr h)
    simp only [he, hm, if_false, List.append_assoc]

/-- `visit` looks at the previous and the next node through their `type`
only. -/
theorem visit_congr (configs : Configs) (layer : Layer)
    (lastNode lastNode1 nextNode nextNode1 : Option Node)
    (currentNode : Node) (jsCode mergedHtml : Str) (st : State)
    (recurse : Layer → Option (Except Thrown Str × State))
    (hl : lastNode.map Node.type = lastNode1.map Node.type)
    (hn : nextNode.map Node.type = nextNode1.map Node.type) :
    visit configs layer lastNode currentNode nextNode jsCode mergedHtml st recurse =
      visit configs layer lastNode1 currentNode nextNode1 jsCode mergedHtml st recurse := by
  simp only [visit, visitHtml, visitVariable, variableCode, visitStringContent,
    typeIs_congr _ _ _ hl,
    typeIsNot_congr _ _ _ hl, isNone_congr _ _ hl,
    typeIs_congr _ _ _ hn, typeIsNot_congr _ _ _ hn, isNone_congr _ _ hn]

theorem recurseLoop_congr (configs : Configs) (layer : Layer)
    (lastNode lastNode1 : Option Node) (nodes : List Node) (jsCode mergedHtml : Str) (st : State)
    (hl : lastNode.map Node.type = lastNode1.map Node.type) :
    recurseLoop configs layer lastNode nodes jsCode mergedHtml st =
      recurseLoop configs layer lastNode1 nodes jsCode mergedHtml st := by
  cases nodes with
  | nil => simp [recurseLoop_nil]
  | cons n rest =>
    rw [recurseLoop_cons, recurseLoop_cons, visit_congr configs layer lastNode lastNode1 _ _ n _ _ _ _ hl rfl]

/-- A maximal run of literal nodes in the loop: the run is read to its end
and flushed there as one append of the text merged so far and the run's values
(nothing when that text is empty), leaving `mergedHtml` empty. -/
theorem recurseLoop_run (configs : Configs) (layer : Layer) (run rest : List Node)
    (hrun : ∀ n ∈ run, n.type = TYPE_HTML) (hne : run ≠ [])
    (hrest : ∀ n ∈ rest.head?, n.type ≠ TYPE_HTML)
    (lastNode : Option Node) (jsCode mergedHtml : Str) (st : State) :
    recurseLoop configs layer lastNode (run ++ rest) jsCode mergedHtml st =
      recurseLoop configs layer run.getLast? rest
        (jsCode ++ appendLiteral (mergedHtml ++ concatVals run)) [] st := by
  induction run generalizing lastNode mergedHtml with
  | nil => exact absurd rfl hne
  | cons n more ih =>
    have hn : n.type = TYPE_HTML := hrun n (List.mem_cons_self _ _)
    rw [List.cons_append, recurseLoop_cons, visit_html _ _ _ _ _ _ _ _ _ hn]
    cases more with
    | nil =>
      have hflush : ((([] : List Node) ++ rest).head?.isNone
          || typeIsNot (([] : List Node) ++ rest).head? TYPE_HTML) = true := by
        cases rest with
        | nil => rfl
        | cons r rs =>
          have := hrest r (by simp)
          simpa [typeIsNot_some] using this
      simp only [hflush, if_true]
      simp [concatVals]
    | cons n2 more2 =>
      have hn2 : n2.type = TYPE_HTML := hrun n2 (by simp)
      simp only [List.cons_append, List.head?_cons, typeIsNot_some, hn2, bne_self_eq_false,
        Option.isNone_some, Bool.or_false, Bool.false_eq_true, if_false]
      have := ih (fun x hx => hrun x (List.mem_cons_of_mem _ hx)) (by simp) (some n)
        (mergedHtml ++ n.val)
      simp only [List.cons_append] at this
      rw [this]
      simp [concatVals, List.getLast?_cons_cons]

theorem recurseMake_literals (configs : Configs) (layer : Layer) (nodes : List Node)
    (hnodes : ∀ n ∈ nodes, n.type = TYPE_HTML) (st : State) :
    recurseMake configs nodes layer st = (.ok (appendLiteral (concatVals nodes)), st) := by
  unfold recurseMake
  cases nodes with
  | nil => rw [recurseLoop_nil]; rfl
  | cons n more =>
    have h := recurseLoop_run configs layer (n :: more) [] hnodes (by simp) (by simp) none [] [] st
    rw [List.append_nil] at h
    rw [h, recurseLoop_nil]
    rfl

/-- C5, as stated, fails: for the tree of one literal node with the empty
value the program `compile` returns has no append in its body; the text is the
prologue followed at once by the final return, so it is not the prologue, an
append of any single-quoted literal and the return. -/
theorem compile_empty_literal_no_append :
    compile ⟨false, false⟩ [.mk TYPE_HTML [] none 0] State.fresh =
      (.ok (prologue ⟨false, false⟩ ++ "return $out;".toList), State.fresh) ∧
    ¬ ∃ inside : Str, (compile ⟨false, false⟩ [.mk TYPE_HTML [] none 0] State.fresh).1 =
      .ok (prologue ⟨false, false⟩ ++ ("$out+=\x27".toList ++ inside ++ "\x27;".toList)
        ++ "return $out;".toList) := by
  have h : compile ⟨false, false⟩ [.mk TYPE_HTML [] none 0] State.fresh =
      (.ok (prologue ⟨false, false⟩ ++ "return $out;".toList), State.fresh) := by decide
  refine ⟨h, ?_⟩
  rintro ⟨inside, hin⟩
  rw [h] at hin
  have hlen := congrArg List.length (Except.ok.inj hin)
  simp only [List.length_append] at hlen
  have h1 : ("$out+=\x27".toList).length = 7 := by decide
  have h2 : ("\x27;".toList).length = 2 := by decide
  omega

/-- C5, amended: for a tree of literal nodes only, `compile` from the fresh
state succeeds and leaves the state fresh; the body of the program is empty when
the concatenation of the nodes' values is empty, and otherwise it is one append
of a single-quoted literal whose inside is `escapeSQ` of that concatenation.
When the concatenation holds no line terminator, that inside read back as a
single-quoted literal is exactly the concatenation; when it holds a line feed or
a carriage return, that character stands as it is between the quotes and the
inside does not read back as a single-quoted literal. -/
theorem compile_literals (configs : Configs) (parseStack : List Node)
    (hnodes : ∀ n ∈ parseStack, n.type = TYPE_HTML) :
    (concatVals parseStack = [] →
      compile configs parseStack State.fresh =
        (.ok (prologue configs ++ "return $out;".toList), State.fresh)) ∧
    (concatVals parseStack ≠ [] →
      compile configs parseStack State.fresh =
        (.ok (prologue configs
          ++ ("$out+=\x27".toList ++ escapeSQ (concatVals parseStack) ++ "\x27;".toList)
          ++ "return $out;".toList), State.fresh)) ∧
    ((∀ c ∈ concatVals parseStack, isLineTerminator c = false) →
      unescapeSQ (escapeSQ (concatVals parseStack)) = some (concatVals parseStack)) ∧
    ((∃ c ∈ concatVals parseStack, c = Char.ofNat 10 ∨ c = Char.ofNat 13) →
      unescapeSQ (escapeSQ (concatVals parseStack)) = none) := by
  have hwalk := recurseMake_literals configs (some 0) parseStack hnodes State.fresh
  have hc : compile configs parseStack State.fresh =
      (.ok (prologue configs ++ appendLiteral (concatVals parseStack) ++ "return $out;".toList),
        State.fresh) := by
    simp only [compile, hwalk]
    simp only [State.fresh, List.length_nil, gt_iff_lt, lt_self_iff_false,
      if_false, declarations, List.append_nil]
  refine ⟨fun h => ?_, fun h => ?_, fun h => ?_, fun h => ?_⟩
  · rw [hc, appendLiteral, if_pos h, List.append_nil]
  · rw [hc, appendLiteral, if_neg h]
  · rw [unescapeSQ_escapeSQ, if_pos h]
  · rw [unescapeSQ_escapeSQ, if_neg]
    obtain ⟨c, hmem, hterm⟩ := h
    intro hall
    have hc : isLineTerminator c = true := by
      rcases hterm with h | h <;> rw [h] <;> decide
    rw [hall c hmem] at hc
    cases hc

/-- C5 amended, at concrete trees: two literal nodes holding a quote and a
backslash, whose append reads back as their concatenation, and one literal node
holding a line feed, whose append does not read back. -/
theorem compile_literals_witness :
    compile ⟨false, false⟩
        [.mk TYPE_HTML "it\x27s".toList none 0, .mk TYPE_HTML " a\\b".toList none 4]
        State.fresh =
      (.ok (prologue ⟨false, false⟩
          ++ ("$out+=\x27".toList ++ "it\\\x27s a\\\\b".toList ++ "\x27;".toList)
          ++ "return $out;".toList), State.fresh) ∧
    unescapeSQ "it\\\x27s a\\\\b".toList = some "it\x27s a\\b".toList ∧
    compile ⟨false, false⟩ [.mk TYPE_HTML "a\nb".toList none 0] State.fresh =
      (.ok (prologue ⟨false, false⟩
          ++ ("$out+=\x27".toList ++ "a\nb".toList ++ "\x27;".toList)
          ++ "return $out;".toList), State.fresh) ∧
    unescapeSQ "a\nb".toList = none :=
  ⟨(compile_literals ⟨false, false⟩
      [.mk TYPE_HTML "it\x27s".toList none 0, .mk TYPE_HTML " a\\b".toList none 4]
      (by decide)).2.1 (by decide),
    (compile_literals ⟨false, false⟩
      [.mk TYPE_HTML "it\x27s".toList none 0, .mk TYPE_HTML " a\\b".toList none 4]
      (by decide)).2.2.1 (by decide),
    (compile_literals ⟨false, false⟩ [.mk TYPE_HTML "a\nb".toList none 0]
      (by decide)).2.1 (by decide),
    (compile_literals ⟨false, false⟩ [.mk TYPE_HTML "a\nb".toList none 0]
      (by decide)).2.2.2 ⟨Char.ofNat 10, by decide, Or.inl rfl⟩⟩

/-- Two adjacent literal nodes and the one literal node holding their
concatenated values give the same loop. -/
theorem recurseLoop_merge (configs : Configs) (layer : Layer) (a b ab : Node)
    (ha : a.type = TYPE_HTML) (hb : b.type = TYPE_HTML) (hab : ab.type = TYPE_HTML)
    (hval : ab.val = a.val ++ b.val) (pre post : List Node)
    (lastNode : Option Node) (jsCode mergedHtml : Str) (st : State) :
    recurseLoop configs layer lastNode (pre ++ a :: b :: post) jsCode mergedHtml st =
      recurseLoop configs layer lastNode (pre ++ ab :: post) jsCode mergedHtml st := by
  induction pre generalizing lastNode jsCode mergedHtml st with
  | nil =>
    simp only [List.nil_append]
    rw [recurseLoop_cons, visit_html _ _ _ _ _ _ _ _ _ ha, recurseLoop_cons configs layer lastNode ab,
      visit_html _ _ _ _ _ _ _ _ _ hab]
    simp only [List.head?_cons, Option.isNone_some, typeIsNot_some, hb, bne_self_eq_false,
      Bool.or_false, Bool.false_eq_true, if_false]
    rw [recurseLoop_cons, visit_html _ _ _ _ _ _ _ _ _ hb, hval, List.append_assoc]
    split_ifs
    · exact recurseLoop_congr _ _ _ _ _ _ _ _ (by simp [hb, hab])
    · exact recurseLoop_congr _ _ _ _ _ _ _ _ (by simp [hb, hab])
  | cons p more ih =>
    simp only [List.cons_append]
    rw [recurseLoop_cons, recurseLoop_cons]
    have hn : ((more ++ a :: b :: post).head?).map Node.type
        = ((more ++ ab :: post).head?).map Node.type := by
      cases more <;> simp [ha, hab]
    rw [visit_congr configs layer lastNode lastNode _ _ p _ _ _ _ rfl hn]
    split
    · rfl
    · exact ih _ _ _ _

theorem prependJs_ok (jsCode j m : Str) (st : State) :
    prependJs jsCode (.ok (j, m), st) = (.ok (jsCode ++ j, m), st) := rfl

theorem prependJs_error (jsCode : Str) (e : Thrown) (st : State) :
    prependJs jsCode (.error e, st) = (.error e, st) := rfl

theorem visitHtml_jsCode (currentNode : Node) (nextNode : Option Node) (jsCode mergedHtml : Str)
    (st : State) :
    visitHtml currentNode nextNode jsCode mergedHtml st =
      prependJs jsCode (visitHtml currentNode nextNode [] mergedHtml st) := by
  unfold visitHtml
  by_cases h1 : (nextNode.isNone || typeIsNot nextNode TYPE_HTML) = true
  · by_cases h2 : escapeSQ (mergedHtml ++ currentNode.val) = []
    · simp only [h1, h2, if_true, prependJs_ok, List.append_nil]
    · simp only [h1, h2, if_true, if_false, prependJs_ok, List.append_assoc, List.nil_append]
  · simp only [h1, Bool.false_eq_true, if_false, prependJs_ok, List.append_nil]

theorem visitVariable_jsCode (configs : Configs) (layer : Layer) (lastNode : Option Node)
    (currentNode : Node) (jsCode mergedHtml : Str) (st : State)
    (inner : Option (Except Thrown Str × State)) :
    visitVariable configs layer lastNode currentNode jsCode mergedHtml st inner =
      prependJs jsCode
        (visitVariable configs layer lastNode currentNode [] mergedHtml st inner) := by
  unfold visitVariable
  rcases inner with _ | ⟨_ | segment, st1⟩
  · rfl
  · rfl
  · simp only [prependJs_ok, variableCode]
    split_ifs <;> simp only [List.append_assoc, List.nil_append]

theorem callHandler_jsCode (currentNode : Node) (jsCode mergedHtml : Str)
    (expression : Option Str) (st : State) :
    callHandler currentNode jsCode mergedHtml expression st =
      prependJs jsCode (callHandler currentNode [] mergedHtml expression st) := by
  unfold callHandler
  cases processorHandlers currentNode.val with
  | none => rfl
  | some handler =>
    simp only
    rcases handler expression st with ⟨_ | _ | _ | _, st1⟩ <;> rfl

theorem visitDirective_jsCode (currentNode : Node) (jsCode mergedHtml : Str) (st : State)
    (argument : Option (Except Thrown Str × State)) :
    visitDirective currentNode jsCode mergedHtml st argument =
      prependJs jsCode (visitDirective currentNode [] mergedHtml st argument) := by
  unfold visitDirective
  rcases argument with _ | ⟨_ | expression, st1⟩
  · exact callHandler_jsCode _ _ _ _ _
  · rfl
  · exact callHandler_jsCode _ _ _ _ _

theorem visitStringContent_jsCode (lastNode : Option Node) (currentNode : Node)
    (nextNode : Option Node) (jsCode : Str) :
    visitStringContent lastNode currentNode nextNode jsCode =
      jsCode ++ visitStringContent lastNode currentNode nextNode [] := by
  unfold visitStringContent
  split_ifs <;> simp only [List.append_assoc, List.nil_append]

theorem visitString_jsCode (jsCode mergedHtml : Str) (st : State)
    (inner : Option (Except Thrown Str × State)) :
    visitString jsCode mergedHtml st inner =
      prependJs jsCode (visitString [] mergedHtml st inner) := by
  unfold visitString
  rcases inner with _ | ⟨_ | segment, st1⟩ <;> rfl

/-- `visit` only appends to `jsCode`. -/
theorem visit_jsCode (configs : Configs) (layer : Layer) (lastNode nextNode : Option Node)
    (currentNode : Node) (jsCode mergedHtml : Str) (st : State)
    (recurse : Layer → Option (Except Thrown Str × State)) :
    visit configs layer lastNode currentNode nextNode jsCode mergedHtml st recurse =
      prependJs jsCode
        (visit configs layer lastNode currentNode nextNode [] mergedHtml st recurse) := by
  unfold visit
  split_ifs
  · simp only [prependJs_ok, List.append_nil]
  · exact visitHtml_jsCode _ _ _ _ _
  · exact visitVariable_jsCode _ _ _ _ _ _ _ _
  · exact visitDirective_jsCode _ _ _ _ _
  · simp only [prependJs_ok, List.nil_append]
  · rw [visitStringContent_jsCode]; rfl
  · exact visitString_jsCode _ _ _ _
  · simp only [prependJs_ok, List.append_nil]

theorem visitVariable_mergedHtml (configs : Configs) (layer : Layer) (lastNode : Option Node)
    (currentNode : Node) (jsCode mergedHtml : Str) (st : State)
    (inner : Option (Except Thrown Str × State)) (j m : Str) (st1 : State)
    (h : visitVariable configs layer lastNode currentNode jsCode mergedHtml st inner
      = (.ok (j, m), st1)) : m = mergedHtml := by
  unfold visitVariable at h
  rcases inner with _ | ⟨_ | segment, st2⟩
  · cases h
  · cases h
  · simp only [Prod.mk.injEq, Except.ok.injEq] at h
    exact h.1.2.symm

theorem callHandler_mergedHtml (currentNode : Node) (jsCode mergedHtml : Str)
    (expression : Option Str) (st : State) (j m : Str) (st1 : State)
    (h : callHandler currentNode jsCode mergedHtml expression st = (.ok (j, m), st1)) :
    m = mergedHtml := by
  unfold callHandler at h
  cases hp : processorHandlers currentNode.val with
  | none => rw [hp] at h; cases h
  | some handler =>
    rw [hp] at h
    simp only at h
    rcases hh : handler expression st with ⟨_ | _ | _ | _, st2⟩ <;> rw [hh] at h <;>
      simp only [Prod.mk.injEq, Except.ok.injEq, reduceCtorEq, false_and] at h
    exact h.1.2.symm

theorem visitDirective_mergedHtml (currentNode : Node) (jsCode mergedHtml : Str) (st : State)
    (argument : Option (Except Thrown Str × State)) (j m : Str) (st1 : State)
    (h : visitDirective currentNode jsCode mergedHtml st argument = (.ok (j, m), st1)) :
    m = mergedHtml := by
  unfold visitDirective at h
  rcases argument with _ | ⟨_ | expression, st2⟩
  · exact callHandler_mergedHtml _ _ _ _ _ _ _ _ h
  · cases h
  · exact callHandler_mergedHtml _ _ _ _ _ _ _ _ h

theorem visitString_mergedHtml (jsCode mergedHtml : Str) (st : State)
    (inner : Option (Except Thrown Str × State)) (j m : Str) (st1 : State)
    (h : visitString jsCode mergedHtml st inner = (.ok (j, m), st1)) : m = mergedHtml := by
  unfold visitString at h
  rcases inner with _ | ⟨_ | segment, st2⟩
  · cases h
  · cases h
  · simp only [Prod.mk.injEq, Except.ok.injEq] at h
    exact h.1.2.symm

/-- A node that is not a literal leaves `mergedHtml` as it is. -/
theorem visit_mergedHtml_of_ne (configs : Configs) (layer : Layer)
    (lastNode nextNode : Option Node) (currentNode : Node) (jsCode mergedHtml : Str) (st : State)
    (recurse : Layer → Option (Except Thrown Str × State))
    (hne : currentNode.type ≠ TYPE_HTML) (j m : Str) (st1 : State)
    (h : visit configs layer lastNode currentNode nextNode jsCode mergedHtml st recurse
      = (.ok (j, m), st1)) : m = mergedHtml := by
  unfold visit at h
  simp only [line93_dead, Bool.false_eq_true, if_false, hne] at h
  split_ifs at h
  · exact visitVariable_mergedHtml _ _ _ _ _ _ _ _ _ _ _ h
  · exact visitDirective_mergedHtml _ _ _ _ _ _ _ _ h
  · simp only [Prod.mk.injEq, Except.ok.injEq] at h
    exact h.1.2.symm
  · simp only [Prod.mk.injEq, Except.ok.injEq] at h
    exact h.1.2.symm
  · exact visitString_mergedHtml _ _ _ _ _ _ _ h
  · simp only [Prod.mk.injEq, Except.ok.injEq] at h
    exact h.1.2.symm

/-- The loop only appends to `jsCode`. -/
theorem recurseLoop_jsCode (configs : Configs) (layer : Layer) (nodes : List Node)
    (lastNode : Option Node) (jsCode mergedHtml : Str) (st : State) :
    recurseLoop configs layer lastNode nodes jsCode mergedHtml st =
      ((recurseLoop configs layer lastNode nodes [] mergedHtml st).1.map (jsCode ++ ·),
       (recurseLoop configs layer lastNode nodes [] mergedHtml st).2) := by
  induction nodes generalizing lastNode jsCode mergedHtml st with
  | nil => simp [recurseLoop_nil, Except.map]
  | cons n rest ih =>
    rw [recurseLoop_cons, recurseLoop_cons configs layer lastNode n rest [], visit_jsCode]
    rcases visit configs layer lastNode n rest.head? [] mergedHtml st
      (recurseSublayer configs n st) with ⟨_ | ⟨j, m⟩, st1⟩
    · rfl
    · simp only [prependJs_ok]
      rw [ih, ih (some n) j]
      rcases recurseLoop configs layer (some n) rest [] m st1 with ⟨_ | t, st2⟩
      · rfl
      · simp [Except.map]

theorem getLast?_type_of_run (run : List Node) (hrun : ∀ n ∈ run, n.type = TYPE_HTML)
    (hne : run ≠ []) : run.getLast?.map Node.type = some TYPE_HTML := by
  obtain ⟨x, hx⟩ := Option.isSome_iff_exists.mp (List.getLast?_isSome.mpr hne)
  rw [hx, Option.map_some', hrun x (List.mem_of_getLast?_eq_some hx)]

theorem head?_type_of_run (run tail : List Node) (hrun : ∀ n ∈ run, n.type = TYPE_HTML)
    (hne : run ≠ []) : (run ++ tail).head?.map Node.type = some TYPE_HTML := by
  cases run with
  | nil => exact absurd rfl hne
  | cons r rs => simp [hrun r (List.mem_cons_self _ _)]

/-- The loop around a maximal run of literal nodes: whatever stands before
and after the run, the run adds `appendLiteral` of its concatenated values
between two texts that do not depend on it, or the loop throws whatever the run
holds. -/
theorem recurseLoop_around (configs : Configs) (layer : Layer) (rest : List Node)
    (hrest : ∀ n ∈ rest.head?, n.type ≠ TYPE_HTML) (pre : List Node)
    (hpre : ∀ n ∈ pre.getLast?, n.type ≠ TYPE_HTML)
    (lastNode : Option Node) (jsCode mergedHtml : Str) (st : State)
    (hm : mergedHtml = [] ∨
      (typeIs lastNode TYPE_HTML = true ∧ typeIs pre.head? TYPE_HTML = true)) :
    ∃ around : Except Thrown (Str × Str) × State,
      ∀ run : List Node, (∀ n ∈ run, n.type = TYPE_HTML) → run ≠ [] →
        recurseLoop configs layer lastNode (pre ++ run ++ rest) jsCode mergedHtml st =
          (around.1.map (fun p => p.1 ++ appendLiteral (concatVals run) ++ p.2), around.2) := by
  induction pre generalizing lastNode jsCode mergedHtml st with
  | nil =>
    have hm0 : mergedHtml = [] := by
      rcases hm with h | ⟨_, h⟩
      · exact h
      · simp [typeIs] at h
    subst hm0
    refine ⟨((recurseLoop configs layer (some (.mk TYPE_HTML [] none 0)) rest [] [] st).1.map
      (fun t => (jsCode, t)),
      (recurseLoop configs layer (some (.mk TYPE_HTML [] none 0)) rest [] [] st).2), ?_⟩
    intro run hrun hne
    rw [List.nil_append, recurseLoop_run configs layer run rest hrun hne hrest,
      recurseLoop_congr configs layer run.getLast? (some (.mk TYPE_HTML [] none 0)) rest _ _ _
        (by rw [getLast?_type_of_run run hrun hne]; rfl),
      recurseLoop_jsCode]
    rcases recurseLoop configs layer (some (.mk TYPE_HTML [] none 0)) rest [] [] st
      with ⟨_ | t, st2⟩
    · rfl
    · simp [Except.map]
  | cons p more ih =>
    have hnext : ∀ run : List Node, (∀ n ∈ run, n.type = TYPE_HTML) → run ≠ [] →
        ((more ++ run ++ rest).head?).map Node.type
          = ((more ++ [Node.mk TYPE_HTML [] none 0] ++ rest).head?).map Node.type := by
      intro run hrun hne
      cases more with
      | nil =>
        rw [List.nil_append, List.nil_append, head?_type_of_run run rest hrun hne]
        rfl
      | cons q qs => rfl
    have hpre1 : ∀ n ∈ more.getLast?, n.type ≠ TYPE_HTML := by
      cases more with
      | nil => simp
      | cons q qs => simpa [List.getLast?_cons_cons] using hpre
    cases hv : visit configs layer lastNode p
        (more ++ [Node.mk TYPE_HTML [] none 0] ++ rest).head? jsCode mergedHtml st
        (recurseSublayer configs p st) with
    | mk r st1 =>
      rcases r with e | ⟨j, m⟩
      · refine ⟨(.error e, st1), ?_⟩
        intro run hrun hne
        rw [List.cons_append, List.cons_append, recurseLoop_cons,
          visit_congr configs layer lastNode lastNode _ _ p _ _ _ _ rfl (hnext run hrun hne), hv]
        rfl
      · have hm1 : m = [] ∨ (typeIs (some p) TYPE_HTML = true ∧ typeIs more.head? TYPE_HTML = true) := by
          by_cases hp : p.type = TYPE_HTML
          · rw [visit_html _ _ _ _ _ _ _ _ _ hp] at hv
            cases more with
            | nil => simp [hp] at hpre
            | cons q qs =>
              simp only [List.cons_append, List.head?_cons, Option.isNone_some, Bool.false_or] at hv
              by_cases hq : typeIsNot (some q) TYPE_HTML = true
              · simp only [hq, if_true, Prod.mk.injEq, Except.ok.injEq] at hv
                exact Or.inl hv.1.2.symm
              · right
                simp only [typeIsNot_some, bne_iff_ne, ne_eq, not_not] at hq
                simp [typeIs_some, hp, hq]
          · left
            have hm0 : mergedHtml = [] := by
              rcases hm with h | ⟨_, h⟩
              · exact h
              · simp [typeIs_some, hp] at h
            rw [visit_mergedHtml_of_ne _ _ _ _ _ _ _ _ _ hp _ _ _ hv, hm0]
        obtain ⟨around, haround⟩ := ih hpre1 (some p) j m st1 hm1
        refine ⟨around, ?_⟩
        intro run hrun hne
        rw [List.cons_append, List.cons_append, recurseLoop_cons,
          visit_congr configs layer lastNode lastNode _ _ p _ _ _ _ rfl (hnext run hrun hne), hv]
        exact haround run hrun hne

/-- C6: (1) for every node sequence, layer and state, `recurseMake` gives the
same result when two adjacent literal nodes are replaced by one literal node
holding their concatenated values; (2) around a maximal run of literal nodes
(no literal node right before or right after it) the result is a text before, one
`appendLiteral` of the run's concatenated values (a single append of the escaped
text, nothing when it is empty), and a text after, where the two texts, the final
state and a thrown error do not depend on the run. -/
theorem literal_run_one_append (configs : Configs) :
    (∀ (pre post : List Node) (a b ab : Node) (layer : Layer) (st : State),
      a.type = TYPE_HTML → b.type = TYPE_HTML → ab.type = TYPE_HTML →
      ab.val = a.val ++ b.val →
      recurseMake configs (pre ++ a :: b :: post) layer st =
        recurseMake configs (pre ++ ab :: post) layer st) ∧
    (∀ (pre rest : List Node) (layer : Layer) (st : State),
      (∀ n ∈ pre.getLast?, n.type ≠ TYPE_HTML) → (∀ n ∈ rest.head?, n.type ≠ TYPE_HTML) →
      ∃ around : Except Thrown (Str × Str) × State,
        ∀ run : List Node, (∀ n ∈ run, n.type = TYPE_HTML) → run ≠ [] →
          recurseMake configs (pre ++ run ++ rest) layer st =
            (around.1.map (fun p => p.1 ++ appendLiteral (concatVals run) ++ p.2),
              around.2)) := by
  refine ⟨?_, ?_⟩
  · intro pre post a b ab layer st ha hb hab hval
    exact recurseLoop_merge configs layer a b ab ha hb hab hval pre post none [] [] st
  · intro pre rest layer st hpre hrest
    exact recurseLoop_around configs layer rest hrest pre hpre none [] [] st (Or.inl rfl)


/-! ## The assignment check of `if` and `elseif` -/

theorem matchValue_iff (s : Str) :
    matchValue s = true ↔
      ∃ mid c2 post, s = mid ++ c2 :: post ∧ '=' ∉ mid ∧ isValueStart c2 = true := by
  induction s with
  | nil => simp [matchValue]
  | cons c cs ih =>
    simp only [matchValue, Bool.or_eq_true, Bool.and_eq_true, bne_iff_ne, ne_eq]
    constructor
    · rintro (h | ⟨hc, h⟩)
      · exact ⟨[], c, cs, rfl, by simp, h⟩
      · obtain ⟨mid, c2, post, rfl, hmid, hc2⟩ := ih.mp h
        exact ⟨c :: mid, c2, post, rfl, by simpa using ⟨fun h => hc h.symm, hmid⟩, hc2⟩
    · rintro ⟨mid, c2, post, heq, hmid, hc2⟩
      cases mid with
      | nil =>
        simp only [List.nil_append, List.cons.injEq] at heq
        exact Or.inl (heq.1 ▸ hc2)
      | cons m ms =>
        simp only [List.cons_append, List.cons.injEq] at heq
        simp only [List.mem_cons, not_or] at hmid
        refine Or.inr ⟨fun h => hmid.1 (heq.1 ▸ h.symm), ih.mpr ⟨ms, c2, post, heq.2, hmid.2, hc2⟩⟩

theorem searchSetExp1_iff (s : Str) : searchSetExp1 s = true ↔ AssignmentShape s := by
  unfold AssignmentShape
  induction s with
  | nil => simp [searchSetExp1]
  | cons c cs ih =>
    simp only [searchSetExp1, Bool.or_eq_true, Bool.and_eq_true]
    constructor
    · rintro (⟨hc, h⟩ | h)
      · cases cs with
        | nil => simp at h
        | cons d ds =>
          simp only [Bool.and_eq_true, beq_iff_eq] at h
          obtain ⟨mid, c2, post, rfl, hmid, hc2⟩ := (matchValue_iff ds).mp h.2
          exact ⟨[], c, mid, c2, post, by simp [h.1], hc, hmid, hc2⟩
      · obtain ⟨pre, c1, mid, c2, post, rfl, h1, hmid, hc2⟩ := ih.mp h
        exact ⟨c :: pre, c1, mid, c2, post, rfl, h1, hmid, hc2⟩
    · rintro ⟨pre, c1, mid, c2, post, heq, h1, hmid, hc2⟩
      cases pre with
      | nil =>
        simp only [List.nil_append, List.cons.injEq] at heq
        left
        rw [heq.1, heq.2]
        exact ⟨h1, by simpa using (matchValue_iff _).mpr ⟨mid, c2, post, rfl, hmid, hc2⟩⟩
      | cons p ps =>
        simp only [List.cons_append, List.cons.injEq] at heq
        exact Or.inr (ih.mpr ⟨ps, c1, mid, c2, post, heq.2, h1, hmid, hc2⟩)

theorem lastClose_none (close : Char) (s : Str) (h : close ∉ s) : lastClose close s = none := by
  induction s with
  | nil => rfl
  | cons c cs ih =>
    simp only [List.mem_cons, not_or] at h
    simp only [lastClose, ih h.2]
    split_ifs with h1 h2
    · rfl
    · exact absurd h2.symm h.1
    · rfl

theorem lastClose_reach (close : Char) (b c : Str)
    (hb : ∀ x ∈ b, isLineTerminator x = false) (hc : close ∉ c)
    (hclose : isLineTerminator close = false) :
    lastClose close (b ++ close :: c) = some (b.length + 1) := by
  induction b with
  | nil =>
    simp only [List.nil_append, lastClose, hclose, Bool.false_eq_true, if_false,
      lastClose_none close c hc, if_true, List.length_nil, zero_add]
  | cons x xs ih =>
    have hx := hb x (List.mem_cons_self _ _)
    simp only [List.cons_append, lastClose, List.append_eq, hx, Bool.false_eq_true, if_false,
      ih (fun y hy => hb y (List.mem_cons_of_mem _ hy)), List.length_cons]

theorem replaceDelimitedFrom_skip (opening close : Char) (x y : Str) :
    replaceDelimitedFrom opening close x.length (x ++ y)
      = replaceDelimitedFrom opening close 0 y := by
  induction x with
  | nil => rfl
  | cons c cs ih => simpa [replaceDelimitedFrom] using ih

theorem replaceDelimitedFrom_none (opening close : Char) (s : Str) (h : opening ∉ s) :
    replaceDelimitedFrom opening close 0 s = s := by
  induction s with
  | nil => rfl
  | cons c cs ih =>
    simp only [List.mem_cons, not_or] at h
    have hc : ¬ c = opening := fun e => h.1 e.symm
    simp only [replaceDelimitedFrom, hc, if_false, ih h.2]

/-- What `replaceString` removes on one line: everything from the first to
the last single quote. -/
theorem replaceString_first_to_last (a b c : Str) (ha : quote ∉ a) (hc : quote ∉ c)
    (hb : ∀ x ∈ b, isLineTerminator x = false) :
    replaceString (a ++ quote :: (b ++ quote :: c)) = a ++ c := by
  unfold replaceString
  induction a with
  | nil =>
    have hq : isLineTerminator quote = false := by decide
    simp only [List.nil_append, replaceDelimitedFrom, if_true, lastClose_reach quote b c hb hc hq]
    have := replaceDelimitedFrom_skip quote quote (b ++ [quote]) c
    simp only [List.length_append, List.length_singleton, List.append_assoc,
      List.singleton_append] at this
    rw [this, replaceDelimitedFrom_none quote quote c hc]
  | cons x xs ih =>
    simp only [List.mem_cons, not_or] at ha
    have hx : ¬ x = quote := fun e => ha.1 e.symm
    simp only [List.cons_append, replaceDelimitedFrom, List.append_eq, hx, if_false, ih ha.2]

/-- C9, as stated, fails: in this expression the assignment `b=c` stands
outside both single-quoted literals, yet `ifProcessor` accepts it, pushes `if`
and emits the conditional: the check removes everything from the first quote to
the last one, the assignment included. -/
theorem ifProcessor_misses_assignment :
    assignmentOutsideQuotes false "\x27a\x27+b=c+\x27d\x27".toList = true ∧
    ifProcessor (some "\x27a\x27+b=c+\x27d\x27".toList) State.fresh =
      (.str "if(\x27a\x27+b=c+\x27d\x27)\x7b".toList, ⟨[], ["if".toList]⟩) := by
  decide

/-- C9, amended: `ifProcessor` decides on the text left after `replaceString`
(which on one line removes everything from the first to the last single quote).
When that text has the assignment shape (a character of `[\w\s\]]`, `=`,
characters other than `=`, a character of `[\w\s\[\{]`) it returns the
assignment error and leaves the state; otherwise it pushes `if` and returns
`if(` expression `){`.  With `if` on top of the stack `elseifProcessor` decides
the same way, returning its own assignment error or the else-if clause, and
leaves the state in both cases. -/
theorem ifProcessor_assignment_check (expression : Str) (st : State) :
    (AssignmentShape (replaceString expression) →
      ifProcessor (some expression) st
        = (.error "不应在 if 表达式里进行赋值操作".toList, st) ∧
      (st.procedureControlStack.head? = some "if".toList →
        elseifProcessor (some expression) st
          = (.error "不应在 elseif 表达式里进行赋值操作".toList, st))) ∧
    (¬ AssignmentShape (replaceString expression) →
      ifProcessor (some expression) st
        = (.str ("if(".toList ++ expression ++ ")\x7b".toList), st.push "if".toList) ∧
      (st.procedureControlStack.head? = some "if".toList →
        elseifProcessor (some expression) st
          = (.str ("\x7delse if(".toList ++ expression ++ ")\x7b".toList), st))) ∧
    (∀ a b c : Str, quote ∉ a → quote ∉ c → (∀ x ∈ b, isLineTerminator x = false) →
      replaceString (a ++ quote :: (b ++ quote :: c)) = a ++ c) := by
  refine ⟨fun h => ?_, fun h => ?_, replaceString_first_to_last⟩
  · have hs := (searchSetExp1_iff _).mpr h
    refine ⟨by simp [ifProcessor, hs], fun htop => ?_⟩
    simp [elseifProcessor, (topIsNotIf_eq_false st).mpr htop, hs]
  · have hs : searchSetExp1 (replaceString expression) = false := by
      cases hb : searchSetExp1 (replaceString expression) with
      | false => rfl
      | true => exact absurd ((searchSetExp1_iff _).mp hb) h
    refine ⟨by simp [ifProcessor, hs], fun htop => ?_⟩
    simp [elseifProcessor, (topIsNotIf_eq_false st).mpr htop, hs]

/-- C9 amended, at concrete expressions: `a = 1` is rejected, `a == 1` is
accepted. -/
theorem ifProcessor_assignment_check_witness :
    ifProcessor (some "a = 1".toList) State.fresh
      = (.error "不应在 if 表达式里进行赋值操作".toList, State.fresh) ∧
    ifProcessor (some "a == 1".toList) State.fresh
      = (.str "if(a == 1)\x7b".toList, ⟨[], ["if".toList]⟩) :=
  ⟨((ifProcessor_assignment_check "a = 1".toList State.fresh).1
      ((searchSetExp1_iff _).mp (by decide))).1,
   ((ifProcessor_assignment_check "a == 1".toList State.fresh).2.1
      (fun h => absurd ((searchSetExp1_iff _).mpr h) (by decide))).1⟩


/-! ## The separator of `foreach` -/

theorem splitForeachExpFrom_nil (skip : Nat) (cur : Str) :
    splitForeachExpFrom skip cur [] = [cur] := by
  cases skip <;> rfl

theorem splitForeachExpFrom_succ (skip : Nat) (cur : Str) (c : Char) (cs : Str) :
    splitForeachExpFrom (skip + 1) cur (c :: cs) = splitForeachExpFrom skip cur cs := rfl

theorem splitForeachExpFrom_zero (cur : Str) (c : Char) (cs : Str) :
    splitForeachExpFrom 0 cur (c :: cs) =
      match matchForeachExp (c :: cs) with
      | some k => cur :: splitForeachExpFrom (k - 1) [] cs
      | none => splitForeachExpFrom 0 (cur ++ [c]) cs := rfl

theorem splitForeachExpFrom_skip (x y cur : Str) :
    splitForeachExpFrom x.length cur (x ++ y) = splitForeachExpFrom 0 cur y := by
  induction x with
  | nil => rfl
  | cons c cs ih =>
    rw [List.length_cons, List.cons_append, splitForeachExpFrom_succ]
    exact ih

theorem splitForeachExpFrom_ne_nil (skip : Nat) (cur s : Str) :
    splitForeachExpFrom skip cur s ≠ [] := by
  induction s generalizing skip cur with
  | nil => simp [splitForeachExpFrom_nil]
  | cons c cs ih =>
    cases skip with
    | succ k =>
      rw [splitForeachExpFrom_succ]
      exact ih k cur
    | zero =>
      rw [splitForeachExpFrom_zero]
      split
      · simp
      · exact ih 0 _

theorem splitForeachExpFrom_single (cur s x : Str)
    (h : splitForeachExpFrom 0 cur s = [x]) : x = cur ++ s := by
  induction s generalizing cur with
  | nil =>
    rw [splitForeachExpFrom_nil] at h
    simp only [List.cons.injEq, and_true] at h
    simp [h]
  | cons c cs ih =>
    rw [splitForeachExpFrom_zero] at h
    split at h
    · simp only [List.cons.injEq] at h
      exact absurd h.2 (splitForeachExpFrom_ne_nil _ _ _)
    · rw [ih _ h]
      simp

/-- What a match of `regForeachExp` at the start of a text is made of. -/
theorem matchForeachExp_some (s : Str) (k : Nat) (h : matchForeachExp s = some k) :
    ∃ w1 w2 t, s = w1 ++ 'i' :: 'n' :: (w2 ++ t) ∧ w1 ≠ [] ∧ w2 ≠ [] ∧
      (∀ x ∈ w1, isSpace x = true) ∧ (∀ x ∈ w2, isSpace x = true) ∧
      k = (w1 ++ 'i' :: 'n' :: w2).length := by
  unfold matchForeachExp at h
  split at h
  · rename_i t hd
    simp only at h
    split_ifs at h with hlen
    refine ⟨s.takeWhile isSpace, t.takeWhile isSpace, t.dropWhile isSpace, ?_, ?_, ?_, ?_, ?_, ?_⟩
    · rw [List.takeWhile_append_dropWhile, ← hd, List.takeWhile_append_dropWhile]
    · exact List.ne_nil_of_length_pos hlen.1
    · exact List.ne_nil_of_length_pos hlen.2
    · exact fun x hx => List.mem_takeWhile_imp hx
    · exact fun x hx => List.mem_takeWhile_imp hx
    · simp only [Option.some.injEq] at h
      simp only [List.length_append, List.length_cons]
      omega
  · cases h

/-- When the split gives exactly two tokens, the expression is the first
token, a separator (white space, `in`, white space) and the second token. -/
theorem splitForeachExpFrom_pair (cur s key arr : Str)
    (h : splitForeachExpFrom 0 cur s = [key, arr]) :
    ∃ pre w1 w2, key = cur ++ pre ∧ s = pre ++ (w1 ++ 'i' :: 'n' :: (w2 ++ arr)) ∧
      w1 ≠ [] ∧ w2 ≠ [] ∧ (∀ x ∈ w1, isSpace x = true) ∧ (∀ x ∈ w2, isSpace x = true) := by
  induction s generalizing cur with
  | nil =>
    rw [splitForeachExpFrom_nil] at h
    simp at h
  | cons c cs ih =>
    rw [splitForeachExpFrom_zero] at h
    split at h
    · rename_i k hk
      obtain ⟨w1, w2, t, hs, h1, h2, hw1, hw2, hlen⟩ := matchForeachExp_some _ _ hk
      simp only [List.cons.injEq] at h
      obtain ⟨hkey, hrest⟩ := h
      cases w1 with
      | nil => exact absurd rfl h1
      | cons a as =>
        simp only [List.cons_append, List.cons.injEq] at hs
        have hk1 : k - 1 = (as ++ 'i' :: 'n' :: w2).length := by
          simp only [List.cons_append, List.length_cons] at hlen
          omega
        have hcs : cs = (as ++ 'i' :: 'n' :: w2) ++ t := by
          rw [hs.2]; simp
        rw [hk1, hcs, splitForeachExpFrom_skip] at hrest
        have harr := splitForeachExpFrom_single _ _ _ hrest
        simp only [List.nil_append] at harr
        refine ⟨[], a :: as, w2, by simp [hkey], ?_, h1, h2, hw1, hw2⟩
        rw [harr, hs.1, hs.2]
        simp
    · obtain ⟨pre, w1, w2, hkey, hs, h1, h2, hw1, hw2⟩ := ih _ h
      refine ⟨c :: pre, w1, w2, by simp [hkey], by simp [hs], h1, h2, hw1, hw2⟩

theorem foreachProcessor_pair (expression key arr : Str) (st : State)
    (h : splitForeachExp expression = [key, arr]) :
    foreachProcessor (some expression) st
      = (.str (foreachCode key arr), st.push "foreach".toList) := by
  simp only [foreachProcessor, h]

/-- C10, as stated, fails: split on the separator written in the claim (one
blank, `in`, one blank) this expression is a single token, yet `foreachProcessor`
succeeds on it: its separator is any white space around `in`, here two tabs. -/
theorem foreachProcessor_accepts_tabs :
    (splitBlankInBlank "a\tin\tb".toList).length = 1 ∧
    foreachProcessor (some "a\tin\tb".toList) State.fresh =
      (.str (foreachCode "a".toList "b".toList), State.fresh.push "foreach".toList) :=
  ⟨by decide, foreachProcessor_pair _ _ _ _ (by decide)⟩

/-- C10, amended: `foreachProcessor` first pushes `foreach` (whatever
follows), then succeeds exactly when `split(regForeachExp)` gives exactly two
tokens, which it places as key and collection into the loop scaffolding, and
returns the malformed-foreach error for any other number of tokens; and two
tokens mean that the expression is the key, a separator made of white space,
`in` and white space, and the collection. -/
theorem foreachProcessor_split (expression : Str) (st : State) :
    (foreachProcessor (some expression) st).2 = st.push "foreach".toList ∧
    (∀ key arr, splitForeachExp expression = [key, arr] →
      (foreachProcessor (some expression) st).1 = .str (foreachCode key arr) ∧
      ∃ w1 w2, expression = key ++ (w1 ++ 'i' :: 'n' :: (w2 ++ arr)) ∧ w1 ≠ [] ∧ w2 ≠ [] ∧
        (∀ x ∈ w1, isSpace x = true) ∧ (∀ x ∈ w2, isSpace x = true)) ∧
    ((splitForeachExp expression).length ≠ 2 →
      (foreachProcessor (some expression) st).1
        = .error "foreach 存在未识别的 token".toList) := by
  refine ⟨?_, ?_, ?_⟩
  · unfold foreachProcessor
    simp only
    split <;> rfl
  · intro key arr h
    refine ⟨by rw [foreachProcessor_pair _ _ _ _ h], ?_⟩
    obtain ⟨pre, w1, w2, hkey, hs, h1, h2, hw1, hw2⟩ := splitForeachExpFrom_pair _ _ _ _ h
    simp only [List.nil_append] at hkey
    exact ⟨w1, w2, by rw [hkey]; exact hs, h1, h2, hw1, hw2⟩
  · intro h
    unfold foreachProcessor
    simp only
    split
    · rename_i key arr heq
      rw [heq] at h
      exact absurd rfl h
    · rfl

/-- C10 amended, at concrete expressions: `item in list` gives the tokens
`item` and `list`; `item of list` gives one token and the error. -/
theorem foreachProcessor_split_witness :
    ((foreachProcessor (some "item in list".toList) State.fresh).1
        = .str (foreachCode "item".toList "list".toList) ∧
      ∃ w1 w2, "item in list".toList
          = "item".toList ++ (w1 ++ 'i' :: 'n' :: (w2 ++ "list".toList)) ∧ w1 ≠ [] ∧ w2 ≠ [] ∧
        (∀ x ∈ w1, isSpace x = true) ∧ (∀ x ∈ w2, isSpace x = true)) ∧
    (foreachProcessor (some "item of list".toList) State.fresh).1
      = .error "foreach 存在未识别的 token".toList :=
  ⟨(foreachProcessor_split "item in list".toList State.fresh).2.1 _ _ (by decide),
   (foreachProcessor_split "item of list".toList State.fresh).2.2 (by decide)⟩


/-! ## The module-level state across calls -/

/-- C8 (the code keeps both arrays across calls): a `compile` that fails on a
malformed `foreach` leaves `foreach` on the block stack, and the next `compile`
of a tree of one literal node, which succeeds from the fresh state, then throws
the unclosed-block error; and a `compile` that succeeds on a reference to `x`
leaves `x` in the variable list, so the next `compile` of the same literal tree
returns a different program (it declares `x`). -/
theorem compile_state_leaks :
    (compile ⟨false, false⟩
        [.mk TYPE_DIRECTIVE "foreach".toList (some [.mk TYPE_SYNTAX "x".toList none 0]) 0]
        State.fresh)
      = (.error (.throwError "foreach 存在未识别的 token".toList (.getLine 0)),
          ⟨[], ["foreach".toList]⟩) ∧
    (compile ⟨false, false⟩ [.mk TYPE_HTML "a".toList none 0] State.fresh).1
      = .ok (prologue ⟨false, false⟩ ++ "$out+=\x27a\x27;return $out;".toList) ∧
    (compile ⟨false, false⟩ [.mk TYPE_HTML "a".toList none 0] ⟨[], ["foreach".toList]⟩).1
      = .error (.throwError "有 if 或 foreach 但缺少配对 end".toList .EOF) ∧
    (compile ⟨false, false⟩
        [.mk TYPE_VARIABLE [] (some [.mk TYPE_SYNTAX "x".toList none 0]) 0] State.fresh).2
      = ⟨["x".toList], []⟩ ∧
    (compile ⟨false, false⟩ [.mk TYPE_HTML "a".toList none 0] ⟨["x".toList], []⟩).1
      = .ok (prologue ⟨false, false⟩
          ++ "var x=$data.x||undefined;$out+=\x27a\x27;return $out;".toList) := by
  refine ⟨?_, ?_, ?_, ?_, ?_⟩ <;> decide


/-! ## Induction over a parse stack and its sublayers -/

mutual
/-- Induction over a node list and, through every node, the lists below it. -/
theorem parseStack_induction (P : List Node → Prop) (hnil : P [])
    (hcons : ∀ (currentNode : Node) (rest : List Node),
      (∀ sub, currentNode.sublayer = some sub → P sub) → P rest → P (currentNode :: rest)) :
    ∀ nodes : List Node, P nodes
  | [] => hnil
  | currentNode :: rest =>
    hcons currentNode rest (sublayer_induction P hnil hcons currentNode)
      (parseStack_induction P hnil hcons rest)
theorem sublayer_induction (P : List Node → Prop) (hnil : P [])
    (hcons : ∀ (currentNode : Node) (rest : List Node),
      (∀ sub, currentNode.sublayer = some sub → P sub) → P rest → P (currentNode :: rest)) :
    ∀ (currentNode : Node) (sub : List Node), currentNode.sublayer = some sub → P sub
  | .mk _ _ (some sublayer) _, sub, h => by
    have hsub : sublayer = sub := Option.some.inj h
    exact hsub ▸ parseStack_induction P hnil hcons sublayer
  | .mk _ _ none _, _, h => by cases h
end

/-! ## Nodes without directives -/

theorem plain_visit (configs : Configs) (currentNode : Node)
    (hplain : plainNode currentNode = true)
    (hsub : ∀ sub, currentNode.sublayer = some sub → PlainResult configs sub)
    (layer : Layer) (lastNode nextNode : Option Node) (jsCode mergedHtml : Str) :
    ∃ j m : Str, ∀ st : State, ∃ vars : List Str,
      visit configs layer lastNode currentNode nextNode jsCode mergedHtml st
          (recurseSublayer configs currentNode st)
        = (.ok (j, m), ⟨vars, st.procedureControlStack⟩) := by
  rcases currentNode with ⟨type, val, sublayer, begin⟩
  have hnd : ¬ type = TYPE_DIRECTIVE := by
    cases sublayer with
    | none =>
      simp only [plainNode, Bool.and_eq_true, bne_iff_ne, ne_eq] at hplain
      exact hplain.1.1.1
    | some sub =>
      simp only [plainNode, Bool.and_eq_true, bne_iff_ne, ne_eq] at hplain
      exact hplain.1
  unfold visit
  simp only [line93_dead, Bool.false_eq_true, if_false, Node.type, hnd]
  split_ifs with h1 h2 h3 h4 h5
  · by_cases hf : (nextNode.isNone || typeIsNot nextNode TYPE_HTML) = true
    · by_cases he : escapeSQ (mergedHtml ++ (Node.mk type val sublayer begin).val) = []
      · exact ⟨_, _, fun st => ⟨st.searchedVariables, by
          simp only [visitHtml, hf, he, if_true]; rfl⟩⟩
      · exact ⟨_, _, fun st => ⟨st.searchedVariables, by
          simp only [visitHtml, hf, he, if_true, if_false]; rfl⟩⟩
    · exact ⟨_, _, fun st => ⟨st.searchedVariables, by
        simp only [visitHtml, hf, Bool.false_eq_true, if_false]; rfl⟩⟩
  · cases sublayer with
    | none =>
      simp only [plainNode, Bool.and_eq_true, bne_iff_ne, ne_eq] at hplain
      rcases h2 with h | h
      · exact absurd h hplain.1.1.2
      · exact absurd h hplain.1.2
    | some sub =>
      obtain ⟨text, htext⟩ := hsub sub rfl layer.succ none [] []
      refine ⟨variableCode configs layer lastNode (Node.mk type val (some sub) begin) jsCode text,
        mergedHtml, fun st => ?_⟩
      obtain ⟨vars, hv⟩ := htext st
      rw [recurseSublayer_some, recurseMake, hv]
      simp only [visitVariable, State.search]
      split_ifs
      · exact ⟨_, rfl⟩
      · exact ⟨_, rfl⟩
  · exact ⟨_, _, fun st => ⟨st.searchedVariables, rfl⟩⟩
  · exact ⟨_, _, fun st => ⟨st.searchedVariables, rfl⟩⟩
  · cases sublayer with
    | none =>
      simp only [plainNode, Bool.and_eq_true, bne_iff_ne, ne_eq] at hplain
      exact absurd h5 hplain.2
    | some sub =>
      obtain ⟨text, htext⟩ := hsub sub rfl layer.succ none [] []
      refine ⟨jsCode ++ text, mergedHtml, fun st => ?_⟩
      obtain ⟨vars, hv⟩ := htext st
      rw [recurseSublayer_some, recurseMake, hv]
      exact ⟨_, rfl⟩
  · exact ⟨_, _, fun st => ⟨st.searchedVariables, rfl⟩⟩

theorem plainNode_sublayer (currentNode : Node) (hplain : plainNode currentNode = true)
    (sub : List Node) (h : currentNode.sublayer = some sub) : plainNodes sub = true := by
  rcases currentNode with ⟨type, val, sublayer, begin⟩
  cases h
  simp only [plainNode, Bool.and_eq_true] at hplain
  exact hplain.2

theorem plain_loop (configs : Configs) (nodes : List Node) :
    plainNodes nodes = true → PlainResult configs nodes := by
  refine parseStack_induction (fun nodes => plainNodes nodes = true → PlainResult configs nodes)
    ?_ ?_ nodes
  · intro _ layer lastNode jsCode mergedHtml
    exact ⟨jsCode, fun st => ⟨st.searchedVariables, by rw [recurseLoop_nil]⟩⟩
  · intro currentNode rest ihsub ihrest hplain layer lastNode jsCode mergedHtml
    simp only [plainNodes, Bool.and_eq_true] at hplain
    obtain ⟨j, m, hv⟩ := plain_visit configs currentNode hplain.1
      (fun sub h => ihsub sub h (plainNode_sublayer currentNode hplain.1 sub h))
      layer lastNode rest.head? jsCode mergedHtml
    obtain ⟨text, htext⟩ := ihrest hplain.2 layer (some currentNode) j m
    refine ⟨text, fun st => ?_⟩
    obtain ⟨vars, hvis⟩ := hv st
    obtain ⟨vars1, hloop⟩ := htext ⟨vars, st.procedureControlStack⟩
    exact ⟨vars1, by rw [recurseLoop_cons, hvis]; exact hloop⟩


/-! ## Top-level directives against the open blocks -/

theorem directive_argument_expression (configs : Configs) (n : Node) (e : Str)
    (h : directiveExpression configs n = some e) (st : State) :
    ∃ vars : List Str, ∀ jsCode mergedHtml : Str,
      visitDirective n jsCode mergedHtml st (recurseSublayer configs n st none)
        = callHandler n jsCode mergedHtml (some e) ⟨vars, st.procedureControlStack⟩ := by
  rcases n with ⟨type, val, sublayer, begin⟩
  cases sublayer with
  | none => simp [directiveExpression, Node.sublayer] at h
  | some sub =>
    simp only [directiveExpression, Node.sublayer] at h
    split_ifs at h with hplain
    obtain ⟨text, htext⟩ := plain_loop configs sub hplain none none [] []
    obtain ⟨vars0, h0⟩ := htext State.fresh
    rw [recurseMake, h0] at h
    simp only [Option.some.injEq] at h
    subst h
    obtain ⟨vars, hv⟩ := htext st
    refine ⟨vars, fun jsCode mergedHtml => ?_⟩
    rw [recurseSublayer_some, recurseMake, hv]
    rfl

theorem directive_argument_plain (configs : Configs) (n : Node)
    (h : plainArgument n = true) (st : State) :
    ∃ (expression : Option Str) (vars : List Str), ∀ jsCode mergedHtml : Str,
      visitDirective n jsCode mergedHtml st (recurseSublayer configs n st none)
        = callHandler n jsCode mergedHtml expression ⟨vars, st.procedureControlStack⟩ := by
  rcases n with ⟨type, val, sublayer, begin⟩
  cases sublayer with
  | none =>
    refine ⟨none, st.searchedVariables, fun jsCode mergedHtml => ?_⟩
    rw [recurseSublayer_none]
    rfl
  | some sub =>
    simp only [plainArgument, Node.sublayer] at h
    obtain ⟨text, htext⟩ := plain_loop configs sub h none none [] []
    obtain ⟨vars, hv⟩ := htext st
    refine ⟨some text, vars, fun jsCode mergedHtml => ?_⟩
    rw [recurseSublayer_some, recurseMake, hv]
    rfl

theorem callHandler_of (n : Node) (jsCode mergedHtml : Str) (expression : Option Str)
    (st st1 : State) (handler : Option Str → State → Segment × State) (segment : Str)
    (hp : processorHandlers n.val = some handler)
    (hh : handler expression st = (.str segment, st1)) :
    callHandler n jsCode mergedHtml expression st = (.ok (jsCode ++ segment, mergedHtml), st1) := by
  simp only [callHandler, hp, hh]

/-- A directive node that is in order against the block stack of the state:
the loop body succeeds on it, keeps `mergedHtml` and leaves the block stack that
`nestStep` names. -/
theorem directive_step (configs : Configs) (n : Node) (st : State) (stack1 : List Str)
    (hd : n.type = TYPE_DIRECTIVE)
    (h : nestStep true configs st.procedureControlStack n = some stack1)
    (layer : Layer) (lastNode nextNode : Option Node) (jsCode mergedHtml : Str) :
    ∃ (j : Str) (vars : List Str),
      visit configs layer lastNode n nextNode jsCode mergedHtml st (recurseSublayer configs n st)
        = (.ok (j, mergedHtml), ⟨vars, stack1⟩) := by
  have hvisit : visit configs layer lastNode n nextNode jsCode mergedHtml st
      (recurseSublayer configs n st)
      = visitDirective n jsCode mergedHtml st (recurseSublayer configs n st none) := by
    have h1 : ¬ TYPE_DIRECTIVE = TYPE_HTML := by decide
    have h2 : ¬ (TYPE_DIRECTIVE = TYPE_VARIABLE ∨ TYPE_DIRECTIVE = TYPE_VARIABLE_QR) := by decide
    simp only [visit, line93_dead, Bool.false_eq_true, if_false, hd, h1, h2, if_true]
  rw [hvisit]
  simp only [nestStep, hd, if_true] at h
  by_cases hif : n.val = "if".toList
  · rw [if_pos hif] at h
    cases he : directiveExpression configs n with
    | none => rw [he] at h; cases h
    | some e =>
      rw [he] at h
      simp only at h
      split_ifs at h with hs
      simp only [Option.some.injEq] at h
      subst h
      obtain ⟨vars, hv⟩ := directive_argument_expression configs n e he st
      exact ⟨_, vars, (hv jsCode mergedHtml).trans
        (callHandler_of n jsCode mergedHtml (some e) _ ⟨vars, _⟩ ifProcessor _
          (by rw [hif]; rfl)
          (by simp only [ifProcessor, hs, Bool.false_eq_true, if_false]; rfl))⟩
  by_cases hforeach : n.val = "foreach".toList
  · rw [if_neg hif, if_pos hforeach] at h
    cases he : directiveExpression configs n with
    | none => rw [he] at h; cases h
    | some e =>
      rw [he] at h
      simp only at h
      split_ifs at h with hs
      simp only [Option.some.injEq] at h
      subst h
      obtain ⟨vars, hv⟩ := directive_argument_expression configs n e he st
      obtain ⟨key, arr, hsplit⟩ := List.length_eq_two.mp hs
      exact ⟨_, vars, (hv jsCode mergedHtml).trans
        (callHandler_of n jsCode mergedHtml (some e) _ ⟨vars, _⟩ foreachProcessor _
          (by rw [hforeach]; rfl) (foreachProcessor_pair e key arr _ hsplit))⟩
  by_cases hend : n.val = "end".toList
  · rw [if_neg hif, if_neg hforeach, if_pos hend] at h
    cases hst : st.procedureControlStack with
    | nil => rw [hst] at h; cases h
    | cons top below =>
      rw [hst] at h
      simp only at h
      split_ifs at h with hs
      simp only [Option.some.injEq] at h
      subst h
      obtain ⟨expression, vars, hv⟩ := directive_argument_plain configs n hs.1 st
      rw [hst] at hv
      rcases hs.2 with htop | htop
      · exact ⟨_, vars, (hv jsCode mergedHtml).trans
          (callHandler_of n jsCode mergedHtml expression _ ⟨vars, below⟩
            (fun _ => endProcessor) "\x7d".toList (by rw [hend]; rfl)
            (by simp only [endProcessor, htop, if_true]))⟩
      · have hne : ¬ "foreach".toList = "if".toList := by decide
        exact ⟨_, vars, (hv jsCode mergedHtml).trans
          (callHandler_of n jsCode mergedHtml expression _ ⟨vars, below⟩
            (fun _ => endProcessor) "\x7d\x7d)();".toList (by rw [hend]; rfl)
            (by simp only [endProcessor, htop, hne, if_true, if_false]))⟩
  by_cases helse : n.val = "else".toList
  · rw [if_neg hif, if_neg hforeach, if_neg hend, if_pos helse] at h
    split_ifs at h with hs
    simp only [Option.some.injEq] at h
    subst h
    obtain ⟨expression, vars, hv⟩ := directive_argument_plain configs n hs.1 st
    have htop : (⟨vars, st.procedureControlStack⟩ : State).topIsNotIf = false :=
      (topIsNotIf_eq_false _).mpr (hs.2 trivial)
    exact ⟨_, vars, (hv jsCode mergedHtml).trans
      (callHandler_of n jsCode mergedHtml expression _ ⟨vars, _⟩ (fun _ => elseProcessor) _
        (by rw [helse]; rfl)
        (by simp only [elseProcessor, htop, Bool.false_eq_true, if_false]; rfl))⟩
  by_cases helseif : n.val = "elseif".toList
  · rw [if_neg hif, if_neg hforeach, if_neg hend, if_neg helse, if_pos helseif] at h
    cases he : directiveExpression configs n with
    | none => rw [he] at h; cases h
    | some e =>
      rw [he] at h
      simp only at h
      split_ifs at h with hs
      simp only [Option.some.injEq] at h
      subst h
      obtain ⟨vars, hv⟩ := directive_argument_expression configs n e he st
      have htop : (⟨vars, st.procedureControlStack⟩ : State).topIsNotIf = false :=
        (topIsNotIf_eq_false _).mpr (hs.2 trivial)
      exact ⟨_, vars, (hv jsCode mergedHtml).trans
        (callHandler_of n jsCode mergedHtml (some e) _ ⟨vars, _⟩ elseifProcessor _
          (by rw [helseif]; rfl)
          (by simp only [elseifProcessor, htop, hs.1, Bool.false_eq_true, if_false]; rfl))⟩
  by_cases hset : n.val = "set".toList
  · rw [if_neg hif, if_neg hforeach, if_neg hend, if_neg helse, if_neg helseif, if_pos hset] at h
    cases he : directiveExpression configs n with
    | none => rw [he] at h; cases h
    | some e =>
      rw [he] at h
      simp only at h
      split_ifs at h with hs
      simp only [Option.some.injEq] at h
      subst h
      obtain ⟨vars, hv⟩ := directive_argument_expression configs n e he st
      have hcheck : (!searchSetExp1 (replaceBracket (replaceString e))
          && !matchSetExp2 (replaceBracket (replaceString e))) = false := by
        rw [← Bool.not_or, hs]; rfl
      exact ⟨_, vars, (hv jsCode mergedHtml).trans
        (callHandler_of n jsCode mergedHtml (some e) _ ⟨vars, _⟩ setProcessor _
          (by rw [hset]; rfl)
          (by simp only [setProcessor, hcheck, Bool.false_eq_true, if_false]; rfl))⟩
  by_cases hbreak : n.val = "break".toList
  · rw [if_neg hif, if_neg hforeach, if_neg hend, if_neg helse, if_neg helseif, if_neg hset,
      if_pos hbreak] at h
    split_ifs at h with hs
    simp only [Option.some.injEq] at h
    subst h
    obtain ⟨expression, vars, hv⟩ := directive_argument_plain configs n hs st
    exact ⟨_, vars, (hv jsCode mergedHtml).trans
      (callHandler_of n jsCode mergedHtml expression _ ⟨vars, _⟩ (fun _ => breakProcessor) _
        (by rw [hbreak]; rfl) rfl)⟩
  · rw [if_neg hif, if_neg hforeach, if_neg hend, if_neg helse, if_neg helseif, if_neg hset,
      if_neg hbreak] at h
    cases h

/-- The loop on a top-level sequence that is properly nested against the
block stack of the state: it succeeds and leaves the block stack empty. -/
theorem wellNested_loop (configs : Configs) (layer : Layer) (nodes : List Node)
    (lastNode : Option Node) (jsCode mergedHtml : Str) (st : State)
    (h : wellNested true configs st.procedureControlStack nodes = true) :
    ∃ (text : Str) (vars : List Str),
      recurseLoop configs layer lastNode nodes jsCode mergedHtml st = (.ok text, ⟨vars, []⟩) := by
  induction nodes generalizing lastNode jsCode mergedHtml st with
  | nil =>
    simp only [wellNested, decide_eq_true_eq] at h
    exact ⟨jsCode, st.searchedVariables, by rw [recurseLoop_nil, ← h]⟩
  | cons n rest ih =>
    simp only [wellNested] at h
    cases hstep : nestStep true configs st.procedureControlStack n with
    | none => rw [hstep] at h; cases h
    | some stack1 =>
      rw [hstep] at h
      simp only at h
      by_cases hd : n.type = TYPE_DIRECTIVE
      · obtain ⟨j, vars, hv⟩ := directive_step configs n st stack1 hd hstep layer lastNode
          rest.head? jsCode mergedHtml
        obtain ⟨text, vars1, hloop⟩ := ih (some n) j mergedHtml ⟨vars, stack1⟩ h
        exact ⟨text, vars1, by rw [recurseLoop_cons, hv]; exact hloop⟩
      · simp only [nestStep, hd, if_false] at hstep
        split_ifs at hstep with hplain
        simp only [Option.some.injEq] at hstep
        obtain ⟨j, m, hv⟩ := plain_visit configs n hplain
          (fun sub hsub => plain_loop configs sub (plainNode_sublayer n hplain sub hsub))
          layer lastNode rest.head? jsCode mergedHtml
        obtain ⟨vars, hvis⟩ := hv st
        obtain ⟨text, vars1, hloop⟩ := ih (some n) j m ⟨vars, st.procedureControlStack⟩
          (by rw [hstep]; exact h)
        exact ⟨text, vars1, by rw [recurseLoop_cons, hvis]; exact hloop⟩

/-- C1, as stated, fails: a lone `else` directive has no `if`, `foreach` or
`end` out of place and no expression to check (it is properly nested when `else`
is not asked to follow an `if`), yet `compile` from the fresh state throws the
else-without-if error. -/
theorem compile_fails_on_lone_else :
    wellNested false ⟨false, false⟩ [] [.mk TYPE_DIRECTIVE "else".toList none 0] = true ∧
    compile ⟨false, false⟩ [.mk TYPE_DIRECTIVE "else".toList none 0] State.fresh
      = (.error (.throwError "有 else 但没有 if".toList (.getLine 0)), State.fresh) := by
  constructor <;> decide

/-- C1, amended: from the fresh state (empty block stack, empty variable
list), for every top-level node sequence that is properly nested, where every
sublayer holds no directive, every `end` closes the innermost open `if` or
`foreach` and none is left open, every `else` and `elseif` stands where the
innermost open block is an `if`, and the expressions of `if`, `elseif`,
`foreach` and `set` pass their checks, `compile` succeeds and the block stack
is empty when it returns. -/
theorem compile_wellNested (configs : Configs) (parseStack : List Node)
    (h : wellNested true configs [] parseStack = true) :
    ∃ (text : Str) (st : State),
      compile configs parseStack State.fresh = (.ok text, st) ∧
      st.procedureControlStack = [] := by
  obtain ⟨inner, vars, hloop⟩ :=
    wellNested_loop configs (some 0) parseStack none [] [] State.fresh h
  refine ⟨prologue configs ++ declarations vars ++ inner ++ "return $out;".toList,
    ⟨vars, []⟩, ?_, rfl⟩
  simp only [compile, recurseMake, hloop]
  rfl

/-- C1 amended, at a concrete tree: a literal, an `if` with an `else`, and
inside it a `foreach` over a reference. -/
theorem compile_wellNested_witness :
    ∃ (text : Str) (st : State),
      compile ⟨false, true⟩
        [.mk TYPE_HTML "a".toList none 0,
         .mk TYPE_DIRECTIVE "if".toList (some [.mk TYPE_SYNTAX "x == 1".toList none 0]) 1,
         .mk TYPE_DIRECTIVE "foreach".toList (some [.mk TYPE_SYNTAX "i in l".toList none 0]) 2,
         .mk TYPE_VARIABLE [] (some [.mk TYPE_SYNTAX "i.n".toList none 0]) 3,
         .mk TYPE_DIRECTIVE "end".toList none 4,
         .mk TYPE_DIRECTIVE "else".toList none 5,
         .mk TYPE_DIRECTIVE "end".toList none 6] State.fresh = (.ok text, st) ∧
      st.procedureControlStack = [] :=
  compile_wellNested ⟨false, true⟩ _ (by decide)


/-! ## Blocks left open -/

/-- The walk over a node sequence that is in order node by node succeeds and
leaves exactly the blocks that `openBlocks` finds open. -/
theorem openBlocks_loop (configs : Configs) (layer : Layer) (nodes : List Node)
    (lastNode : Option Node) (jsCode mergedHtml : Str) (st : State) (stack1 : List Str)
    (h : openBlocks true configs st.procedureControlStack nodes = some stack1) :
    ∃ (text : Str) (vars : List Str),
      recurseLoop configs layer lastNode nodes jsCode mergedHtml st
        = (.ok text, ⟨vars, stack1⟩) := by
  induction nodes generalizing lastNode jsCode mergedHtml st with
  | nil =>
    simp only [openBlocks, Option.some.injEq] at h
    exact ⟨jsCode, st.searchedVariables, by rw [recurseLoop_nil, ← h]⟩
  | cons n rest ih =>
    simp only [openBlocks] at h
    cases hstep : nestStep true configs st.procedureControlStack n with
    | none => rw [hstep] at h; cases h
    | some stack2 =>
      rw [hstep] at h
      simp only at h
      by_cases hd : n.type = TYPE_DIRECTIVE
      · obtain ⟨j, vars, hv⟩ := directive_step configs n st stack2 hd hstep layer lastNode
          rest.head? jsCode mergedHtml
        obtain ⟨text, vars1, hloop⟩ := ih (some n) j mergedHtml ⟨vars, stack2⟩ h
        exact ⟨text, vars1, by rw [recurseLoop_cons, hv]; exact hloop⟩
      · simp only [nestStep, hd, if_false] at hstep
        split_ifs at hstep with hplain
        simp only [Option.some.injEq] at hstep
        obtain ⟨j, m, hv⟩ := plain_visit configs n hplain
          (fun sub hsub => plain_loop configs sub (plainNode_sublayer n hplain sub hsub))
          layer lastNode rest.head? jsCode mergedHtml
        obtain ⟨vars, hvis⟩ := hv st
        obtain ⟨text, vars1, hloop⟩ := ih (some n) j m ⟨vars, st.procedureControlStack⟩
          (by rw [hstep]; exact h)
        exact ⟨text, vars1, by rw [recurseLoop_cons, hvis]; exact hloop⟩

/-- C2: from a state with the empty block stack, for every node sequence
that is in order node by node (so that the walk completes) and leaves at least
one `if` or `foreach` without its `end`, `compile` throws the unclosed-block
error at `EOF`, returns no program text, and leaves on the stack exactly the
blocks that were not closed.  More generally, whenever the walk completes with
a non-empty block stack, `compile` throws that error. -/
theorem compile_unclosed (configs : Configs) (parseStack : List Node) (st : State)
    (stack1 : List Str) (hempty : st.procedureControlStack = [])
    (hopen : openBlocks true configs [] parseStack = some stack1) (hne : stack1 ≠ []) :
    (∃ vars : List Str, compile configs parseStack st =
      (.error (.throwError "有 if 或 foreach 但缺少配对 end".toList .EOF), ⟨vars, stack1⟩)) ∧
    (∀ (inner : Str) (st1 : State),
      recurseMake configs parseStack (some 0) st = (.ok inner, st1) →
      st1.procedureControlStack ≠ [] →
      compile configs parseStack st =
        (.error (.throwError "有 if 或 foreach 但缺少配对 end".toList .EOF), st1)) := by
  refine ⟨?_, fun inner st1 hwalk hst1 =>
    compile_of_open_walk configs parseStack st st1 inner hwalk hst1⟩
  obtain ⟨text, vars, hloop⟩ := openBlocks_loop configs (some 0) parseStack none [] [] st stack1
    (by rw [hempty]; exact hopen)
  exact ⟨vars, compile_of_open_walk configs parseStack st ⟨vars, stack1⟩ text hloop hne⟩

/-- C2 at a concrete tree: an `if` that is closed, then a `foreach` and
inside it an `if`, neither of them closed. -/
theorem compile_unclosed_witness :
    ∃ vars : List Str,
      compile ⟨false, false⟩
        [.mk TYPE_HTML "a".toList none 0,
         .mk TYPE_DIRECTIVE "if".toList (some [.mk TYPE_SYNTAX "x == 1".toList none 0]) 1,
         .mk TYPE_DIRECTIVE "end".toList none 2,
         .mk TYPE_DIRECTIVE "foreach".toList (some [.mk TYPE_SYNTAX "i in l".toList none 0]) 3,
         .mk TYPE_DIRECTIVE "if".toList (some [.mk TYPE_SYNTAX "i.ok".toList none 0]) 4,
         .mk TYPE_HTML "b".toList none 5] State.fresh =
      (.error (.throwError "有 if 或 foreach 但缺少配对 end".toList .EOF),
        ⟨vars, ["if".toList, "foreach".toList]⟩) :=
  (compile_unclosed ⟨false, false⟩ _ State.fresh ["if".toList, "foreach".toList] rfl
    (by decide) (by decide)).1


/-! ## The variable list -/

theorem searchAll_append (vars names more : List Str) :
    searchAll vars (names ++ more) = searchAll (searchAll vars names) more := by
  induction names generalizing vars with
  | nil => rfl
  | cons x xs ih => simp only [List.cons_append, searchAll, List.append_eq, ih]

theorem search_vars (st : State) (name : Str) :
    (st.search name).searchedVariables = searchAll st.searchedVariables [name] := by
  simp only [State.search, searchAll]
  split_ifs <;> rfl

theorem searchAll_eq (vars names : List Str) :
    searchAll vars names = vars ++ (firstSeen names).filter (fun y => decide (y ∉ vars)) := by
  induction names generalizing vars with
  | nil => simp [searchAll, firstSeen]
  | cons x xs ih =>
    simp only [searchAll, firstSeen]
    by_cases hx : x ∈ vars
    · simp only [hx, if_true, ih, List.filter_cons, not_true_eq_false, decide_False,
        Bool.false_eq_true, if_false, List.filter_filter]
      congr 1
      apply List.filter_congr
      intro y _
      by_cases hy : y ∈ vars
      · simp [hy]
      · have : y ≠ x := fun e => hy (e ▸ hx)
        simp [hy, this]
    · simp only [hx, if_false, ih, List.filter_cons, not_false_eq_true, decide_True, if_true,
        List.filter_filter, List.append_assoc, List.singleton_append]
      congr 2
      apply List.filter_congr
      intro y _
      by_cases hy : y ∈ vars
      · simp [hy]
      · by_cases hyx : y = x
        · simp [hyx]
        · simp [hy, hyx]

theorem searchAll_nil (names : List Str) : searchAll [] names = firstSeen names := by
  rw [searchAll_eq]
  simp

theorem firstSeen_nodup (names : List Str) : (firstSeen names).Nodup := by
  induction names with
  | nil => simp [firstSeen]
  | cons x xs ih =>
    simp only [firstSeen, List.nodup_cons]
    exact ⟨by simp [List.mem_filter], ih.filter _⟩

theorem handler_vars (name : Str) (handler : Option Str → State → Segment × State)
    (hp : processorHandlers name = some handler) (expression : Option Str) (st : State) :
    (handler expression st).2.searchedVariables = st.searchedVariables := by
  unfold processorHandlers at hp
  split_ifs at hp <;> simp only [Option.some.injEq] at hp <;> subst hp
  · unfold ifProcessor
    cases expression with
    | none => rfl
    | some e => simp only; split_ifs <;> rfl
  · simp only [endProcessor]
    split
    · rfl
    · split_ifs <;> rfl
  · simp only [elseProcessor]
    split_ifs <;> rfl
  · unfold elseifProcessor
    split_ifs
    · rfl
    · cases expression with
      | none => rfl
      | some e => simp only; split_ifs <;> rfl
  · unfold foreachProcessor
    cases expression with
    | none => rfl
    | some e => simp only; split <;> rfl
  · rfl
  · unfold setProcessor
    cases expression with
    | none => rfl
    | some e => simp only; split_ifs <;> rfl

theorem callHandler_vars (currentNode : Node) (jsCode mergedHtml : Str)
    (expression : Option Str) (st : State) :
    (callHandler currentNode jsCode mergedHtml expression st).2.searchedVariables
      = st.searchedVariables := by
  unfold callHandler
  cases hp : processorHandlers currentNode.val with
  | none => rfl
  | some handler =>
    have hv := handler_vars _ handler hp expression st
    simp only
    rcases hh : handler expression st with ⟨_ | _ | _ | _, st1⟩ <;> rw [hh] at hv <;> exact hv

/-- The names one node adds to the variable list are those of `seenVisit`,
when this holds for the inner call on its sublayer. -/
theorem visit_vars (configs : Configs) (layer : Layer) (lastNode nextNode : Option Node)
    (currentNode : Node) (jsCode mergedHtml : Str) (st : State)
    (recurse : Layer → Option (Except Thrown Str × State)) (inside : Layer → List Str)
    (hnone : ∀ l, recurse l = none → inside l = [])
    (hsome : ∀ l r, recurse l = some r →
      r.2.searchedVariables = searchAll st.searchedVariables (inside l)) :
    (visit configs layer lastNode currentNode nextNode jsCode mergedHtml st
        recurse).2.searchedVariables
      = searchAll st.searchedVariables (seenVisit currentNode layer recurse inside) := by
  have d1 : ¬ (TYPE_HTML = TYPE_VARIABLE ∨ TYPE_HTML = TYPE_VARIABLE_QR) := by decide
  have d2 : ¬ TYPE_HTML = TYPE_DIRECTIVE := by decide
  have d3 : ¬ TYPE_HTML = TYPE_STRING := by decide
  have d4 : ¬ TYPE_SYNTAX = TYPE_STRING := by decide
  have d5 : ¬ TYPE_STRING_CONTENT = TYPE_STRING := by decide
  unfold visit seenVisit
  simp only [line93_dead, Bool.false_eq_true, if_false]
  by_cases h1 : currentNode.type = TYPE_HTML
  · simp only [h1, if_true, d1, d2, d3, if_false, searchAll, visitHtml]
    split_ifs <;> rfl
  simp only [h1, if_false]
  by_cases h2 : currentNode.type = TYPE_VARIABLE ∨ currentNode.type = TYPE_VARIABLE_QR
  · simp only [h2, if_true]
    unfold visitVariable
    rcases hr : recurse layer.succ with _ | ⟨_ | segment, st1⟩
    · simp only [hnone _ hr, List.append_nil, searchAll]
    · simp only [List.append_nil]
      exact hsome _ _ hr
    · simp only [searchAll_append, search_vars]
      rw [hsome _ _ hr]
  simp only [h2, if_false]
  by_cases h3 : currentNode.type = TYPE_DIRECTIVE
  · simp only [h3, if_true]
    unfold visitDirective
    rcases hr : recurse none with _ | ⟨_ | expression, st1⟩
    · simp only [hnone _ hr, searchAll, callHandler_vars]
    · exact hsome _ _ hr
    · simp only [callHandler_vars]
      exact hsome _ _ hr
  simp only [h3, if_false]
  by_cases h4 : currentNode.type = TYPE_SYNTAX
  · simp only [h4, if_true, d4, if_false, searchAll]
  simp only [h4, if_false]
  by_cases h5 : currentNode.type = TYPE_STRING_CONTENT
  · simp only [h5, if_true, d5, if_false, searchAll]
  simp only [h5, if_false]
  by_cases h6 : currentNode.type = TYPE_STRING
  · simp only [h6, if_true]
    unfold visitString
    rcases hr : recurse layer.succ with _ | ⟨_ | segment, st1⟩
    · simp only [hnone _ hr, searchAll]
    · exact hsome _ _ hr
    · exact hsome _ _ hr
  · simp only [h6, if_false, searchAll]

theorem callHandler_outcome (currentNode : Node) (jsCode mergedHtml j m : Str)
    (expression : Option Str) (st : State) :
    outcome (callHandler currentNode jsCode mergedHtml expression st)
      = outcome (callHandler currentNode j m expression st) := by
  unfold callHandler
  cases processorHandlers currentNode.val with
  | none => rfl
  | some handler =>
    simp only
    rcases handler expression st with ⟨_ | _ | _ | _, st1⟩ <;> rfl

/-- Whether the loop body succeeds, and the state it leaves, do not depend on
the text built so far. -/
theorem visit_outcome (configs : Configs) (layer : Layer) (lastNode nextNode : Option Node)
    (currentNode : Node) (jsCode mergedHtml j m : Str) (st : State)
    (recurse : Layer → Option (Except Thrown Str × State)) :
    outcome (visit configs layer lastNode currentNode nextNode jsCode mergedHtml st recurse)
      = outcome (visit configs layer lastNode currentNode nextNode j m st recurse) := by
  unfold visit
  simp only [line93_dead, Bool.false_eq_true, if_false]
  split_ifs
  · unfold visitHtml
    simp only
    split_ifs <;> rfl
  · unfold visitVariable
    rcases recurse layer.succ with _ | ⟨_ | segment, st1⟩ <;> rfl
  · unfold visitDirective
    rcases recurse none with _ | ⟨_ | expression, st1⟩
    · exact callHandler_outcome _ _ _ _ _ _ _
    · rfl
    · exact callHandler_outcome _ _ _ _ _ _ _
  · rfl
  · rfl
  · unfold visitString
    rcases recurse layer.succ with _ | ⟨_ | segment, st1⟩ <;> rfl
  · rfl

theorem seenLoop_nil (configs : Configs) (layer : Layer) (lastNode : Option Node) (st : State) :
    seenLoop configs layer lastNode [] st = [] := by
  rw [seenLoop]

theorem seenLoop_cons (configs : Configs) (layer : Layer) (lastNode : Option Node)
    (currentNode : Node) (rest : List Node) (st : State) :
    seenLoop configs layer lastNode (currentNode :: rest) st =
      seenVisit currentNode layer (recurseSublayer configs currentNode st)
          (seenSublayer configs currentNode st) ++
        match visit configs layer lastNode currentNode rest.head? [] [] st
            (recurseSublayer configs currentNode st) with
        | (.ok _, st1) => seenLoop configs layer (some currentNode) rest st1
        | (.error _, _) => [] := by
  rw [seenLoop]

/-- The variable list after the loop is the one before it with the root
names met searched in, in the order met. -/
theorem recurseLoop_vars (configs : Configs) (nodes : List Node) :
    ∀ (layer : Layer) (lastNode : Option Node) (jsCode mergedHtml : Str) (st : State),
      (recurseLoop configs layer lastNode nodes jsCode mergedHtml st).2.searchedVariables
        = searchAll st.searchedVariables (seenLoop configs layer lastNode nodes st) := by
  refine parseStack_induction (fun nodes =>
    ∀ (layer : Layer) (lastNode : Option Node) (jsCode mergedHtml : Str) (st : State),
      (recurseLoop configs layer lastNode nodes jsCode mergedHtml st).2.searchedVariables
        = searchAll st.searchedVariables (seenLoop configs layer lastNode nodes st)) ?_ ?_ nodes
  · intro layer lastNode jsCode mergedHtml st
    rw [recurseLoop_nil, seenLoop_nil]
    rfl
  · intro currentNode rest ihsub ihrest layer lastNode jsCode mergedHtml st
    have hnone : ∀ l, recurseSublayer configs currentNode st l = none →
        seenSublayer configs currentNode st l = [] := by
      intro l h
      rcases currentNode with ⟨type, val, _ | sub, begin⟩
      · rw [seenSublayer]
      · rw [recurseSublayer_some] at h
        cases h
    have hsome : ∀ l r, recurseSublayer configs currentNode st l = some r →
        r.2.searchedVariables
          = searchAll st.searchedVariables (seenSublayer configs currentNode st l) := by
      intro l r h
      rcases currentNode with ⟨type, val, _ | sub, begin⟩
      · rw [recurseSublayer_none] at h
        cases h
      · rw [recurseSublayer_some] at h
        simp only [Option.some.injEq] at h
        subst h
        rw [seenSublayer]
        exact ihsub sub rfl l none [] [] st
    have hvars := visit_vars configs layer lastNode rest.head? currentNode jsCode mergedHtml st
      (recurseSublayer configs currentNode st) (seenSublayer configs currentNode st) hnone hsome
    have hout := visit_outcome configs layer lastNode rest.head? currentNode jsCode mergedHtml
      [] [] st (recurseSublayer configs currentNode st)
    rw [recurseLoop_cons, seenLoop_cons, searchAll_append]
    rcases hv : visit configs layer lastNode currentNode rest.head? jsCode mergedHtml st
      (recurseSublayer configs currentNode st) with ⟨_ | ⟨j, m⟩, st1⟩ <;>
    rcases hv0 : visit configs layer lastNode currentNode rest.head? [] [] st
      (recurseSublayer configs currentNode st) with ⟨_ | ⟨j0, m0⟩, st0⟩ <;>
    rw [hv, hv0] at hout <;> rw [hv] at hvars <;>
    simp only [outcome, Except.isOk, Except.toBool, Prod.mk.injEq, Bool.false_eq_true,
      Bool.true_eq_false, false_and, true_and] at hout
    · simp only [searchAll]
      exact hvars
    · subst hout
      simp only
      rw [ihrest layer (some currentNode) j m st1, ← hvars]

/-- The declarations are one `var N=$data.N||undefined;` for each entry of the
variable list, in its order. -/
theorem declarations_eq (vars : List Str) :
    declarations vars
      = (vars.map (fun v =>
          "var ".toList ++ v ++ "=$data.".toList ++ v ++ "||undefined;".toList)).flatten := by
  induction vars with
  | nil => rfl
  | cons v vs ih => simp only [declarations, List.map_cons, List.flatten_cons, ih]

/-- C7: when `compile` succeeds from the fresh state, the returned text is the
prologue (the `use strict` header, the `size` method when `configs.arraySize` is
set, the initializer), then the declarations of the variable list (one `var
N=$data.N||undefined;` for each entry, in order), then the text the walk
produced, then `return $out;`; and the variable list holds no name twice and is
exactly the root names of the references the walk met, in first-seen order. -/
theorem compile_program_text (configs : Configs) (parseStack : List Node) (text : Str)
    (st : State) (h : compile configs parseStack State.fresh = (.ok text, st)) :
    ∃ inner : Str,
      recurseMake configs parseStack (some 0) State.fresh = (.ok inner, st) ∧
      text = "\x27use strict\x27;".toList
        ++ (if configs.arraySize then
              "if(!Array.prototype.size)\x7bArray.prototype.size=function()\x7breturn this.length;\x7d;\x7d".toList
            else [])
        ++ "var $data=arguments[0],$out=\x27\x27;".toList
        ++ (st.searchedVariables.map (fun v =>
            "var ".toList ++ v ++ "=$data.".toList ++ v ++ "||undefined;".toList)).flatten
        ++ inner ++ "return $out;".toList ∧
      st.searchedVariables = firstSeen (seenLoop configs (some 0) none parseStack State.fresh) ∧
      st.searchedVariables.Nodup := by
  have hvars := recurseLoop_vars configs parseStack (some 0) none [] [] State.fresh
  unfold compile at h
  rcases hw : recurseMake configs parseStack (some 0) State.fresh with ⟨_ | inner, st1⟩
  · rw [hw] at h
    cases h
  · rw [hw] at h
    simp only at h
    by_cases hlen : st1.procedureControlStack.length > 0
    · rw [if_pos hlen] at h
      cases h
    · rw [if_neg hlen] at h
      simp only [Prod.mk.injEq, Except.ok.injEq] at h
      obtain ⟨htext, hst⟩ := h
      subst hst
      have hw1 : recurseLoop configs (some 0) none parseStack [] [] State.fresh
          = (.ok inner, st1) := hw
      rw [hw1] at hvars
      have hseen : st1.searchedVariables
          = firstSeen (seenLoop configs (some 0) none parseStack State.fresh) := by
        rw [← searchAll_nil]
        exact hvars
      refine ⟨inner, rfl, ?_, hseen, ?_⟩
      · rw [← htext, declarations_eq]
        rfl
      · rw [hseen]
        exact firstSeen_nodup _

set_option maxRecDepth 100000 in
/-- C7 at a concrete tree: two references to `user` (one quiet, one through
`user.name`) and one to `n` give the declarations of `user` and `n`, once each,
in that order. -/
theorem compile_program_text_witness :
    ∃ inner : Str,
      recurseMake ⟨false, false⟩
        [.mk TYPE_VARIABLE [] (some [.mk TYPE_SYNTAX "user.name".toList none 0]) 0,
         .mk TYPE_HTML "x".toList none 1,
         .mk TYPE_VARIABLE [] (some [.mk TYPE_SYNTAX "n".toList none 0]) 2,
         .mk TYPE_VARIABLE_QR [] (some [.mk TYPE_SYNTAX "user".toList none 0]) 3]
        (some 0) State.fresh = (.ok inner, ⟨["user".toList, "n".toList], []⟩) ∧
      ("\x27use strict\x27;var $data=arguments[0],$out=\x27\x27;".toList
        ++ "var user=$data.user||undefined;var n=$data.n||undefined;".toList
        ++ "$out+=user.name;$out+=\x27x\x27;$out+=n;".toList
        ++ "$out+=(function()\x7btry\x7breturn((user||user==0)?user:\x27\x27)\x7dcatch(e)\x7breturn \x27\x27;\x7d\x7d)();".toList
        ++ "return $out;".toList)
        = "\x27use strict\x27;".toList
        ++ (if (⟨false, false⟩ : Configs).arraySize then
              "if(!Array.prototype.size)\x7bArray.prototype.size=function()\x7breturn this.length;\x7d;\x7d".toList
            else [])
        ++ "var $data=arguments[0],$out=\x27\x27;".toList
        ++ ((["user".toList, "n".toList] : List Str).map (fun v =>
            "var ".toList ++ v ++ "=$data.".toList ++ v ++ "||undefined;".toList)).flatten
        ++ inner ++ "return $out;".toList ∧
      ["user".toList, "n".toList] = firstSeen (seenLoop ⟨false, false⟩ (some 0) none
        [.mk TYPE_VARIABLE [] (some [.mk TYPE_SYNTAX "user.name".toList none 0]) 0,
         .mk TYPE_HTML "x".toList none 1,
         .mk TYPE_VARIABLE [] (some [.mk TYPE_SYNTAX "n".toList none 0]) 2,
         .mk TYPE_VARIABLE_QR [] (some [.mk TYPE_SYNTAX "user".toList none 0]) 3]
        State.fresh) ∧
      (["user".toList, "n".toList] : List Str).Nodup :=
  compile_program_text ⟨false, false⟩ _ _ ⟨["user".toList, "n".toList], []⟩ (by decide)


/-! ## The check of `set` -/

theorem matchSetExp2_iff (s : Str) : matchSetExp2 s = true ↔ TrailingShape s := by
  unfold TrailingShape
  induction s with
  | nil => simp [matchSetExp2]
  | cons a t ih =>
    cases t with
    | nil =>
      simp only [matchSetExp2, Bool.false_eq_true, false_iff]
      rintro ⟨pre, c, h, _⟩
      have := congrArg List.length h
      simp at this
    | cons b u =>
      cases u with
      | nil =>
        simp only [matchSetExp2, Bool.and_eq_true, beq_iff_eq]
        constructor
        · rintro ⟨h1, h2⟩
          exact ⟨[], a, by simp [h2], h1⟩
        · rintro ⟨pre, c, h, hc⟩
          cases pre with
          | nil =>
            simp only [List.nil_append, List.cons.injEq, and_true] at h
            exact ⟨h.1 ▸ hc, h.2⟩
          | cons p ps =>
            have := congrArg List.length h
            simp at this
      | cons d v =>
        have hstep : matchSetExp2 (a :: b :: d :: v) = matchSetExp2 (b :: d :: v) := by
          simp only [matchSetExp2]
        rw [hstep, ih]
        constructor
        · rintro ⟨pre, c, h, hc⟩
          exact ⟨a :: pre, c, by simp [h], hc⟩
        · rintro ⟨pre, c, h, hc⟩
          cases pre with
          | nil =>
            have := congrArg List.length h
            simp at this
          | cons p ps =>
            simp only [List.cons_append, List.cons.injEq] at h
            exact ⟨ps, c, h.2, hc⟩

theorem mem_replaceDelimitedFrom (opening close x : Char) (s : Str) (skip : Nat)
    (h : x ∈ replaceDelimitedFrom opening close skip s) : x ∈ s := by
  induction s generalizing skip with
  | nil => simp [replaceDelimitedFrom] at h
  | cons c cs ih =>
    cases skip with
    | succ k =>
      simp only [replaceDelimitedFrom] at h
      exact List.mem_cons_of_mem _ (ih k h)
    | zero =>
      simp only [replaceDelimitedFrom] at h
      split_ifs at h
      · split at h
        · exact List.mem_cons_of_mem _ (ih _ h)
        · rcases List.mem_cons.mp h with h | h
          · exact h ▸ List.mem_cons_self _ _
          · exact List.mem_cons_of_mem _ (ih _ h)
      · rcases List.mem_cons.mp h with h | h
        · exact h ▸ List.mem_cons_self _ _
        · exact List.mem_cons_of_mem _ (ih _ h)

theorem setProcessor_eq (expression : Str) (st : State) :
    setProcessor (some expression) st =
      if searchSetExp1 (replaceBracket (replaceString expression)) = true
          ∨ matchSetExp2 (replaceBracket (replaceString expression)) = true then
        (.str (expression ++ ";".toList), st)
      else (.error "set 表达式语法不正确".toList, st) := by
  unfold setProcessor
  simp only
  cases searchSetExp1 (replaceBracket (replaceString expression)) <;>
    cases matchSetExp2 (replaceBracket (replaceString expression)) <;> simp

theorem replaceDelimitedFrom_no_close (opening close : Char) (s : Str) (h : close ∉ s) :
    replaceDelimitedFrom opening close 0 s = s := by
  induction s with
  | nil => rfl
  | cons c cs ih =>
    simp only [List.mem_cons, not_or] at h
    simp only [replaceDelimitedFrom, lastClose_none close cs h.2, ih h.2, ite_self]

/-- What a replacement of one delimited stretch removes on one line:
everything from the first opening delimiter to the last closing one. -/
theorem replaceDelimitedFrom_first_to_last (opening close : Char) (a b c : Str)
    (ha : opening ∉ a) (hc : close ∉ c) (hb : ∀ x ∈ b, isLineTerminator x = false)
    (hclose : isLineTerminator close = false) :
    replaceDelimitedFrom opening close 0 (a ++ opening :: (b ++ close :: c)) = a ++ c := by
  induction a with
  | nil =>
    simp only [List.nil_append, replaceDelimitedFrom, if_true,
      lastClose_reach close b c hb hc hclose]
    have := replaceDelimitedFrom_skip opening close (b ++ [close]) c
    simp only [List.length_append, List.length_singleton, List.append_assoc,
      List.singleton_append] at this
    rw [this, replaceDelimitedFrom_no_close opening close c hc]
  | cons x xs ih =>
    simp only [List.mem_cons, not_or] at ha
    have hx : ¬ x = opening := fun e => ha.1 e.symm
    simp only [List.cons_append, replaceDelimitedFrom, List.append_eq, hx, if_false, ih ha.2]

/-- C11, as stated, fails: with its two single-quoted parts removed (it has
no parenthesised part) the expression `x['a'] = y + 'b'` is `x[] = y + `, which
has the first assignment shape, yet `setProcessor` rejects the expression: its
check removes everything from the first quote to the last one, the `=` included,
and decides on `x[`. -/
theorem setProcessor_rejects_two_literals :
    withoutParenthesised 0 (withoutQuoted false "x[\x27a\x27] = y + \x27b\x27".toList)
      = "x[] = y + ".toList ∧
    AssignmentShape
      (withoutParenthesised 0 (withoutQuoted false "x[\x27a\x27] = y + \x27b\x27".toList)) ∧
    replaceBracket (replaceString "x[\x27a\x27] = y + \x27b\x27".toList) = "x[".toList ∧
    setProcessor (some "x[\x27a\x27] = y + \x27b\x27".toList) State.fresh
      = (.error "set 表达式语法不正确".toList, State.fresh) :=
  ⟨by decide, (searchSetExp1_iff _).mp (by decide), by decide, by decide⟩

/-- C11, amended: `setProcessor` decides on the text left after
`replaceString` and then `replaceBracket`.  On one line `replaceString` removes
everything from the first single quote to the last one, and `replaceBracket`
everything from the first `(` to the last `)`; a text without a quote,
respectively without `(`, is left as it is.  `setProcessor` accepts exactly when
the text left has the assignment shape `target = value` or ends in a target
character followed by `=`; it then returns the expression followed by `;`, and
otherwise the malformed-set error.  An expression without `=` is rejected, so is
`f(a=b)`, `x = 1` is accepted, and the state (the block stack with it) is never
changed, whatever the expression. -/
theorem setProcessor_shapes (expression : Str) (st : State) :
    ((AssignmentShape (replaceBracket (replaceString expression))
        ∨ TrailingShape (replaceBracket (replaceString expression))) →
      setProcessor (some expression) st = (.str (expression ++ ";".toList), st)) ∧
    (¬ (AssignmentShape (replaceBracket (replaceString expression))
        ∨ TrailingShape (replaceBracket (replaceString expression))) →
      setProcessor (some expression) st = (.error "set 表达式语法不正确".toList, st)) ∧
    (∀ a b c : Str, quote ∉ a → quote ∉ c → (∀ x ∈ b, isLineTerminator x = false) →
      replaceString (a ++ quote :: (b ++ quote :: c)) = a ++ c) ∧
    (∀ a b c : Str, '(' ∉ a → ')' ∉ c → (∀ x ∈ b, isLineTerminator x = false) →
      replaceBracket (a ++ '(' :: (b ++ ')' :: c)) = a ++ c) ∧
    (∀ s : Str, quote ∉ s → replaceString s = s) ∧
    (∀ s : Str, '(' ∉ s → replaceBracket s = s) ∧
    ('=' ∉ expression →
      setProcessor (some expression) st = (.error "set 表达式语法不正确".toList, st)) ∧
    setProcessor (some "f(a=b)".toList) st = (.error "set 表达式语法不正确".toList, st) ∧
    setProcessor (some "x = 1".toList) st = (.str "x = 1;".toList, st) ∧
    (∀ e : Option Str, (setProcessor e st).2 = st) := by
  have hreject : ¬ (AssignmentShape (replaceBracket (replaceString expression))
        ∨ TrailingShape (replaceBracket (replaceString expression))) →
      setProcessor (some expression) st = (.error "set 表达式语法不正确".toList, st) := by
    intro h
    rw [setProcessor_eq, if_neg]
    rw [searchSetExp1_iff, matchSetExp2_iff]
    exact h
  refine ⟨?_, hreject,
    fun a b c ha hc hb =>
      replaceDelimitedFrom_first_to_last quote quote a b c ha hc hb (by decide),
    fun a b c ha hc hb =>
      replaceDelimitedFrom_first_to_last '(' ')' a b c ha hc hb (by decide),
    fun s hs => replaceDelimitedFrom_none quote quote s hs,
    fun s hs => replaceDelimitedFrom_none '(' ')' s hs, ?_, ?_, ?_, ?_⟩
  · intro h
    rw [setProcessor_eq, if_pos]
    rw [searchSetExp1_iff, matchSetExp2_iff]
    exact h
  · intro hno
    apply hreject
    have hcheck : '=' ∉ replaceBracket (replaceString expression) := fun hmem =>
      hno (mem_replaceDelimitedFrom _ _ _ _ _ (mem_replaceDelimitedFrom _ _ _ _ _ hmem))
    rintro (⟨pre, c1, mid, c2, post, heq, _⟩ | ⟨pre, c, heq, _⟩)
    · exact hcheck (by rw [heq]; simp)
    · exact hcheck (by rw [heq]; simp)
  · rw [setProcessor_eq, if_neg (by decide)]
  · rw [setProcessor_eq, if_pos (Or.inl (by decide))]
    rfl
  · intro e
    cases e with
    | none => rfl
    | some e =>
      rw [setProcessor_eq]
      split_ifs <;> rfl

/-- C11 amended, at a concrete expression: the check removes the literal and
the argument list, and what is left, `a.b = f + `, has the first shape. -/
theorem setProcessor_shapes_witness :
    replaceBracket (replaceString "a.b = f(1) + \x27c\x27".toList) = "a.b = f + ".toList ∧
    setProcessor (some "a.b = f(1) + \x27c\x27".toList) State.fresh
      = (.str ("a.b = f(1) + \x27c\x27".toList ++ ";".toList), State.fresh) :=
  ⟨by decide,
   (setProcessor_shapes "a.b = f(1) + \x27c\x27".toList State.fresh).1
     (Or.inl ((searchSetExp1_iff _).mp (by decide)))⟩


/-! ## References and the nesting depth -/

theorem variableCode_eq (configs : Configs) (layer : Layer) (lastNode : Option Node)
    (currentNode : Node) (jsCode segment : Str) :
    variableCode configs layer lastNode currentNode jsCode segment =
      if layer = some 0 then
        jsCode ++ "$out+=".toList ++ referenceFragment configs lastNode currentNode segment
          ++ ";".toList
      else jsCode ++ referenceFragment configs lastNode currentNode segment := by
  unfold variableCode referenceFragment
  simp only [decide_eq_true_eq]
  split_ifs <;> simp only [List.append_assoc]

theorem visit_variable (configs : Configs) (layer : Layer) (lastNode nextNode : Option Node)
    (currentNode : Node) (jsCode mergedHtml : Str) (st : State)
    (recurse : Layer → Option (Except Thrown Str × State))
    (h : currentNode.type = TYPE_VARIABLE ∨ currentNode.type = TYPE_VARIABLE_QR) :
    visit configs layer lastNode currentNode nextNode jsCode mergedHtml st recurse =
      visitVariable configs layer lastNode currentNode jsCode mergedHtml st
        (recurse layer.succ) := by
  have hne : ¬ currentNode.type = TYPE_HTML := by
    rcases h with h | h <;> rw [h] <;> decide
  simp only [visit, line93_dead, Bool.false_eq_true, if_false, hne, h, if_true]

theorem Layer.succ_ne_zero (layer : Layer) : layer.succ ≠ some 0 := by
  cases layer with
  | none => simp [Layer.succ]
  | some n => simp [Layer.succ]

/-- The loop body asks for the inner call at `layer + 1` or with no layer,
never at layer 0. -/
theorem visit_inner_layers (configs : Configs) (layer : Layer)
    (lastNode nextNode : Option Node) (currentNode : Node) (jsCode mergedHtml : Str) (st : State)
    (recurse recurse1 : Layer → Option (Except Thrown Str × State))
    (h : ∀ l : Layer, l ≠ some 0 → recurse l = recurse1 l) :
    visit configs layer lastNode currentNode nextNode jsCode mergedHtml st recurse =
      visit configs layer lastNode currentNode nextNode jsCode mergedHtml st recurse1 := by
  simp only [visit, h layer.succ (Layer.succ_ne_zero layer), h none (by simp)]

theorem variableCode_below_top (configs : Configs) (layer : Layer) (hl : layer ≠ some 0)
    (lastNode : Option Node) (currentNode : Node) (jsCode segment : Str) :
    variableCode configs layer lastNode currentNode jsCode segment
      = variableCode configs none lastNode currentNode jsCode segment := by
  have hn : ¬ (none : Layer) = some 0 := by simp
  rw [variableCode_eq, variableCode_eq, if_neg hl, if_neg hn]

theorem visitVariable_below_top (configs : Configs) (layer : Layer) (hl : layer ≠ some 0)
    (lastNode : Option Node) (currentNode : Node) (jsCode mergedHtml : Str) (st : State)
    (inner : Option (Except Thrown Str × State)) :
    visitVariable configs layer lastNode currentNode jsCode mergedHtml st inner
      = visitVariable configs none lastNode currentNode jsCode mergedHtml st inner := by
  rcases inner with _ | ⟨_ | segment, st1⟩
  · rfl
  · rfl
  · simp only [visitVariable, variableCode_below_top configs layer hl]

/-- Below the top level the loop body reads the depth only to hand it on. -/
theorem visit_below_top (configs : Configs) (layer : Layer) (hl : layer ≠ some 0)
    (lastNode nextNode : Option Node) (currentNode : Node) (jsCode mergedHtml : Str) (st : State)
    (recurse : Layer → Option (Except Thrown Str × State))
    (hrec : recurse layer.succ = recurse none) :
    visit configs layer lastNode currentNode nextNode jsCode mergedHtml st recurse
      = visit configs none lastNode currentNode nextNode jsCode mergedHtml st recurse := by
  have hs : Layer.succ none = none := rfl
  simp only [visit, hs, hrec, visitVariable_below_top configs layer hl]

/-- Below the top level the depth plays no part: at every layer other than 0
the walk of a node list, with everything below it, is the walk with no layer. -/
theorem recurseLoop_below_top (configs : Configs) (nodes : List Node) :
    ∀ (layer : Layer), layer ≠ some 0 →
    ∀ (lastNode : Option Node) (jsCode mergedHtml : Str) (st : State),
      recurseLoop configs layer lastNode nodes jsCode mergedHtml st
        = recurseLoop configs none lastNode nodes jsCode mergedHtml st := by
  refine parseStack_induction
    (fun nodes => ∀ (layer : Layer), layer ≠ some 0 →
      ∀ (lastNode : Option Node) (jsCode mergedHtml : Str) (st : State),
        recurseLoop configs layer lastNode nodes jsCode mergedHtml st
          = recurseLoop configs none lastNode nodes jsCode mergedHtml st) ?_ ?_ nodes
  · intro layer _ lastNode jsCode mergedHtml st
    rw [recurseLoop_nil, recurseLoop_nil]
  · intro currentNode rest ihsub ihrest layer hl lastNode jsCode mergedHtml st
    have hrec : recurseSublayer configs currentNode st layer.succ
        = recurseSublayer configs currentNode st none := by
      rcases currentNode with ⟨type, val, _ | sub, begin⟩
      · rw [recurseSublayer_none, recurseSublayer_none]
      · rw [recurseSublayer_some, recurseSublayer_some, recurseMake, recurseMake,
          ihsub sub rfl layer.succ (Layer.succ_ne_zero layer)]
    rw [recurseLoop_cons, recurseLoop_cons,
      visit_below_top configs layer hl lastNode rest.head? currentNode jsCode mergedHtml st
        (recurseSublayer configs currentNode st) hrec]
    rcases visit configs none lastNode currentNode rest.head? jsCode mergedHtml st
      (recurseSublayer configs currentNode st) with ⟨_ | ⟨j, m⟩, st1⟩
    · rfl
    · exact ihrest layer hl (some currentNode) j m st1

/-- The loop on a reference node whose sublayer, walked one level deeper,
gives `segment`. -/
theorem recurseLoop_reference (configs : Configs) (layer : Layer) (lastNode : Option Node)
    (type : Nat) (val : Str) (sub : List Node) (begin : Nat) (rest : List Node)
    (jsCode mergedHtml segment : Str) (st st1 : State)
    (ht : type = TYPE_VARIABLE ∨ type = TYPE_VARIABLE_QR)
    (hin : recurseMake configs sub layer.succ st = (.ok segment, st1)) :
    recurseLoop configs layer lastNode (.mk type val (some sub) begin :: rest)
        jsCode mergedHtml st
      = recurseLoop configs layer (some (.mk type val (some sub) begin)) rest
          (variableCode configs layer lastNode (.mk type val (some sub) begin) jsCode segment)
          mergedHtml (st1.search (splitNotW0 segment)) := by
  rw [recurseLoop_cons,
    visit_variable configs layer lastNode rest.head? (.mk type val (some sub) begin)
      jsCode mergedHtml st _ ht,
    recurseSublayer_some, hin]
  simp only [visitVariable]

/-- The loop on a string node whose sublayer, walked one level deeper, gives
`segment`. -/
theorem recurseLoop_string (configs : Configs) (layer : Layer) (lastNode : Option Node)
    (val : Str) (sub : List Node) (begin : Nat) (rest : List Node)
    (jsCode mergedHtml segment : Str) (st st1 : State)
    (hin : recurseMake configs sub layer.succ st = (.ok segment, st1)) :
    recurseLoop configs layer lastNode (.mk TYPE_STRING val (some sub) begin :: rest)
        jsCode mergedHtml st
      = recurseLoop configs layer (some (.mk TYPE_STRING val (some sub) begin)) rest
          (jsCode ++ segment) mergedHtml st1 := by
  have h1 : ¬ TYPE_STRING = TYPE_HTML := by decide
  have h2 : ¬ (TYPE_STRING = TYPE_VARIABLE ∨ TYPE_STRING = TYPE_VARIABLE_QR) := by decide
  have h3 : ¬ TYPE_STRING = TYPE_DIRECTIVE := by decide
  have h4 : ¬ TYPE_STRING = TYPE_SYNTAX := by decide
  have h5 : ¬ TYPE_STRING = TYPE_STRING_CONTENT := by decide
  rw [recurseLoop_cons]
  simp only [visit, line93_dead, Bool.false_eq_true, if_false, Node.type, h1, h2, h3, h4, h5,
    if_true]
  rw [recurseSublayer_some, hin]
  simp only [visitString]

/-- C12: in the walk that `compile` starts at layer 0, a reference node of
the top-level sequence is emitted as `$out+=` fragment `;`, where the fragment
is made from the text of its sublayer walked at layer 1.  At every other layer a
reference node is emitted as the bare fragment, and its sublayer is walked one
layer deeper again; the expression of a directive is its sublayer walked with no
layer, the text of a string node its sublayer walked one layer deeper.  No
sublayer is ever walked at layer 0, and below the top level the walk of a whole
tree is the same at every layer: every reference inside a directive expression,
a string or another reference, at any depth, is emitted bare. -/
theorem reference_appended_at_layer_zero (configs : Configs) :
    (∀ (lastNode : Option Node) (type : Nat) (val : Str) (sub : List Node) (begin : Nat)
        (rest : List Node) (jsCode mergedHtml segment : Str) (st st1 : State),
      (type = TYPE_VARIABLE ∨ type = TYPE_VARIABLE_QR) →
      recurseMake configs sub (some 1) st = (.ok segment, st1) →
      recurseLoop configs (some 0) lastNode (.mk type val (some sub) begin :: rest)
          jsCode mergedHtml st
        = recurseLoop configs (some 0) (some (.mk type val (some sub) begin)) rest
            (jsCode ++ "$out+=".toList
              ++ referenceFragment configs lastNode (.mk type val (some sub) begin) segment
              ++ ";".toList)
            mergedHtml (st1.search (splitNotW0 segment))) ∧
    (∀ (layer : Layer) (lastNode : Option Node) (type : Nat) (val : Str) (sub : List Node)
        (begin : Nat) (rest : List Node) (jsCode mergedHtml segment : Str) (st st1 : State),
      layer ≠ some 0 →
      (type = TYPE_VARIABLE ∨ type = TYPE_VARIABLE_QR) →
      recurseMake configs sub layer.succ st = (.ok segment, st1) →
      recurseLoop configs layer lastNode (.mk type val (some sub) begin :: rest)
          jsCode mergedHtml st
        = recurseLoop configs layer (some (.mk type val (some sub) begin)) rest
            (jsCode
              ++ referenceFragment configs lastNode (.mk type val (some sub) begin) segment)
            mergedHtml (st1.search (splitNotW0 segment))) ∧
    (∀ (layer : Layer) (lastNode : Option Node) (val : Str) (sub : List Node) (begin : Nat)
        (rest : List Node) (jsCode mergedHtml : Str) (st : State),
      recurseLoop configs layer lastNode (.mk TYPE_DIRECTIVE val (some sub) begin :: rest)
          jsCode mergedHtml st
        = match visitDirective (.mk TYPE_DIRECTIVE val (some sub) begin) jsCode mergedHtml st
            (some (recurseMake configs sub none st)) with
          | (.error e, st1) => (.error e, st1)
          | (.ok (jsCode1, mergedHtml1), st1) =>
            recurseLoop configs layer (some (.mk TYPE_DIRECTIVE val (some sub) begin)) rest
              jsCode1 mergedHtml1 st1) ∧
    (∀ (layer : Layer) (lastNode : Option Node) (val : Str) (sub : List Node) (begin : Nat)
        (rest : List Node) (jsCode mergedHtml segment : Str) (st st1 : State),
      recurseMake configs sub layer.succ st = (.ok segment, st1) →
      recurseLoop configs layer lastNode (.mk TYPE_STRING val (some sub) begin :: rest)
          jsCode mergedHtml st
        = recurseLoop configs layer (some (.mk TYPE_STRING val (some sub) begin)) rest
            (jsCode ++ segment) mergedHtml st1) ∧
    (∀ layer : Layer, layer.succ ≠ some 0) ∧
    (∀ (nodes : List Node) (layer : Layer), layer ≠ some 0 →
      ∀ (lastNode : Option Node) (jsCode mergedHtml : Str) (st : State),
        recurseLoop configs layer lastNode nodes jsCode mergedHtml st
          = recurseLoop configs none lastNode nodes jsCode mergedHtml st) ∧
    (∀ (parseStack : List Node) (st st1 : State) (inner : Str),
      recurseLoop configs (some 0) none parseStack [] [] st = (.ok inner, st1) →
      st1.procedureControlStack = [] →
      compile configs parseStack st
        = (.ok (prologue configs ++ declarations st1.searchedVariables ++ inner
            ++ "return $out;".toList), st1)) := by
  refine ⟨?_, ?_, ?_, ?_, Layer.succ_ne_zero, recurseLoop_below_top configs, ?_⟩
  · intro lastNode type val sub begin rest jsCode mergedHtml segment st st1 ht hin
    rw [recurseLoop_reference configs (some 0) lastNode type val sub begin rest jsCode
      mergedHtml segment st st1 ht hin, variableCode_eq, if_pos rfl]
  · intro layer lastNode type val sub begin rest jsCode mergedHtml segment st st1 hl ht hin
    rw [recurseLoop_reference configs layer lastNode type val sub begin rest jsCode
      mergedHtml segment st st1 ht hin, variableCode_eq, if_neg hl]
  · intro layer lastNode val sub begin rest jsCode mergedHtml st
    have h1 : ¬ TYPE_DIRECTIVE = TYPE_HTML := by decide
    have h2 : ¬ (TYPE_DIRECTIVE = TYPE_VARIABLE ∨ TYPE_DIRECTIVE = TYPE_VARIABLE_QR) := by
      decide
    rw [recurseLoop_cons]
    simp only [visit, line93_dead, Bool.false_eq_true, if_false, Node.type, h1, h2, if_true]
    rw [recurseSublayer_some]
  · intro layer lastNode val sub begin rest jsCode mergedHtml segment st st1 hin
    exact recurseLoop_string configs layer lastNode val sub begin rest jsCode mergedHtml
      segment st st1 hin
  · intro parseStack st st1 inner hwalk hstack
    simp only [compile, recurseMake, hwalk, hstack, List.length_nil, gt_iff_lt,
      lt_self_iff_false, if_false]

/-- C12 at a concrete tree: the reference `a[b]` at the top level is
appended to `$out`; the reference `b` inside it, the reference `c` inside the
`if` expression and the reference `d` inside the string are bare. -/
theorem reference_appended_at_layer_zero_witness :
    recurseMake ⟨false, false⟩
        [.mk TYPE_SYNTAX "a[".toList none 0,
         .mk TYPE_VARIABLE [] (some [.mk TYPE_SYNTAX "b".toList none 0]) 0,
         .mk TYPE_SYNTAX "]".toList none 0] (some 1) State.fresh
      = (.ok "a[b]".toList, ⟨["b".toList], []⟩) ∧
    recurseLoop ⟨false, false⟩ (some 0) none
        [.mk TYPE_VARIABLE []
          (some [.mk TYPE_SYNTAX "a[".toList none 0,
            .mk TYPE_VARIABLE [] (some [.mk TYPE_SYNTAX "b".toList none 0]) 0,
            .mk TYPE_SYNTAX "]".toList none 0]) 0,
         .mk TYPE_DIRECTIVE "if".toList
          (some [.mk TYPE_VARIABLE [] (some [.mk TYPE_SYNTAX "c".toList none 0]) 0,
            .mk TYPE_SYNTAX " == ".toList none 0,
            .mk TYPE_STRING []
              (some [.mk TYPE_STRING_CONTENT "k".toList none 0,
                .mk TYPE_VARIABLE [] (some [.mk TYPE_SYNTAX "d".toList none 0]) 0]) 0]) 1,
         .mk TYPE_DIRECTIVE "end".toList none 2] [] [] State.fresh
      = (.ok "$out+=a[b];if(c == \x27k\x27+d)\x7b\x7d".toList,
          ⟨["b".toList, "a".toList, "c".toList, "d".toList], []⟩) :=
  have hin : recurseMake ⟨false, false⟩
        [.mk TYPE_SYNTAX "a[".toList none 0,
         .mk TYPE_VARIABLE [] (some [.mk TYPE_SYNTAX "b".toList none 0]) 0,
         .mk TYPE_SYNTAX "]".toList none 0] (some 1) State.fresh
      = (.ok "a[b]".toList, ⟨["b".toList], []⟩) := by decide
  ⟨hin,
   ((reference_appended_at_layer_zero ⟨false, false⟩).1 none TYPE_VARIABLE []
      [.mk TYPE_SYNTAX "a[".toList none 0,
       .mk TYPE_VARIABLE [] (some [.mk TYPE_SYNTAX "b".toList none 0]) 0,
       .mk TYPE_SYNTAX "]".toList none 0] 0
      [.mk TYPE_DIRECTIVE "if".toList
        (some [.mk TYPE_VARIABLE [] (some [.mk TYPE_SYNTAX "c".toList none 0]) 0,
          .mk TYPE_SYNTAX " == ".toList none 0,
          .mk TYPE_STRING []
            (some [.mk TYPE_STRING_CONTENT "k".toList none 0,
              .mk TYPE_VARIABLE [] (some [.mk TYPE_SYNTAX "d".toList none 0]) 0]) 0]) 1,
       .mk TYPE_DIRECTIVE "end".toList none 2]
      [] [] "a[b]".toList State.fresh ⟨["b".toList], []⟩ (Or.inl rfl) hin).trans (by decide)⟩


/-! ## The undefined-output mode below the top level -/

set_option maxRecDepth 100000 in
/-- C13 (the code at the failing input): with `undefinedOutput` set, a loud
reference that is the first node of the expression of an `if`, the first node of
a string, or the first node inside another reference is emitted through the
undefined-output wrapper, not plain: the test is `i == 0` in whatever list the
loop is running on.  With `undefinedOutput` not set the same references are
emitted plain. -/
theorem undefinedOutput_below_top_level :
    (recurseMake ⟨false, true⟩
        [.mk TYPE_DIRECTIVE "if".toList
          (some [.mk TYPE_VARIABLE [] (some [.mk TYPE_SYNTAX "x".toList none 0]) 0]) 0]
        (some 0) State.fresh).1
      = .ok ("if(".toList ++ undefinedOutputCode "x".toList ++ ")\x7b".toList) ∧
    (recurseMake ⟨false, true⟩
        [.mk TYPE_STRING []
          (some [.mk TYPE_VARIABLE [] (some [.mk TYPE_SYNTAX "x".toList none 0]) 0]) 0]
        (some 1) State.fresh).1
      = .ok (undefinedOutputCode "x".toList) ∧
    (recurseMake ⟨false, true⟩
        [.mk TYPE_VARIABLE_QR []
          (some [.mk TYPE_VARIABLE [] (some [.mk TYPE_SYNTAX "x".toList none 0]) 0]) 0]
        (some 1) State.fresh).1
      = .ok (quietCode (undefinedOutputCode "x".toList)) ∧
    (recurseMake ⟨false, false⟩
        [.mk TYPE_DIRECTIVE "if".toList
          (some [.mk TYPE_VARIABLE [] (some [.mk TYPE_SYNTAX "x".toList none 0]) 0]) 0]
        (some 0) State.fresh).1
      = .ok "if(x)\x7b".toList := by
  refine ⟨?_, ?_, ?_, ?_⟩ <;> decide

/-! ## String nodes -/

/-- C14 (the code at the failing input): a string node holding two
references next to each other is emitted as the two fragments with nothing
between them, not joined by `+`; a string node with no children is emitted as
the empty text.  Literal fragments around a reference are joined as the claim
says. -/
theorem string_of_adjacent_references :
    (recurseMake ⟨false, false⟩
        [.mk TYPE_STRING []
          (some [.mk TYPE_VARIABLE [] (some [.mk TYPE_SYNTAX "x".toList none 0]) 0,
                 .mk TYPE_VARIABLE [] (some [.mk TYPE_SYNTAX "y".toList none 0]) 1]) 0]
        none State.fresh).1
      = .ok "xy".toList ∧
    (recurseMake ⟨false, false⟩ [.mk TYPE_STRING [] (some []) 0] none State.fresh).1
      = .ok [] ∧
    (recurseMake ⟨false, false⟩
        [.mk TYPE_STRING []
          (some [.mk TYPE_STRING_CONTENT "a".toList none 0,
                 .mk TYPE_VARIABLE [] (some [.mk TYPE_SYNTAX "x".toList none 0]) 1,
                 .mk TYPE_STRING_CONTENT "b".toList none 2]) 0]
        none State.fresh).1
      = .ok "\x27a\x27+x+\x27b\x27".toList := by
  refine ⟨?_, ?_, ?_⟩ <;> decide


/-! ## Quotes and backslashes after `escapeSQ` -/

theorem takeWhile_append_of_stop (p : Char → Bool) (l m : Str)
    (h : ∃ x ∈ l, p x = false) : (l ++ m).takeWhile p = l.takeWhile p := by
  induction l with
  | nil => simp at h
  | cons a as ih =>
    simp only [List.cons_append, List.takeWhile_cons]
    cases hp : p a with
    | false => rfl
    | true =>
      simp only [if_true]
      obtain ⟨x, hx, hpx⟩ := h
      rcases List.mem_cons.mp hx with rfl | hx
      · rw [hp] at hpx; cases hpx
      · rw [ih ⟨x, hx, hpx⟩]

theorem backslashRun_eq (k : Nat) (text : Str) :
    backslashRun k text =
      if (∀ c ∈ text, c = backslash) then k + text.length else trailingBackslashes text := by
  induction text generalizing k with
  | nil => simp [backslashRun]
  | cons c cs ih =>
    unfold trailingBackslashes at ih ⊢
    have hstop : (¬ ∀ c ∈ cs, c = backslash) →
        ∃ x ∈ cs.reverse, (fun c => c == backslash) x = false := by
      intro hall
      push_neg at hall
      obtain ⟨x, hx, hne⟩ := hall
      exact ⟨x, List.mem_reverse.mpr hx, by simpa using hne⟩
    by_cases hc : c = backslash
    · subst hc
      simp only [backslashRun, if_true, ih, List.mem_cons, forall_eq_or_imp, true_and,
        List.length_cons, List.reverse_cons]
      by_cases hall : ∀ c ∈ cs, c = backslash
      · rw [if_pos hall, if_pos hall]
        omega
      · rw [if_neg hall, if_neg hall, takeWhile_append_of_stop _ _ _ (hstop hall)]
    · have hnall : ¬ ∀ x ∈ c :: cs, x = backslash := fun h => hc (h c (List.mem_cons_self _ _))
      simp only [backslashRun, hc, if_false, ih, List.reverse_cons]
      rw [if_neg hnall]
      by_cases hall : ∀ c ∈ cs, c = backslash
      · rw [if_pos hall]
        have hall' : ∀ x ∈ cs.reverse, (fun c => c == backslash) x = true := by
          intro x hx
          simpa using hall x (List.mem_reverse.mp hx)
        rw [List.takeWhile_append_of_pos hall']
        simp [hc]
      · rw [if_neg hall, takeWhile_append_of_stop _ _ _ (hstop hall)]

theorem backslashRun_zero (text : Str) : backslashRun 0 text = trailingBackslashes text := by
  rw [backslashRun_eq]
  split_ifs with h
  · unfold trailingBackslashes
    have hall : ∀ x ∈ text.reverse, (fun c => c == backslash) x = true := by
      intro x hx
      simpa using h x (List.mem_reverse.mp hx)
    rw [List.takeWhile_eq_self_iff.mpr hall]
    simp
  · rfl

/-- The backslash runs of `escapeSQ s`, read from the left after `k`
backslashes with `k` even: odd in front of a quote, even in front of any other
character and at the end. -/
theorem escapeSQ_runs (s : Str) :
    ∀ (k : Nat) (pre post : Str), Even k → escapeSQ s = pre ++ post →
      (post.head? = some quote → Odd (backslashRun k pre)) ∧
      (post.head? ≠ some quote → post.head? ≠ some backslash → Even (backslashRun k pre)) := by
  have hqb : quote ≠ backslash := by decide
  induction s with
  | nil =>
    intro k pre post hk h
    rw [escapeSQ_nil] at h
    have hpre : pre = [] := (List.append_eq_nil.mp h.symm).1
    have hpost : post = [] := (List.append_eq_nil.mp h.symm).2
    subst hpre hpost
    exact ⟨fun hq => by simp at hq, fun _ _ => hk⟩
  | cons c cs ih =>
    intro k pre post hk h
    rw [escapeSQ_cons] at h
    by_cases hb : c = backslash
    · simp only [hb, if_true, List.cons_append, List.nil_append] at h
      rcases pre with _ | ⟨p1, _ | ⟨p2, pre'⟩⟩
      · simp only [List.nil_append] at h
        rw [← h]
        exact ⟨fun hq => absurd (Option.some.inj hq).symm hqb, fun _ hn => absurd rfl hn⟩
      · simp only [List.cons_append, List.nil_append, List.cons.injEq] at h
        rw [← h.2]
        exact ⟨fun hq => absurd (Option.some.inj hq).symm hqb, fun _ hn => absurd rfl hn⟩
      · simp only [List.cons_append, List.cons.injEq] at h
        obtain ⟨h1, h2, h3⟩ := h
        subst h1 h2
        simp only [backslashRun, if_true]
        exact ih (k + 1 + 1) pre' post (by simpa [Nat.even_add_one] using hk) h3
    · by_cases hq : c = quote
      · simp only [hq, hqb, if_false, if_true, List.cons_append, List.nil_append] at h
        rcases pre with _ | ⟨p1, _ | ⟨p2, pre'⟩⟩
        · simp only [List.nil_append] at h
          rw [← h]
          exact ⟨fun hq => absurd (Option.some.inj hq).symm hqb, fun _ hn => absurd rfl hn⟩
        · simp only [List.cons_append, List.nil_append, List.cons.injEq] at h
          obtain ⟨h1, h2⟩ := h
          subst h1
          rw [← h2]
          simp only [backslashRun, if_true]
          exact ⟨fun _ => hk.add_one, fun hn => absurd rfl hn⟩
        · simp only [List.cons_append, List.cons.injEq] at h
          obtain ⟨h1, h2, h3⟩ := h
          subst h1 h2
          simp only [backslashRun, if_true, hqb, if_false]
          exact ih 0 pre' post (by decide) h3
      · simp only [hb, hq, if_false, List.cons_append, List.nil_append] at h
        rcases pre with _ | ⟨p1, pre'⟩
        · simp only [List.nil_append] at h
          rw [← h]
          refine ⟨fun hh => absurd (Option.some.inj hh) hq, fun _ _ => hk⟩
        · simp only [List.cons_append, List.cons.injEq] at h
          obtain ⟨h1, h3⟩ := h
          subst h1
          simp only [backslashRun, hb, if_false]
          exact ih 0 pre' post (by decide) h3

/-- C17: wherever the text `escapeSQ s` is cut into `pre` and `post`, the
backslashes at the end of `pre` are odd in number when `post` starts with a
single quote, and even when `post` is empty or starts with any character other
than a quote or a backslash (so every quote is escaped, and no run of
backslashes that does not lead to a quote is odd, the one at the end of the text
included). -/
theorem escapeSQ_quotes_escaped (s pre post : Str) (h : escapeSQ s = pre ++ post) :
    (post.head? = some quote → Odd (trailingBackslashes pre)) ∧
    (post.head? ≠ some quote → post.head? ≠ some backslash →
      Even (trailingBackslashes pre)) := by
  have := escapeSQ_runs s 0 pre post (by decide) h
  rw [backslashRun_zero] at this
  exact this

/-- C17 at a concrete text: the input backslash-quote becomes three
backslashes and a quote. -/
theorem escapeSQ_quotes_escaped_witness :
    Odd (trailingBackslashes [backslash, backslash, backslash]) ∧
    Even (trailingBackslashes [backslash, backslash, backslash, quote, 'a']) :=
  ⟨(escapeSQ_quotes_escaped [backslash, quote, 'a'] [backslash, backslash, backslash]
      [quote, 'a'] (by decide)).1 rfl,
   (escapeSQ_quotes_escaped [backslash, quote, 'a']
      [backslash, backslash, backslash, quote, 'a'] [] (by decide)).2 (by decide) (by decide)⟩


/-! ## The entries of the block stack -/

theorem handler_kinds (name : Str) (handler : Option Str → State → Segment × State)
    (hp : processorHandlers name = some handler) (expression : Option Str) (st : State)
    (h : StackKinds st) : StackKinds (handler expression st).2 := by
  have hpush : ∀ kind : Str, (kind = "if".toList ∨ kind = "foreach".toList) →
      StackKinds (st.push kind) := by
    intro kind hk x hx
    simp only [State.push, List.mem_cons] at hx
    rcases hx with rfl | hx
    · exact hk
    · exact h x hx
  unfold processorHandlers at hp
  split_ifs at hp <;> simp only [Option.some.injEq] at hp <;> subst hp
  · unfold ifProcessor
    cases expression with
    | none => exact h
    | some e =>
      simp only
      split_ifs
      · exact h
      · exact hpush _ (Or.inl rfl)
  · rcases st with ⟨vars, stack⟩
    cases stack with
    | nil => exact h
    | cons top below =>
      have hbelow : StackKinds ⟨vars, below⟩ := by
        intro x hx
        exact h x (List.mem_cons_of_mem _ hx)
      simp only [endProcessor]
      split_ifs <;> exact hbelow
  · simp only [elseProcessor]
    split_ifs <;> exact h
  · unfold elseifProcessor
    split_ifs
    · exact h
    · cases expression with
      | none => exact h
      | some e => simp only; split_ifs <;> exact h
  · unfold foreachProcessor
    cases expression with
    | none => exact hpush _ (Or.inr rfl)
    | some e => simp only; split <;> exact hpush _ (Or.inr rfl)
  · exact h
  · unfold setProcessor
    cases expression with
    | none => exact h
    | some e => simp only; split_ifs <;> exact h

theorem runHandlers_kinds (calls : List (Str × Option Str)) (st : State)
    (h : StackKinds st) : StackKinds (runHandlers calls st) := by
  induction calls generalizing st with
  | nil => exact h
  | cons call calls ih =>
    obtain ⟨name, expression⟩ := call
    simp only [runHandlers]
    cases hp : processorHandlers name with
    | none => exact ih st h
    | some handler => exact ih _ (handler_kinds name handler hp expression st h)

theorem endProcessor_closes (st : State) (h : StackKinds st)
    (hne : st.procedureControlStack ≠ []) :
    (endProcessor st).1 = .str "\x7d".toList ∨
      (endProcessor st).1 = .str "\x7d\x7d)();".toList := by
  rcases st with ⟨vars, stack⟩
  cases stack with
  | nil => exact absurd rfl hne
  | cons top below =>
    have hne : ¬ "foreach".toList = "if".toList := by decide
    rcases h top (List.mem_cons_self _ _) with htop | htop
    · left
      simp only [endProcessor, htop, if_true]
    · right
      simp only [endProcessor, htop, hne, if_false, if_true]

theorem callHandler_kinds (currentNode : Node) (jsCode mergedHtml : Str)
    (expression : Option Str) (st : State) (h : StackKinds st) :
    StackKinds (callHandler currentNode jsCode mergedHtml expression st).2 := by
  unfold callHandler
  cases hp : processorHandlers currentNode.val with
  | none => exact h
  | some handler =>
    have hk := handler_kinds _ handler hp expression st h
    simp only
    rcases hh : handler expression st with ⟨_ | _ | _ | _, st1⟩ <;> rw [hh] at hk <;> exact hk

theorem search_kinds (st : State) (name : Str) (h : StackKinds st) :
    StackKinds (st.search name) := by
  unfold State.search
  split_ifs
  · exact h
  · exact h

theorem visit_kinds (configs : Configs) (layer : Layer) (lastNode nextNode : Option Node)
    (currentNode : Node) (jsCode mergedHtml : Str) (st : State)
    (recurse : Layer → Option (Except Thrown Str × State))
    (h : StackKinds st) (hrec : ∀ l r, recurse l = some r → StackKinds r.2) :
    StackKinds (visit configs layer lastNode currentNode nextNode jsCode mergedHtml st
      recurse).2 := by
  unfold visit
  simp only [line93_dead, Bool.false_eq_true, if_false]
  split_ifs
  · unfold visitHtml
    simp only
    split_ifs <;> exact h
  · unfold visitVariable
    rcases hr : recurse layer.succ with _ | ⟨_ | segment, st1⟩
    · exact h
    · exact hrec _ _ hr
    · exact search_kinds _ _ (hrec _ _ hr)
  · unfold visitDirective
    rcases hr : recurse none with _ | ⟨_ | expression, st1⟩
    · exact callHandler_kinds _ _ _ _ _ h
    · exact hrec _ _ hr
    · exact callHandler_kinds _ _ _ _ _ (hrec _ _ hr)
  · exact h
  · exact h
  · unfold visitString
    rcases hr : recurse layer.succ with _ | ⟨_ | segment, st1⟩
    · exact h
    · exact hrec _ _ hr
    · exact hrec _ _ hr
  · exact h

/-- The walk keeps the block stack made of `if` and `foreach` entries. -/
theorem recurseLoop_kinds (configs : Configs) (nodes : List Node) :
    ∀ (layer : Layer) (lastNode : Option Node) (jsCode mergedHtml : Str) (st : State),
      StackKinds st →
      StackKinds (recurseLoop configs layer lastNode nodes jsCode mergedHtml st).2 := by
  refine parseStack_induction (fun nodes =>
    ∀ (layer : Layer) (lastNode : Option Node) (jsCode mergedHtml : Str) (st : State),
      StackKinds st →
      StackKinds (recurseLoop configs layer lastNode nodes jsCode mergedHtml st).2) ?_ ?_ nodes
  · intro layer lastNode jsCode mergedHtml st h
    rw [recurseLoop_nil]
    exact h
  · intro currentNode rest ihsub ihrest layer lastNode jsCode mergedHtml st h
    have hrec : ∀ l r, recurseSublayer configs currentNode st l = some r → StackKinds r.2 := by
      intro l r hr
      rcases currentNode with ⟨type, val, _ | sub, begin⟩
      · rw [recurseSublayer_none] at hr
        cases hr
      · rw [recurseSublayer_some] at hr
        simp only [Option.some.injEq] at hr
        subst hr
        exact ihsub sub rfl l none [] [] st h
    have hv := visit_kinds configs layer lastNode rest.head? currentNode jsCode mergedHtml st
      (recurseSublayer configs currentNode st) h hrec
    rw [recurseLoop_cons]
    rcases hvis : visit configs layer lastNode currentNode rest.head? jsCode mergedHtml st
      (recurseSublayer configs currentNode st) with ⟨_ | ⟨j, m⟩, st1⟩
    · rw [hvis] at hv
      exact hv
    · rw [hvis] at hv
      exact ihrest layer (some currentNode) j m st1 hv

/-- C19: from the empty block stack, after any sequence of directive-handler
calls (whatever the names, the expressions and the results) every entry of the
block stack is `if` or `foreach`, and `endProcessor` on the state reached, when
its block stack is not empty, returns one of its two closing texts; the same
holds for the state `compile` leaves from the fresh state, whatever the tree. -/
theorem stack_holds_if_or_foreach (calls : List (Str × Option Str)) :
    StackKinds (runHandlers calls State.fresh) ∧
    ((runHandlers calls State.fresh).procedureControlStack ≠ [] →
      (endProcessor (runHandlers calls State.fresh)).1 = .str "\x7d".toList ∨
      (endProcessor (runHandlers calls State.fresh)).1 = .str "\x7d\x7d)();".toList) ∧
    (∀ (configs : Configs) (parseStack : List Node),
      StackKinds (compile configs parseStack State.fresh).2) := by
  have hfresh : StackKinds State.fresh := by
    intro x hx
    simp [State.fresh] at hx
  have hk := runHandlers_kinds calls State.fresh hfresh
  refine ⟨hk, fun hne => endProcessor_closes _ hk hne, ?_⟩
  intro configs parseStack
  have hw := recurseLoop_kinds configs parseStack (some 0) none [] [] State.fresh hfresh
  unfold compile recurseMake
  rcases hr : recurseLoop configs (some 0) none parseStack [] [] State.fresh
    with ⟨_ | inner, st1⟩
  · rw [hr] at hw
    exact hw
  · rw [hr] at hw
    simp only
    split_ifs <;> exact hw

/-- C19 at a concrete sequence of calls: `if`, a failing `foreach`, `else`,
`end`; the stack holds `if` and `end` closes the loop that was pushed. -/
theorem stack_holds_if_or_foreach_witness :
    (endProcessor (runHandlers
        [("if".toList, some "a".toList), ("foreach".toList, some "x".toList),
         ("else".toList, none)] State.fresh)).1 = .str "\x7d".toList ∨
    (endProcessor (runHandlers
        [("if".toList, some "a".toList), ("foreach".toList, some "x".toList),
         ("else".toList, none)] State.fresh)).1 = .str "\x7d\x7d)();".toList :=
  (stack_holds_if_or_foreach
    [("if".toList, some "a".toList), ("foreach".toList, some "x".toList),
     ("else".toList, none)]).2.1 (by decide)


/-! ## `else` after `else` -/

theorem recurseMake_one_syntax (configs : Configs) (c : Str) (begin : Nat) (layer : Layer)
    (st : State) :
    recurseMake configs [.mk TYPE_SYNTAX c none begin] layer st = (.ok c, st) := by
  have h1 : ¬ TYPE_SYNTAX = TYPE_HTML := by decide
  have h2 : ¬ (TYPE_SYNTAX = TYPE_VARIABLE ∨ TYPE_SYNTAX = TYPE_VARIABLE_QR) := by decide
  have h3 : ¬ TYPE_SYNTAX = TYPE_DIRECTIVE := by decide
  rw [recurseMake, recurseLoop_cons]
  simp only [visit, line93_dead, Bool.false_eq_true, if_false, Node.type, Node.val, h1, h2, h3,
    if_true, List.nil_append]
  rw [recurseLoop_nil]

theorem visit_directive (configs : Configs) (layer : Layer) (lastNode nextNode : Option Node)
    (currentNode : Node) (jsCode mergedHtml : Str) (st : State)
    (recurse : Layer → Option (Except Thrown Str × State))
    (hd : currentNode.type = TYPE_DIRECTIVE) :
    visit configs layer lastNode currentNode nextNode jsCode mergedHtml st recurse =
      visitDirective currentNode jsCode mergedHtml st (recurse none) := by
  have h1 : ¬ TYPE_DIRECTIVE = TYPE_HTML := by decide
  have h2 : ¬ (TYPE_DIRECTIVE = TYPE_VARIABLE ∨ TYPE_DIRECTIVE = TYPE_VARIABLE_QR) := by decide
  simp only [visit, line93_dead, Bool.false_eq_true, if_false, hd, h1, h2, if_true]

/-- The loop on a directive node without sublayer whose handler returns a
string. -/
theorem recurseLoop_bare_directive (configs : Configs) (layer : Layer)
    (lastNode : Option Node) (name : Str) (begin : Nat) (rest : List Node)
    (jsCode mergedHtml : Str) (st st1 : State)
    (handler : Option Str → State → Segment × State) (segment : Str)
    (hp : processorHandlers name = some handler)
    (hh : handler none st = (.str segment, st1)) :
    recurseLoop configs layer lastNode (.mk TYPE_DIRECTIVE name none begin :: rest)
        jsCode mergedHtml st =
      recurseLoop configs layer (some (.mk TYPE_DIRECTIVE name none begin)) rest
        (jsCode ++ segment) mergedHtml st1 := by
  rw [recurseLoop_cons,
    visit_directive configs layer lastNode rest.head? (.mk TYPE_DIRECTIVE name none begin)
      jsCode mergedHtml st _ rfl,
    recurseSublayer_none]
  simp only [visitDirective]
  rw [callHandler_of (.mk TYPE_DIRECTIVE name none begin) jsCode mergedHtml none st st1
    handler segment hp hh]

/-- The loop on a directive node whose sublayer is one syntax node holding
the expression, and whose handler returns a string. -/
theorem recurseLoop_expression_directive (configs : Configs) (layer : Layer)
    (lastNode : Option Node) (name c : Str) (begin begin1 : Nat) (rest : List Node)
    (jsCode mergedHtml : Str) (st st1 : State)
    (handler : Option Str → State → Segment × State) (segment : Str)
    (hp : processorHandlers name = some handler)
    (hh : handler (some c) st = (.str segment, st1)) :
    recurseLoop configs layer lastNode
        (.mk TYPE_DIRECTIVE name (some [.mk TYPE_SYNTAX c none begin1]) begin :: rest)
        jsCode mergedHtml st =
      recurseLoop configs layer
        (some (.mk TYPE_DIRECTIVE name (some [.mk TYPE_SYNTAX c none begin1]) begin)) rest
        (jsCode ++ segment) mergedHtml st1 := by
  rw [recurseLoop_cons,
    visit_directive configs layer lastNode rest.head?
      (.mk TYPE_DIRECTIVE name (some [.mk TYPE_SYNTAX c none begin1]) begin)
      jsCode mergedHtml st _ rfl,
    recurseSublayer_some, recurseMake_one_syntax]
  simp only [visitDirective]
  rw [callHandler_of (.mk TYPE_DIRECTIVE name (some [.mk TYPE_SYNTAX c none begin1]) begin)
    jsCode mergedHtml (some c) st st1 handler segment hp hh]

theorem compile_of_fresh_walk (configs : Configs) (parseStack : List Node) (inner : Str)
    (h : recurseMake configs parseStack (some 0) State.fresh = (.ok inner, State.fresh)) :
    compile configs parseStack State.fresh
      = (.ok (prologue configs ++ inner ++ "return $out;".toList), State.fresh) := by
  simp only [compile, h]
  simp only [State.fresh, List.length_nil, gt_iff_lt, lt_self_iff_false, if_false, declarations,
    List.append_nil]

/-- C20: for expressions `c` and `d` that pass the assignment check, the
directive sequences `if(c)`, `else`, `else`, `end` and `if(c)`, `else`,
`elseif(d)`, `end` compile from the fresh state without error, to a body with two
`else` clauses on one `if`, and leave the state fresh. -/
theorem compile_second_else (configs : Configs) (c d : Str)
    (hc : searchSetExp1 (replaceString c) = false)
    (hd : searchSetExp1 (replaceString d) = false) :
    compile configs
        [.mk TYPE_DIRECTIVE "if".toList (some [.mk TYPE_SYNTAX c none 0]) 0,
         .mk TYPE_DIRECTIVE "else".toList none 1,
         .mk TYPE_DIRECTIVE "else".toList none 2,
         .mk TYPE_DIRECTIVE "end".toList none 3] State.fresh
      = (.ok (prologue configs
          ++ ("if(".toList ++ c ++ ")\x7b".toList ++ "\x7delse\x7b".toList
            ++ "\x7delse\x7b".toList ++ "\x7d".toList)
          ++ "return $out;".toList), State.fresh) ∧
    compile configs
        [.mk TYPE_DIRECTIVE "if".toList (some [.mk TYPE_SYNTAX c none 0]) 0,
         .mk TYPE_DIRECTIVE "else".toList none 1,
         .mk TYPE_DIRECTIVE "elseif".toList (some [.mk TYPE_SYNTAX d none 0]) 2,
         .mk TYPE_DIRECTIVE "end".toList none 3] State.fresh
      = (.ok (prologue configs
          ++ ("if(".toList ++ c ++ ")\x7b".toList ++ "\x7delse\x7b".toList
            ++ ("\x7delse if(".toList ++ d ++ ")\x7b".toList) ++ "\x7d".toList)
          ++ "return $out;".toList), State.fresh) := by
  have hif : ifProcessor (some c) State.fresh
      = (.str ("if(".toList ++ c ++ ")\x7b".toList), ⟨[], ["if".toList]⟩) := by
    simp only [ifProcessor, hc, Bool.false_eq_true, if_false]
    rfl
  have helse : elseProcessor ⟨[], ["if".toList]⟩
      = (.str "\x7delse\x7b".toList, ⟨[], ["if".toList]⟩) := by decide
  have helseif : elseifProcessor (some d) ⟨[], ["if".toList]⟩
      = (.str ("\x7delse if(".toList ++ d ++ ")\x7b".toList), ⟨[], ["if".toList]⟩) := by
    have htop : (⟨[], ["if".toList]⟩ : State).topIsNotIf = false := by decide
    simp only [elseifProcessor, htop, hd, Bool.false_eq_true, if_false]
  have hend : endProcessor ⟨[], ["if".toList]⟩ = (.str "\x7d".toList, State.fresh) := by
    decide
  have pif : processorHandlers "if".toList = some ifProcessor := rfl
  have pelse : processorHandlers "else".toList = some (fun _ => elseProcessor) := rfl
  have pelseif : processorHandlers "elseif".toList = some elseifProcessor := rfl
  have pend : processorHandlers "end".toList = some (fun _ => endProcessor) := rfl
  constructor
  · have hwalk : recurseMake configs
        [.mk TYPE_DIRECTIVE "if".toList (some [.mk TYPE_SYNTAX c none 0]) 0,
         .mk TYPE_DIRECTIVE "else".toList none 1,
         .mk TYPE_DIRECTIVE "else".toList none 2,
         .mk TYPE_DIRECTIVE "end".toList none 3] (some 0) State.fresh
        = (.ok ("if(".toList ++ c ++ ")\x7b".toList ++ "\x7delse\x7b".toList
            ++ "\x7delse\x7b".toList ++ "\x7d".toList), State.fresh) := by
      rw [recurseMake,
        recurseLoop_expression_directive _ _ _ _ _ _ _ _ _ _ _ _ ifProcessor _ pif hif,
        recurseLoop_bare_directive _ _ _ _ _ _ _ _ _ _ (fun _ => elseProcessor) _ pelse helse,
        recurseLoop_bare_directive _ _ _ _ _ _ _ _ _ _ (fun _ => elseProcessor) _ pelse helse,
        recurseLoop_bare_directive _ _ _ _ _ _ _ _ _ _ (fun _ => endProcessor) _ pend hend,
        recurseLoop_nil, List.nil_append]
    exact compile_of_fresh_walk _ _ _ hwalk
  · have hwalk : recurseMake configs
        [.mk TYPE_DIRECTIVE "if".toList (some [.mk TYPE_SYNTAX c none 0]) 0,
         .mk TYPE_DIRECTIVE "else".toList none 1,
         .mk TYPE_DIRECTIVE "elseif".toList (some [.mk TYPE_SYNTAX d none 0]) 2,
         .mk TYPE_DIRECTIVE "end".toList none 3] (some 0) State.fresh
        = (.ok ("if(".toList ++ c ++ ")\x7b".toList ++ "\x7delse\x7b".toList
            ++ ("\x7delse if(".toList ++ d ++ ")\x7b".toList) ++ "\x7d".toList),
            State.fresh) := by
      rw [recurseMake,
        recurseLoop_expression_directive _ _ _ _ _ _ _ _ _ _ _ _ ifProcessor _ pif hif,
        recurseLoop_bare_directive _ _ _ _ _ _ _ _ _ _ (fun _ => elseProcessor) _ pelse helse,
        recurseLoop_expression_directive _ _ _ _ _ _ _ _ _ _ _ _ elseifProcessor _ pelseif helseif,
        recurseLoop_bare_directive _ _ _ _ _ _ _ _ _ _ (fun _ => endProcessor) _ pend hend,
        recurseLoop_nil, List.nil_append]
    exact compile_of_fresh_walk _ _ _ hwalk

/-- C20 at concrete expressions: `a` and `b == 1`. -/
theorem compile_second_else_witness :
    compile ⟨false, false⟩
        [.mk TYPE_DIRECTIVE "if".toList (some [.mk TYPE_SYNTAX "a".toList none 0]) 0,
         .mk TYPE_DIRECTIVE "else".toList none 1,
         .mk TYPE_DIRECTIVE "else".toList none 2,
         .mk TYPE_DIRECTIVE "end".toList none 3] State.fresh
      = (.ok (prologue ⟨false, false⟩
          ++ ("if(".toList ++ "a".toList ++ ")\x7b".toList ++ "\x7delse\x7b".toList
            ++ "\x7delse\x7b".toList ++ "\x7d".toList)
          ++ "return $out;".toList), State.fresh) :=
  (compile_second_else ⟨false, false⟩ "a".toList "b == 1".toList (by decide) (by decide)).1


/-! ## Compiling the same tree again -/

theorem mem_searchAll_left (vars names : List Str) (x : Str) (h : x ∈ vars) :
    x ∈ searchAll vars names := by
  induction names generalizing vars with
  | nil => exact h
  | cons n ns ih =>
    simp only [searchAll]
    apply ih
    split_ifs
    · exact h
    · exact List.mem_append_left _ h

theorem mem_searchAll_right (vars names : List Str) (x : Str) (h : x ∈ names) :
    x ∈ searchAll vars names := by
  induction names generalizing vars with
  | nil => simp at h
  | cons n ns ih =>
    simp only [searchAll]
    rcases List.mem_cons.mp h with rfl | h
    · apply mem_searchAll_left
      split_ifs with hx
      · exact hx
      · simp
    · exact ih _ h

theorem searchAll_of_mem (vars names : List Str) (h : ∀ x ∈ names, x ∈ vars) :
    searchAll vars names = vars := by
  induction names with
  | nil => rfl
  | cons n ns ih =>
    simp only [searchAll, h n (List.mem_cons_self _ _), if_true]
    exact ih (fun x hx => h x (List.mem_cons_of_mem _ hx))

theorem searchAll_again (vars names : List Str) :
    searchAll (searchAll vars names) names = searchAll vars names :=
  searchAll_of_mem _ _ (fun x hx => mem_searchAll_right vars names x hx)

theorem handler_same (name : Str) (handler : Option Str → State → Segment × State)
    (hp : processorHandlers name = some handler) (expression : Option Str) (st st1 : State)
    (h : st.procedureControlStack = st1.procedureControlStack) :
    (handler expression st).1 = (handler expression st1).1 ∧
    (handler expression st).2.procedureControlStack
      = (handler expression st1).2.procedureControlStack := by
  rcases st with ⟨vars, stack⟩
  rcases st1 with ⟨vars1, stack1⟩
  simp only at h
  subst h
  unfold processorHandlers at hp
  split_ifs at hp <;> simp only [Option.some.injEq] at hp <;> subst hp
  · unfold ifProcessor
    cases expression with
    | none => exact ⟨rfl, rfl⟩
    | some e => simp only; split_ifs <;> exact ⟨rfl, rfl⟩
  · cases stack with
    | nil => exact ⟨rfl, rfl⟩
    | cons top below =>
      simp only [endProcessor]
      split_ifs <;> exact ⟨rfl, rfl⟩
  · simp only [elseProcessor, State.topIsNotIf]
    split_ifs <;> exact ⟨rfl, rfl⟩
  · unfold elseifProcessor
    simp only [State.topIsNotIf]
    split_ifs
    · exact ⟨rfl, rfl⟩
    · cases expression with
      | none => exact ⟨rfl, rfl⟩
      | some e => simp only; split_ifs <;> exact ⟨rfl, rfl⟩
  · unfold foreachProcessor
    cases expression with
    | none => exact ⟨rfl, rfl⟩
    | some e => simp only; split <;> exact ⟨rfl, rfl⟩
  · exact ⟨rfl, rfl⟩
  · unfold setProcessor
    cases expression with
    | none => exact ⟨rfl, rfl⟩
    | some e => simp only; split_ifs <;> exact ⟨rfl, rfl⟩

theorem callHandler_same (currentNode : Node) (jsCode mergedHtml : Str)
    (expression : Option Str) (st st1 : State)
    (h : st.procedureControlStack = st1.procedureControlStack) :
    (callHandler currentNode jsCode mergedHtml expression st).1
      = (callHandler currentNode jsCode mergedHtml expression st1).1 ∧
    (callHandler currentNode jsCode mergedHtml expression st).2.procedureControlStack
      = (callHandler currentNode jsCode mergedHtml expression st1).2.procedureControlStack := by
  unfold callHandler
  cases hp : processorHandlers currentNode.val with
  | none => exact ⟨rfl, h⟩
  | some handler =>
    obtain ⟨h1, h2⟩ := handler_same _ handler hp expression st st1 h
    simp only
    rcases hh : handler expression st with ⟨seg, sta⟩
    rcases hh1 : handler expression st1 with ⟨seg1, stb⟩
    rw [hh, hh1] at h1 h2
    simp only at h1 h2
    subst h1
    rcases seg with _ | _ | _ | _ <;> exact ⟨rfl, h2⟩

theorem search_stack (st : State) (name : Str) :
    (st.search name).procedureControlStack = st.procedureControlStack := by
  unfold State.search
  split_ifs <;> rfl

/-- The loop body on two states with the same block stack, with inner calls
that agree but for the variable list. -/
theorem visit_same (configs : Configs) (layer : Layer) (lastNode nextNode : Option Node)
    (currentNode : Node) (jsCode mergedHtml : Str) (st st1 : State)
    (recurse recurse1 : Layer → Option (Except Thrown Str × State))
    (h : st.procedureControlStack = st1.procedureControlStack)
    (hrec : ∀ l, SameInner (recurse l) (recurse1 l)) :
    (visit configs layer lastNode currentNode nextNode jsCode mergedHtml st recurse).1
      = (visit configs layer lastNode currentNode nextNode jsCode mergedHtml st1 recurse1).1 ∧
    (visit configs layer lastNode currentNode nextNode jsCode mergedHtml st
        recurse).2.procedureControlStack
      = (visit configs layer lastNode currentNode nextNode jsCode mergedHtml st1
        recurse1).2.procedureControlStack := by
  unfold visit
  simp only [line93_dead, Bool.false_eq_true, if_false]
  split_ifs
  · unfold visitHtml
    simp only
    split_ifs <;> exact ⟨rfl, h⟩
  · have hr := hrec layer.succ
    unfold visitVariable
    rcases ha : recurse layer.succ with _ | ⟨ra, sa⟩ <;>
      rcases hb : recurse1 layer.succ with _ | ⟨rb, sb⟩ <;>
      rw [ha, hb] at hr <;> simp only [SameInner] at hr
    · exact ⟨rfl, h⟩
    · obtain ⟨hr1, hr2⟩ := hr
      subst hr1
      rcases ra with e | segment
      · exact ⟨rfl, hr2⟩
      · exact ⟨rfl, by simp only [search_stack]; exact hr2⟩
  · have hr := hrec none
    unfold visitDirective
    rcases ha : recurse none with _ | ⟨ra, sa⟩ <;>
      rcases hb : recurse1 none with _ | ⟨rb, sb⟩ <;>
      rw [ha, hb] at hr <;> simp only [SameInner] at hr
    · exact callHandler_same _ _ _ _ _ _ h
    · obtain ⟨hr1, hr2⟩ := hr
      subst hr1
      rcases ra with e | expression
      · exact ⟨rfl, hr2⟩
      · exact callHandler_same _ _ _ _ _ _ hr2
  · exact ⟨rfl, h⟩
  · exact ⟨rfl, h⟩
  · have hr := hrec layer.succ
    unfold visitString
    rcases ha : recurse layer.succ with _ | ⟨ra, sa⟩ <;>
      rcases hb : recurse1 layer.succ with _ | ⟨rb, sb⟩ <;>
      rw [ha, hb] at hr <;> simp only [SameInner] at hr
    · exact ⟨rfl, h⟩
    · obtain ⟨hr1, hr2⟩ := hr
      subst hr1
      rcases ra with e | segment
      · exact ⟨rfl, hr2⟩
      · exact ⟨rfl, hr2⟩
  · exact ⟨rfl, h⟩

theorem seenVisit_same (currentNode : Node) (layer : Layer)
    (recurse recurse1 : Layer → Option (Except Thrown Str × State))
    (inside inside1 : Layer → List Str)
    (hrec : ∀ l, SameInner (recurse l) (recurse1 l)) (hin : ∀ l, inside l = inside1 l) :
    seenVisit currentNode layer recurse inside = seenVisit currentNode layer recurse1 inside1 := by
  have hr := hrec layer.succ
  unfold seenVisit
  simp only [hin]
  rcases ha : recurse layer.succ with _ | ⟨ra, sa⟩
  · rcases hb : recurse1 layer.succ with _ | ⟨rb, sb⟩
    · rfl
    · rw [ha, hb] at hr
      exact hr.elim
  · rcases hb : recurse1 layer.succ with _ | ⟨rb, sb⟩
    · rw [ha, hb] at hr
      exact hr.elim
    · rw [ha, hb] at hr
      obtain ⟨hr1, _⟩ := hr
      subst hr1
      rcases ra with e | segment <;> rfl

/-- The walk does not look at the variable list. -/
theorem recurseLoop_same (configs : Configs) (nodes : List Node) : SameWalk configs nodes := by
  refine parseStack_induction (SameWalk configs) ?_ ?_ nodes
  · intro layer lastNode jsCode mergedHtml st st1 h
    rw [recurseLoop_nil, recurseLoop_nil, seenLoop_nil, seenLoop_nil]
    exact ⟨rfl, h, rfl⟩
  · intro currentNode rest ihsub ihrest layer lastNode jsCode mergedHtml st st1 h
    have hrec : ∀ l, SameInner (recurseSublayer configs currentNode st l)
        (recurseSublayer configs currentNode st1 l) := by
      intro l
      rcases currentNode with ⟨type, val, _ | sub, begin⟩
      · rw [recurseSublayer_none, recurseSublayer_none]
        trivial
      · rw [recurseSublayer_some, recurseSublayer_some]
        have := ihsub sub rfl l none [] [] st st1 h
        exact ⟨this.1, this.2.1⟩
    have hin : ∀ l, seenSublayer configs currentNode st l
        = seenSublayer configs currentNode st1 l := by
      intro l
      rcases currentNode with ⟨type, val, _ | sub, begin⟩
      · rw [seenSublayer, seenSublayer]
      · rw [seenSublayer, seenSublayer]
        exact (ihsub sub rfl l none [] [] st st1 h).2.2
    have hv := visit_same configs layer lastNode rest.head? currentNode jsCode mergedHtml st st1
      _ _ h hrec
    have hv0 := visit_same configs layer lastNode rest.head? currentNode [] [] st st1
      _ _ h hrec
    rw [recurseLoop_cons, recurseLoop_cons, seenLoop_cons, seenLoop_cons,
      seenVisit_same currentNode layer _ _ _ _ hrec hin]
    rcases ha : visit configs layer lastNode currentNode rest.head? jsCode mergedHtml st
      (recurseSublayer configs currentNode st) with ⟨ra, sa⟩
    rcases hb : visit configs layer lastNode currentNode rest.head? jsCode mergedHtml st1
      (recurseSublayer configs currentNode st1) with ⟨rb, sb⟩
    rcases ha0 : visit configs layer lastNode currentNode rest.head? [] [] st
      (recurseSublayer configs currentNode st) with ⟨ra0, sa0⟩
    rcases hb0 : visit configs layer lastNode currentNode rest.head? [] [] st1
      (recurseSublayer configs currentNode st1) with ⟨rb0, sb0⟩
    rw [ha, hb] at hv
    rw [ha0, hb0] at hv0
    simp only at hv hv0
    obtain ⟨hv1, hv2⟩ := hv
    obtain ⟨hv01, hv02⟩ := hv0
    subst hv1 hv01
    have hseen : (match (ra0, sa0) with
        | (.ok _, s) => seenLoop configs layer (some currentNode) rest s
        | (.error _, _) => []) =
        (match (ra0, sb0) with
        | (.ok _, s) => seenLoop configs layer (some currentNode) rest s
        | (.error _, _) => []) := by
      rcases ra0 with e | p
      · rfl
      · exact (ihrest layer (some currentNode) [] [] sa0 sb0 hv02).2.2
    rcases ra with e | ⟨j, m⟩
    · exact ⟨rfl, hv2, by rw [hseen]⟩
    · have := ihrest layer (some currentNode) j m sa sb hv2
      exact ⟨this.1, this.2.1, by rw [hseen]⟩

/-- C18: when `compile` succeeds on a tree from the fresh state, `compile` on
the same tree from the state that call left succeeds again, returns exactly the
same program text, and leaves that state (variable list and block stack) as it
was. -/
theorem compile_again (configs : Configs) (parseStack : List Node) (text : Str) (st : State)
    (h : compile configs parseStack State.fresh = (.ok text, st)) :
    compile configs parseStack st = (.ok text, st) := by
  have hvars := recurseLoop_vars configs parseStack (some 0) none [] [] State.fresh
  unfold compile at h
  rcases hw : recurseMake configs parseStack (some 0) State.fresh with ⟨_ | inner, st1⟩
  · rw [hw] at h
    cases h
  · rw [hw] at h
    simp only at h
    by_cases hlen : st1.procedureControlStack.length > 0
    · rw [if_pos hlen] at h
      cases h
    · rw [if_neg hlen] at h
      simp only [Prod.mk.injEq, Except.ok.injEq] at h
      obtain ⟨htext, hst⟩ := h
      subst hst
      have hw1 : recurseLoop configs (some 0) none parseStack [] [] State.fresh
          = (.ok inner, st1) := hw
      rw [hw1] at hvars
      replace hvars : st1.searchedVariables
          = searchAll [] (seenLoop configs (some 0) none parseStack State.fresh) := hvars
      have hstack : st1.procedureControlStack = [] := by
        cases hs : st1.procedureControlStack with
        | nil => rfl
        | cons a b => rw [hs] at hlen; simp at hlen
      obtain ⟨hsame1, hsame2, hsame3⟩ := recurseLoop_same configs parseStack (some 0) none [] []
        State.fresh st1 (by rw [hstack]; rfl)
      have hvars1 := recurseLoop_vars configs parseStack (some 0) none [] [] st1
      rw [← hsame3, hvars, searchAll_again, ← hvars] at hvars1
      rw [hw1] at hsame1 hsame2
      simp only at hsame1 hsame2
      rcases hw2 : recurseLoop configs (some 0) none parseStack [] [] st1 with ⟨r2, st2⟩
      rw [hw2] at hsame1 hsame2 hvars1
      simp only at hsame1 hsame2 hvars1
      have hst2 : st2 = st1 := by
        rcases st2 with ⟨v2, s2⟩
        rcases st1 with ⟨v1, s1⟩
        simp only at hsame2 hvars1
        rw [hvars1, ← hsame2]
      subst hst2
      subst hsame1
      have hw3 : recurseMake configs parseStack (some 0) st2 = (.ok inner, st2) := hw2
      simp only [compile, hw3, hlen, if_false]
      rw [htext]

/-- C18 at a concrete tree: a reference inside an `if`. -/
theorem compile_again_witness :
    compile ⟨false, false⟩
        [.mk TYPE_DIRECTIVE "if".toList (some [.mk TYPE_SYNTAX "a".toList none 0]) 0,
         .mk TYPE_VARIABLE [] (some [.mk TYPE_SYNTAX "b.c".toList none 0]) 1,
         .mk TYPE_DIRECTIVE "end".toList none 2] ⟨["b".toList], []⟩
      = (.ok (prologue ⟨false, false⟩
          ++ "var b=$data.b||undefined;if(a)\x7b$out+=b.c;\x7dreturn $out;".toList),
        ⟨["b".toList], []⟩) :=
  compile_again ⟨false, false⟩ _ _ ⟨["b".toList], []⟩ (by decide)


/-! ## `break` inside a loop -/

theorem run_nil (entries : Str → Nat) (out : Str) : run entries [] out = (out, false) := by
  rw [run]

theorem run_cons (entries : Str → Nat) (s : Emitted) (rest : List Emitted) (out : Str) :
    run entries (s :: rest) out =
      if (runOne entries s out).2 then (runOne entries s out)
      else run entries rest (runOne entries s out).1 := by
  rw [run]

theorem runOne_foreachLoop (entries : Str → Nat) (key arr : Str) (body : List Emitted)
    (out : Str) :
    runOne entries (.foreachLoop key arr body) out
      = (iterate (run entries body) (entries arr) out, false) := by
  rw [runOne]

theorem run_returnOut (entries : Str → Nat) (rest : List Emitted) (out : Str) :
    run entries (.returnOut :: rest) out = (out, true) := by
  rw [run_cons, runOne]
  rfl

/-- Statements that do not return hand `$out` on to the statements after
them. -/
theorem run_append (entries : Str → Nat) (before rest : List Emitted) (out : Str)
    (h : (run entries before out).2 = false) :
    run entries (before ++ rest) out = run entries rest (run entries before out).1 := by
  induction before generalizing out with
  | nil => rw [List.nil_append, run_nil]
  | cons s before ih =>
    rw [run_cons] at h
    rw [List.cons_append, run_cons, run_cons]
    by_cases hs : (runOne entries s out).2 = true
    · rw [if_pos hs, hs] at h
      cases h
    · rw [if_neg hs] at h
      rw [if_neg hs, if_neg hs]
      exact ih _ h

theorem run_break (entries : Str → Nat) (before inner : List Emitted) (out : Str)
    (h : (run entries before out).2 = false) :
    run entries (before ++ .returnOut :: inner) out = ((run entries before out).1, true) := by
  rw [run_append entries before _ out h, run_returnOut]

theorem runOne_loop_break (entries : Str → Nat) (key arr : Str) (before inner : List Emitted)
    (out : Str) (h : (run entries before out).2 = false) (hn : 0 < entries arr) :
    runOne entries (.foreachLoop key arr (before ++ .returnOut :: inner)) out
      = ((run entries before out).1, false) := by
  obtain ⟨n, hn⟩ := Nat.exists_eq_succ_of_ne_zero (Nat.pos_iff_ne_zero.mp hn)
  rw [runOne_foreachLoop, hn, iterate, run_break entries before inner out h]
  rfl

theorem search_eq (st : State) (name : Str) :
    st.search name = ⟨searchAll st.searchedVariables [name], st.procedureControlStack⟩ := by
  rcases st with ⟨vars, stack⟩
  simp only [State.search, searchAll]
  split_ifs <;> rfl

/-- The inner call on the expression of a loop: the key, the separator and
the collection, and the two names searched. -/
theorem recurseLoop_foreach_expression (configs : Configs)
    (hcfg : configs.undefinedOutput = false) (key arr : Str) (st : State) :
    recurseLoop configs none none
        [referenceNode key, .mk TYPE_SYNTAX " in ".toList none 0, referenceNode arr] [] [] st
      = (.ok (key ++ " in ".toList ++ arr),
          ⟨searchAll st.searchedVariables [splitNotW0 key, splitNotW0 arr],
            st.procedureControlStack⟩) := by
  have h1 : ¬ TYPE_SYNTAX = TYPE_HTML := by decide
  have h2 : ¬ (TYPE_SYNTAX = TYPE_VARIABLE ∨ TYPE_SYNTAX = TYPE_VARIABLE_QR) := by decide
  have h3 : ¬ TYPE_SYNTAX = TYPE_DIRECTIVE := by decide
  have h4 : ¬ TYPE_VARIABLE = TYPE_VARIABLE_QR := by decide
  have hsucc : Layer.succ none = none := rfl
  have hne : ¬ (none : Layer) = some 0 := by decide
  unfold referenceNode
  rw [recurseLoop_cons,
    visit_variable _ _ _ _ (.mk TYPE_VARIABLE [] (some [.mk TYPE_SYNTAX key none 0]) 0)
      _ _ _ _ (Or.inl rfl),
    recurseSublayer_some, hsucc, recurseMake_one_syntax]
  simp only [visitVariable, variableCode, hne, if_false, Node.type, h4, decide_False,
    Bool.false_eq_true, hcfg, Bool.false_and, List.nil_append]
  rw [recurseLoop_cons]
  simp only [visit, line93_dead, Bool.false_eq_true, if_false, Node.type, Node.val, h1, h2, h3,
    if_true]
  rw [recurseLoop_cons,
    visit_variable _ _ _ _ (.mk TYPE_VARIABLE [] (some [.mk TYPE_SYNTAX arr none 0]) 0)
      _ _ _ _ (Or.inl rfl),
    recurseSublayer_some, hsucc, recurseMake_one_syntax]
  simp only [visitVariable, variableCode, hne, if_false, Node.type, h4, decide_False,
    Bool.false_eq_true, hcfg, Bool.false_and]
  rw [recurseLoop_nil, search_eq, search_eq, List.append_assoc]
  rfl

/-- The loop on the `foreach` directive of a loop statement. -/
theorem recurseLoop_foreach_node (configs : Configs) (hcfg : configs.undefinedOutput = false)
    (layer : Layer) (lastNode : Option Node) (key arr : Str) (rest : List Node)
    (jsCode mergedHtml : Str) (st : State)
    (hsplit : splitForeachExp (key ++ " in ".toList ++ arr) = [key, arr]) :
    ∃ last1, recurseLoop configs layer lastNode
        (.mk TYPE_DIRECTIVE "foreach".toList
            (some [referenceNode key, .mk TYPE_SYNTAX " in ".toList none 0, referenceNode arr]) 0
          :: rest) jsCode mergedHtml st
      = recurseLoop configs layer last1 rest (jsCode ++ foreachCode key arr) mergedHtml
          ⟨searchAll st.searchedVariables [splitNotW0 key, splitNotW0 arr],
            "foreach".toList :: st.procedureControlStack⟩ := by
  refine ⟨some (.mk TYPE_DIRECTIVE "foreach".toList
    (some [referenceNode key, .mk TYPE_SYNTAX " in ".toList none 0, referenceNode arr]) 0), ?_⟩
  have pfor : processorHandlers "foreach".toList = some foreachProcessor := rfl
  rw [recurseLoop_cons,
    visit_directive configs layer lastNode rest.head?
      (.mk TYPE_DIRECTIVE "foreach".toList
        (some [referenceNode key, .mk TYPE_SYNTAX " in ".toList none 0, referenceNode arr]) 0)
      jsCode mergedHtml st _ rfl,
    recurseSublayer_some, recurseMake, recurseLoop_foreach_expression configs hcfg]
  simp only [visitDirective]
  rw [callHandler_of
    (.mk TYPE_DIRECTIVE "foreach".toList
      (some [referenceNode key, .mk TYPE_SYNTAX " in ".toList none 0, referenceNode arr]) 0)
    jsCode mergedHtml (some (key ++ " in ".toList ++ arr)) _ _ foreachProcessor
    (foreachCode key arr) pfor (foreachProcessor_pair _ key arr _ hsplit)]
  rfl

/-- The loop on the `end` directive that closes a loop statement. -/
theorem recurseLoop_end_foreach (configs : Configs) (layer : Layer) (lastNode : Option Node)
    (rest : List Node) (jsCode mergedHtml : Str) (vars stack : List Str) :
    recurseLoop configs layer lastNode (endNode :: rest) jsCode mergedHtml
        ⟨vars, "foreach".toList :: stack⟩
      = recurseLoop configs layer (some endNode) rest (jsCode ++ "\x7d\x7d)();".toList)
          mergedHtml ⟨vars, stack⟩ := by
  have pend : processorHandlers "end".toList = some (fun _ => endProcessor) := rfl
  have hend : (fun _ => endProcessor) (none : Option Str) ⟨vars, "foreach".toList :: stack⟩
      = (.str "\x7d\x7d)();".toList, ⟨vars, stack⟩) := by
    have hne : ¬ "foreach".toList = "if".toList := by decide
    simp only [endProcessor, hne, if_false, if_true]
  exact recurseLoop_bare_directive configs layer lastNode "end".toList 0 rest jsCode mergedHtml
    _ _ (fun _ => endProcessor) _ pend hend

/-- The loop on a `break` directive. -/
theorem recurseLoop_break (configs : Configs) (layer : Layer) (lastNode : Option Node)
    (rest : List Node) (jsCode mergedHtml : Str) (st : State) :
    recurseLoop configs layer lastNode (.mk TYPE_DIRECTIVE "break".toList none 0 :: rest)
        jsCode mergedHtml st
      = recurseLoop configs layer (some (.mk TYPE_DIRECTIVE "break".toList none 0)) rest
          (jsCode ++ "return $out;".toList) mergedHtml st := by
  have pbreak : processorHandlers "break".toList = some (fun _ => breakProcessor) := rfl
  exact recurseLoop_bare_directive configs layer lastNode "break".toList 0 rest jsCode mergedHtml
    st st (fun _ => breakProcessor) _ pbreak rfl

theorem templateOf_nil : templateOf [] = [] := by
  rw [templateOf]

theorem templateOf_cons (s : Emitted) (rest : List Emitted) :
    templateOf (s :: rest) = templateOfOne s (templateOf rest) := by
  rw [templateOf]

theorem templateOfOne_append (s : Emitted) (tail more : List Node) :
    templateOfOne s tail ++ more = templateOfOne s (tail ++ more) := by
  cases s with
  | append text => simp only [templateOfOne, List.cons_append]
  | returnOut => simp only [templateOfOne, List.cons_append]
  | foreachLoop key arr body =>
    simp only [templateOfOne, List.cons_append, List.append_assoc]

/-- The nodes of a statement that is not an append start with a directive. -/
theorem templateOfOne_head (s : Emitted) (tail : List Node) (h : s.isAppend = false) :
    typeIsNot (templateOfOne s tail).head? TYPE_HTML = true := by
  cases s with
  | append text => cases h
  | returnOut => simp only [templateOfOne, List.head?_cons]; decide
  | foreachLoop key arr body => simp only [templateOfOne, List.head?_cons]; rfl

theorem separated_cons (s : Emitted) (rest : List Emitted) :
    separated (s :: rest) =
      (separatedOne s && separated rest
        && !(s.isAppend && (match rest with | [] => false | t :: _ => t.isAppend))) := by
  cases rest <;> rfl

mutual
/-- The walk over the template of statements writes their text, searches
their names and leaves the block stack as it was. -/
theorem walk_templateOf (configs : Configs) (hcfg : configs.undefinedOutput = false) :
    ∀ (p : List Emitted), separated p = true →
    ∀ (layer : Layer) (lastNode : Option Node) (tail : List Node) (jsCode : Str) (st : State),
    (tail.head?.isNone || typeIsNot tail.head? TYPE_HTML) = true →
    ∃ last1, recurseLoop configs layer lastNode (templateOf p ++ tail) jsCode [] st
      = recurseLoop configs layer last1 tail (jsCode ++ textOf p) []
          ⟨searchAll st.searchedVariables (namesOf p), st.procedureControlStack⟩
  | [], _, layer, lastNode, tail, jsCode, st, _ =>
    ⟨lastNode, by simp only [templateOf, textOf, namesOf, searchAll, List.nil_append,
      List.append_nil]⟩
  | s :: rest, hsep, layer, lastNode, tail, jsCode, st, htail => by
    rw [separated_cons] at hsep
    simp only [Bool.and_eq_true, Bool.not_eq_true', Bool.and_eq_false_iff] at hsep
    obtain ⟨⟨hs, hrest⟩, hadj⟩ := hsep
    have hnext : s.isAppend = true →
        ((templateOf rest ++ tail).head?.isNone
          || typeIsNot (templateOf rest ++ tail).head? TYPE_HTML) = true := by
      intro ha
      cases rest with
      | nil => rw [templateOf_nil, List.nil_append]; exact htail
      | cons t rest1 =>
        have ht : t.isAppend = false := by
          rcases hadj with h | h
          · rw [ha] at h; cases h
          · exact h
        rw [templateOf_cons, templateOfOne_append, templateOfOne_head t _ ht, Bool.or_true]
    obtain ⟨l1, h1⟩ := walk_templateOfOne configs hcfg s hs layer lastNode
      (templateOf rest ++ tail) jsCode st hnext
    obtain ⟨l2, h2⟩ := walk_templateOf configs hcfg rest hrest layer l1 tail
      (jsCode ++ textOfOne s)
      ⟨searchAll st.searchedVariables (namesOfOne s), st.procedureControlStack⟩ htail
    refine ⟨l2, ?_⟩
    rw [templateOf_cons, templateOfOne_append, h1, h2, textOf, namesOf, searchAll_append,
      List.append_assoc]
/-- The walk over the nodes of one statement. -/
theorem walk_templateOfOne (configs : Configs) (hcfg : configs.undefinedOutput = false) :
    ∀ (s : Emitted), separatedOne s = true →
    ∀ (layer : Layer) (lastNode : Option Node) (tail : List Node) (jsCode : Str) (st : State),
    (s.isAppend = true → (tail.head?.isNone || typeIsNot tail.head? TYPE_HTML) = true) →
    ∃ last1, recurseLoop configs layer lastNode (templateOfOne s tail) jsCode [] st
      = recurseLoop configs layer last1 tail (jsCode ++ textOfOne s) []
          ⟨searchAll st.searchedVariables (namesOfOne s), st.procedureControlStack⟩
  | .append text, _, layer, lastNode, tail, jsCode, st, htail => by
    refine ⟨some (.mk TYPE_HTML text none 0), ?_⟩
    rw [templateOfOne, recurseLoop_cons,
      visit_html configs layer lastNode tail.head? (.mk TYPE_HTML text none 0) jsCode [] st _ rfl,
      if_pos (htail rfl)]
    simp only [textOfOne, namesOfOne, searchAll, List.nil_append, Node.val]
  | .returnOut, _, layer, lastNode, tail, jsCode, st, _ => by
    refine ⟨some (.mk TYPE_DIRECTIVE "break".toList none 0), ?_⟩
    rw [templateOfOne, recurseLoop_break]
    simp only [textOfOne, namesOfOne, searchAll]
  | .foreachLoop key arr body, hs, layer, lastNode, tail, jsCode, st, _ => by
    rw [separatedOne] at hs
    simp only [Bool.and_eq_true, decide_eq_true_eq] at hs
    obtain ⟨hsplit, hbody⟩ := hs
    obtain ⟨l1, h1⟩ := recurseLoop_foreach_node configs hcfg layer lastNode key arr
      (templateOf body ++ endNode :: tail) jsCode [] st hsplit
    obtain ⟨l2, h2⟩ := walk_templateOf configs hcfg body hbody layer l1 (endNode :: tail)
      (jsCode ++ foreachCode key arr)
      ⟨searchAll st.searchedVariables [splitNotW0 key, splitNotW0 arr],
        "foreach".toList :: st.procedureControlStack⟩ rfl
    refine ⟨some endNode, ?_⟩
    rw [templateOfOne, h1, h2, recurseLoop_end_foreach, textOfOne, namesOfOne]
    simp only [List.append_assoc]
    rfl
end

/-- The program `compile` gives for the template of statements: the prologue,
the declarations of their names, their text, and the final `return $out;`. -/
theorem compile_templateOf (configs : Configs) (hcfg : configs.undefinedOutput = false)
    (p : List Emitted) (hsep : separated p = true) :
    compile configs (templateOf p) State.fresh
      = (.ok (prologue configs ++ declarations (firstSeen (namesOf p)) ++ textOf p
          ++ "return $out;".toList), ⟨firstSeen (namesOf p), []⟩) := by
  obtain ⟨last1, h⟩ := walk_templateOf configs hcfg p hsep (some 0) none [] [] State.fresh rfl
  rw [List.append_nil, recurseLoop_nil, List.nil_append] at h
  have hwalk : recurseMake configs (templateOf p) (some 0) State.fresh
      = (.ok (textOf p), ⟨firstSeen (namesOf p), []⟩) := by
    rw [recurseMake, h, ← searchAll_nil]
    rfl
  simp only [compile, hwalk, List.length_nil, gt_iff_lt, lt_self_iff_false, if_false]

/-- C15, as stated, fails on the template `foreach(i in l)`, `a`, `break`,
`b`, `end`, `c`: its program is the loop function with `$out+='a';return
$out;$out+='b';` as its `$callback`, followed by `$out+='c';`.  Over a collection
of two entries the `return` ends the loop at the first entry, the program goes
on after the loop and returns `ac`, not the `a` accumulated up to the break,
which is what the same `break` gives outside a loop. -/
theorem break_in_loop_renders_rest :
    compile ⟨false, false⟩
        (templateOf [.foreachLoop "i".toList "l".toList
          [.append "a".toList, .returnOut, .append "b".toList], .append "c".toList]) State.fresh
      = (.ok (prologue ⟨false, false⟩
          ++ "var i=$data.i||undefined;var l=$data.l||undefined;".toList
          ++ (foreachCode "i".toList "l".toList
            ++ "$out+=\x27a\x27;return $out;$out+=\x27b\x27;".toList ++ "\x7d\x7d)();".toList
            ++ "$out+=\x27c\x27;".toList)
          ++ "return $out;".toList), ⟨["i".toList, "l".toList], []⟩) ∧
    (run (fun _ => 2) [.foreachLoop "i".toList "l".toList
      [.append "a".toList, .returnOut, .append "b".toList], .append "c".toList] []).1
      = "ac".toList ∧
    (run (fun _ => 2) [.append "a".toList, .returnOut, .append "c".toList] []).1
      = "a".toList := by
  refine ⟨?_, by decide, by decide⟩
  rw [compile_templateOf ⟨false, false⟩ rfl _ (by decide)]
  rfl

/-- C15, amended: a `break` makes the function it stands in return.  For a
template of literals, `break` and loops, the program is the text of its
statements, with `return $out;` for each `break`.  Outside any loop the `break`
stands in the program, which returns the output accumulated up to it.  Inside a
loop over a collection with at least one entry it stands in the `$callback` of
that loop: the loop ends at its first entry with the output accumulated up to
the `break`, and wherever the loop stands, also inside another loop, the
function around it goes on with what follows the `end` of the loop. -/
theorem break_ends_enclosing_loop (configs : Configs) (entries : Str → Nat)
    (p : List Emitted) (key arr : Str) (before inner after : List Emitted) (out : Str)
    (hcfg : configs.undefinedOutput = false) (hsep : separated p = true)
    (hbefore : (run entries before out).2 = false) (hentries : 0 < entries arr) :
    compile configs (templateOf p) State.fresh
      = (.ok (prologue configs ++ declarations (firstSeen (namesOf p)) ++ textOf p
          ++ "return $out;".toList), ⟨firstSeen (namesOf p), []⟩) ∧
    (∀ st, breakProcessor st = (.str "return $out;".toList, st)) ∧
    run entries (before ++ .returnOut :: inner) out = ((run entries before out).1, true) ∧
    runOne entries (.foreachLoop key arr (before ++ .returnOut :: inner)) out
      = ((run entries before out).1, false) ∧
    run entries (.foreachLoop key arr (before ++ .returnOut :: inner) :: after) out
      = run entries after (run entries before out).1 := by
  refine ⟨compile_templateOf configs hcfg p hsep, fun _ => rfl,
    run_break entries before inner out hbefore,
    runOne_loop_break entries key arr before inner out hbefore hentries, ?_⟩
  rw [run_cons, runOne_loop_break entries key arr before inner out hbefore hentries]
  rfl

set_option maxRecDepth 20000 in
/-- C15 amended, at a loop nested in another loop, each over two entries:
the `break` ends the inner loop at its first entry, the outer body goes on after
the inner `end`, and the outer loop makes both its passes. -/
theorem break_ends_enclosing_loop_witness :
    (compile ⟨false, false⟩
        (templateOf [.foreachLoop "r".toList "rows".toList
          [.append "<".toList,
           .foreachLoop "c".toList "r.cells".toList
             ([.append "x".toList] ++ .returnOut :: [.append "y".toList]),
           .append ">".toList],
          .append ".".toList]) State.fresh).1
      = .ok (prologue ⟨false, false⟩
          ++ "var r=$data.r||undefined;var rows=$data.rows||undefined;".toList
          ++ "var c=$data.c||undefined;".toList
          ++ (foreachCode "r".toList "rows".toList ++ "$out+=\x27<\x27;".toList
            ++ (foreachCode "c".toList "r.cells".toList
              ++ "$out+=\x27x\x27;return $out;$out+=\x27y\x27;".toList ++ "\x7d\x7d)();".toList)
            ++ "$out+=\x27>\x27;".toList ++ "\x7d\x7d)();".toList ++ "$out+=\x27.\x27;".toList)
          ++ "return $out;".toList) ∧
    run (fun _ => 2) ([.append "x".toList] ++ .returnOut :: [.append "y".toList]) "<".toList
      = ("<x".toList, true) ∧
    runOne (fun _ => 2) (.foreachLoop "c".toList "r.cells".toList
        ([.append "x".toList] ++ .returnOut :: [.append "y".toList])) "<".toList
      = ("<x".toList, false) ∧
    run (fun _ => 2) (.foreachLoop "c".toList "r.cells".toList
        ([.append "x".toList] ++ .returnOut :: [.append "y".toList])
          :: [.append ">".toList]) "<".toList
      = ("<x>".toList, false) ∧
    (run (fun _ => 2) [.foreachLoop "r".toList "rows".toList
        [.append "<".toList,
         .foreachLoop "c".toList "r.cells".toList
           ([.append "x".toList] ++ .returnOut :: [.append "y".toList]),
         .append ">".toList],
        .append ".".toList] []).1 = "<x><x>.".toList :=
  have h := break_ends_enclosing_loop ⟨false, false⟩ (fun _ => 2)
    [.foreachLoop "r".toList "rows".toList
      [.append "<".toList,
       .foreachLoop "c".toList "r.cells".toList
         ([.append "x".toList] ++ .returnOut :: [.append "y".toList]),
       .append ">".toList],
      .append ".".toList]
    "c".toList "r.cells".toList [.append "x".toList] [.append "y".toList] [.append ">".toList]
    "<".toList rfl (by decide) (by decide) (by decide)
  ⟨(congrArg Prod.fst h.1).trans rfl, h.2.2.1.trans (by decide),
    h.2.2.2.1.trans (by decide), h.2.2.2.2.trans (by decide), by decide⟩

/-! ## A quiet reference bound to zero -/

set_option maxRecDepth 100000 in
/-- C16 at a quiet reference to the root name `x`: the program text is the
hoisted declaration `var x=$data.x||undefined;` and the append of the quiet
wrapper of `x`.  On a data context that binds `x` to 0 the declaration gives `x`
the value `undefined`, and the wrapper renders the empty text, not `0`; the
wrapper alone keeps 0 (as for a nested path), and it also keeps `false`, which
renders `false`. -/
theorem quiet_root_zero_renders_empty :
    compile ⟨false, false⟩
        [.mk TYPE_VARIABLE_QR [] (some [.mk TYPE_SYNTAX "x".toList none 0]) 0] State.fresh
      = (.ok (prologue ⟨false, false⟩
          ++ ("var x=$data.x||undefined;".toList
            ++ ("$out+=".toList ++ quietCode "x".toList ++ ";".toList))
          ++ "return $out;".toList), ⟨["x".toList], []⟩) ∧
    (quietValue (some (hoistedValue (.number 0)))).text = [] ∧
    (quietValue (some (.number 0))).text = "0".toList ∧
    (quietValue (some (.boolean false))).text = "false".toList := by
  refine ⟨by decide, by decide, by decide, by decide⟩

end VelocityLite
